import Mathlib

/-!
# ASS_TOP: greedy heuristic with bounded branching for the Team Orienteering Problem

A shallow embedding of `src/common/Utils.hpp` and `src/greedy/Kevin.cpp`.

* C++ `double` quantities of the instance and of the solution (distances, profits, travel
  times) are exact rationals; the values that the rating arithmetic can produce in addition
  (`INFINITY`, `-INFINITY`, the result of `INFINITY - INFINITY`) are the extra constructors of
  `Dbl`. Rounding is not modelled: finite values are computed exactly where the program
  rounds in binary64. The guards, the sentinel `-inf` and the special values do not depend on
  it; a statement about the size or the sign of a finite rating is a statement about the
  program only where the operations of the rating are exact in binary64, and the theorem on
  the scenario of §8 is stated for such inputs.
* `idx_t` is `Nat`.
* A C++ `throw`, an operation the C++ standard or the solution interface leaves undefined, and
  running out of recursion fuel are the constructors of `Failure`; functions that can fail
  return `Except Failure _`.
* Mutation of `TOP_Output& out` is explicit state passing.
* The recursion of `InsertPoint` and the loop of `SolverGreedy` take fuel; `InsertPoint_total`
  shows that the fuel `SolverGreedy` hands to `InsertPoint` always suffices. The loop of
  `SolverAll` is bounded by its own counter.
* `TOP_Input` and `TOP_Output` are declared in a header that is not among the sources; they are
  modelled from the interface the specification gives (§3, §6). The meaning of the third
  argument of `MoveCar`, and of its omission, is read from the calls in Kevin.cpp: it forces
  the move.
-/

namespace ASS_TOP

/-! ## Numbers -/

/-- The source's `typedef int idx_t` (only non-negative indices occur). -/
abbrev idx_t := Nat

/-- Values of a C++ `double` expression: a finite value, the two infinities, or not-a-number. -/
inductive Dbl where
  | fin (q : ℚ)
  | pinf
  | ninf
  | nan
  deriving DecidableEq

namespace Dbl

/-- Unary minus. -/
def neg : Dbl → Dbl
  | fin q => fin (-q)
  | pinf => ninf
  | ninf => pinf
  | nan => nan

/-- Addition with the IEEE rules for the special values. -/
def add : Dbl → Dbl → Dbl
  | nan, _ => nan
  | _, nan => nan
  | fin a, fin b => fin (a + b)
  | pinf, ninf => nan
  | ninf, pinf => nan
  | pinf, _ => pinf
  | ninf, _ => ninf
  | fin _, pinf => pinf
  | fin _, ninf => ninf

/-- Subtraction: `x - y = x + (-y)`. -/
def sub (x y : Dbl) : Dbl := add x (neg y)

/-- The infinity with the sign of `q * s`, where `s` is `1` for `pinf` and `-1` for `ninf`;
not-a-number when `q = 0`. -/
def scaleInf (q : ℚ) (positive : Bool) : Dbl :=
  if q = 0 then nan
  else if (0 < q) = positive then pinf
  else ninf

/-- Multiplication with the IEEE rules for the special values. -/
def mul : Dbl → Dbl → Dbl
  | nan, _ => nan
  | _, nan => nan
  | fin a, fin b => fin (a * b)
  | fin a, pinf => scaleInf a true
  | fin a, ninf => scaleInf a false
  | pinf, fin b => scaleInf b true
  | ninf, fin b => scaleInf b false
  | pinf, pinf => pinf
  | ninf, ninf => pinf
  | pinf, ninf => ninf
  | ninf, pinf => ninf

/-- Division with the IEEE rules for the special values and for a zero divisor (the zero of
the model is the positive zero). -/
def div : Dbl → Dbl → Dbl
  | nan, _ => nan
  | _, nan => nan
  | fin a, fin b =>
    if b = 0 then (if a = 0 then nan else if 0 < a then pinf else ninf) else fin (a / b)
  | fin _, pinf => fin 0
  | fin _, ninf => fin 0
  | pinf, fin b => if 0 ≤ b then pinf else ninf
  | ninf, fin b => if 0 ≤ b then ninf else pinf
  | pinf, pinf => nan
  | pinf, ninf => nan
  | ninf, pinf => nan
  | ninf, ninf => nan

/-- The C++ test `x < 0`. -/
def ltZero : Dbl → Bool
  | fin q => decide (q < 0)
  | ninf => true
  | _ => false

/-- The C++ test `x == 0`. -/
def eqZero : Dbl → Bool
  | fin q => decide (q = 0)
  | _ => false

end Dbl

/-! ## Failures -/

/-- The ways in which a call can fail to return normally. -/
inductive Failure where
  /-- The exception thrown at Kevin.cpp:236, "Insert failed but check feasibility passed". -/
  | insertFailed
  /-- The exception thrown at Kevin.cpp:241, "Cannot reinsert the last point but check
  feasibility passed". -/
  | reinsertFailed
  /-- An operation with undefined behaviour: `RollbackCar` on a car without a committed move,
  indexing a vector out of range, `front()` of an empty vector. -/
  | undefinedBehaviour
  /-- The recursion fuel of the model is exhausted (the C++ call has not returned yet). -/
  | outOfFuel
  deriving DecidableEq

/-! ## Problem instance and solution -/

/-- Modelled from the spec: `TOP_Input`, whose header is not part of the sources (§3, §6:
point count, car count, time budget, per-point profit, pairwise distance). -/
structure TOP_Input where
  Points : Nat
  Cars : Nat
  MaxTime : ℚ
  Profit : idx_t → ℚ
  Distance : idx_t → idx_t → ℚ

/-- Modelled from the spec: `TOP_Input::StartPoint` (§3: index 0 is the start depot). -/
def TOP_Input.StartPoint (_inp : TOP_Input) : idx_t := 0

/-- Modelled from the spec: `TOP_Input::EndPoint` (§3: index `N-1` is the end depot). -/
def TOP_Input.EndPoint (inp : TOP_Input) : idx_t := inp.Points - 1

/-- Modelled from the spec: `TOP_Output`, whose header is not part of the sources (§3: per-car
routes and travel times, a derived visited set, total collected profit). `car_hops c` lists the
points car `c` has moved to, oldest first; its route is the start depot followed by them, so
the invariant "a route begins at the start depot" is built in. -/
structure TOP_Output where
  car_hops : idx_t → List idx_t
  travel_time : idx_t → ℚ
  point_profit : ℚ

/-- The result of a (simulated) move. -/
structure CarMoveResult where
  feasible : Bool
  extraTravelTime : ℚ

namespace TOP_Output

/-- The route of a car: the start depot, then its committed moves (§3). -/
def Route (inp : TOP_Input) (out : TOP_Output) (car : idx_t) : List idx_t :=
  inp.StartPoint :: out.car_hops car

/-- Modelled from the spec: `RouteLength(car)`. -/
def Hops (inp : TOP_Input) (out : TOP_Output) (car : idx_t) : Nat :=
  (out.Route inp car).length

/-- Modelled from the spec: `RouteEntry(car, i)`. -/
def Hop (inp : TOP_Input) (out : TOP_Output) (car : idx_t) (i : Nat) : idx_t :=
  (out.Route inp car).getD i inp.StartPoint

/-- Modelled from the spec: `CurrentPosition(car)`, the last route entry (§3). -/
def CarPoint (inp : TOP_Input) (out : TOP_Output) (car : idx_t) : idx_t :=
  (out.car_hops car).getLastD inp.StartPoint

/-- Modelled from the spec: `ElapsedTime(car)`. -/
def TravelTime (out : TOP_Output) (car : idx_t) : ℚ := out.travel_time car

/-- Modelled from the spec: `TotalProfit()`. -/
def PointProfit (out : TOP_Output) : ℚ := out.point_profit

/-- Modelled from the spec: `IsVisited(point)`, derived from the routes (§3): the point is on
the route of one of the cars. -/
def Visited (inp : TOP_Input) (out : TOP_Output) (p : idx_t) : Bool :=
  (List.range inp.Cars).any fun c => decide (p ∈ out.Route inp c)

/-- The time a car standing at `pos` adds by going to `p`. A travel time includes the closing
leg to the end depot, as the arithmetic of `InsertPoint` (Kevin.cpp:225-230) shows. -/
def extraTime (inp : TOP_Input) (pos p : idx_t) : ℚ :=
  inp.Distance pos p + inp.Distance p inp.EndPoint - inp.Distance pos inp.EndPoint

/-- Modelled from the spec: `SimulateMove(car, point)` (§6), never mutates. A move is feasible
when the resulting travel time does not exceed the time budget (§3, and the check that
Kevin.cpp:234-236 expects to agree with it). -/
def SimulateMoveCar (inp : TOP_Input) (out : TOP_Output) (car p : idx_t) : CarMoveResult :=
  let extra := extraTime inp (out.CarPoint inp car) p
  { feasible := decide (out.travel_time car + extra ≤ inp.MaxTime), extraTravelTime := extra }

/-- The state after car `car` has moved to `p`: the point is appended to the route (hence
visited), the travel time and the total profit are updated (§6). -/
def applyMove (inp : TOP_Input) (out : TOP_Output) (car p : idx_t) : TOP_Output :=
  { car_hops := Function.update out.car_hops car (out.car_hops car ++ [p])
    travel_time := Function.update out.travel_time car
      (out.travel_time car + extraTime inp (out.CarPoint inp car) p)
    point_profit := out.point_profit + inp.Profit p }

/-- Modelled from the spec: `TryMove(car, point, ...)` (§6): the same computation as
`SimulateMoveCar`, and the move is applied when it is feasible. The third positional argument is
read from the way Kevin.cpp uses it: it is `false` at every call whose `.feasible` is tested and
which leaves the solution alone when the test fails (:235, :240, :247, :303, :330), and it is
omitted only at :116, where the result is discarded and `RollbackCar` follows unconditionally.
So the argument forces the move, and its default, which the model writes out at :116, is
`true`: a forced move is applied also when it is infeasible. -/
def MoveCar (inp : TOP_Input) (out : TOP_Output) (car p : idx_t) (force : Bool) :
    TOP_Output × CarMoveResult :=
  let res := out.SimulateMoveCar inp car p
  if res.feasible || force then (out.applyMove inp car p, res) else (out, res)

/-- Modelled from the spec: `Rollback(car)` (§6, §8): undoes the most recently committed move
of the car (route one entry shorter, travel time back to its value before the move, the point
no longer on the route, its profit no longer counted); `none` (undefined) when the car has no
committed move. -/
def RollbackCar (inp : TOP_Input) (out : TOP_Output) (car : idx_t) : Option TOP_Output :=
  match (out.car_hops car).getLast? with
  | none => none
  | some p =>
    let hops := (out.car_hops car).dropLast
    some
      { car_hops := Function.update out.car_hops car hops
        travel_time := Function.update out.travel_time car
          (out.travel_time car - extraTime inp (hops.getLastD inp.StartPoint) p)
        point_profit := out.point_profit - inp.Profit p }

/-- The effect of `n` successive `RollbackCar` calls on the same car. -/
def RollbackCarN (inp : TOP_Input) (car : idx_t) : Nat → TOP_Output → Option TOP_Output
  | 0, out => some out
  | n + 1, out =>
    match out.RollbackCar inp car with
    | none => none
    | some out1 => RollbackCarN inp car n out1

end TOP_Output

/-! ## `src/common/Utils.hpp` -/

/-- The inverted comparison predicate `so_negcmp<double>`: returns `y - x`. -/
def so_negcmp (x y : Dbl) : Dbl := Dbl.sub y x

/-- One iteration of the loop of `min_elements` (Utils.hpp:84-96) on the pair
`(minimumIdxs, minimumValue)`. -/
def min_elements_step {V : Type} (pred : V → V → Dbl) (prov : idx_t → V)
    (acc : List idx_t × V) (currentIdx : idx_t) : List idx_t × V :=
  let currentValue := prov currentIdx
  let order := pred currentValue acc.2
  if order.ltZero then ([currentIdx], currentValue)
  else if order.eqZero then (acc.1 ++ [currentIdx], acc.2)
  else acc

/-- The iterator version of `min_elements` (Utils.hpp:73-98) on the index sequence `idxs`. -/
def min_elements_it {V : Type} (idxs : List idx_t) (pred : V → V → Dbl) (prov : idx_t → V) :
    List idx_t :=
  match idxs with
  | [] => []
  | first :: rest => (rest.foldl (min_elements_step pred prov) ([first], prov first)).1

/-- The size version of `min_elements` (Utils.hpp:119-122): iterates over `0, ..., size-1`. -/
def min_elements {V : Type} (size : idx_t) (pred : V → V → Dbl) (prov : idx_t → V) :
    List idx_t :=
  min_elements_it (List.range size) pred prov

/-- The call `*std::min_element(carIdxs.begin(), carIdxs.end(), comp)` on the range
`0, ..., n-1`: the first element that no later one is smaller than; for an empty range the end
iterator, whose value is `n`. -/
def min_element (n : idx_t) (comp : idx_t → idx_t → Bool) : idx_t :=
  match List.range n with
  | [] => n
  | first :: rest => rest.foldl (fun smallest c => if comp c smallest then c else smallest) first

/-! ## `src/greedy/Kevin.cpp` -/

/-- The distance between point `p` and the current position of `car` (Kevin.cpp:97-99). -/
def calculateDistance (inp : TOP_Input) (out : TOP_Output) (p car : idx_t) : ℚ :=
  inp.Distance p (out.CarPoint inp car)

/-- Is there a car that can move to `p` (Kevin.cpp:101-111). -/
def verifyFeasibility (inp : TOP_Input) (out : TOP_Output) (p : idx_t) : Bool :=
  (List.range inp.Cars).any fun car => (out.SimulateMoveCar inp car p).feasible

/-- The profit collected by the loop of `NonChoicheCost` (Kevin.cpp:117-125): that of the first
unvisited point the car can move to, or zero. -/
def profitEllipse (inp : TOP_Input) (out : TOP_Output) (car : idx_t) : ℚ :=
  match (List.range inp.Points).find?
      (fun point => !out.Visited inp point && (out.SimulateMoveCar inp car point).feasible) with
  | some point => 0 + inp.Profit point
  | none => 0

/-- The third rating term (Kevin.cpp:113-131); returns the state left behind and the value.
The call of `MoveCar` at :116 omits the third argument; the model writes its default out, which
forces the move (see `TOP_Output.MoveCar`). The quotient is exact where the program rounds. -/
def NonChoicheCost (inp : TOP_Input) (out : TOP_Output) (car p : idx_t) (sumProfit : ℚ) :
    Except Failure (TOP_Output × Dbl) :=
  let out1 := (out.MoveCar inp car p true).1
  let ellipse := profitEllipse inp out1 car
  match out1.RollbackCar inp car with
  | none => .error .undefinedBehaviour
  | some out2 =>
    if sumProfit = 0 then .ok (out2, .pinf)
    else .ok (out2, Dbl.div (.fin ellipse) (.fin sumProfit))

/-- The car nearest to `p`, as selected at Kevin.cpp:162-164. -/
def nearestCar (inp : TOP_Input) (out : TOP_Output) (p : idx_t) : idx_t :=
  min_element inp.Cars fun c1 c2 =>
    decide (calculateDistance inp out p c1 < calculateDistance inp out p c2)

/-- The rating of point `p` (Kevin.cpp:133-179); returns the state left behind and the
rating. The guards and the order of the operands are those of the source; the finite
arithmetic is exact where the program rounds in binary64 and can overflow. -/
def RatingChoice (inp : TOP_Input) (out : TOP_Output) (p : idx_t) (wProfit wTime wNonCost : Dbl) :
    Except Failure (TOP_Output × Dbl) :=
  let profit := inp.Profit p
  if out.Visited inp p || !verifyFeasibility inp out p then .ok (out, .ninf)
  else
    let notVisited := (List.range inp.Points).filter fun q => !out.Visited inp q
    let sumProfit := (notVisited.map inp.Profit).sum
    let notVisitedCount : ℚ := notVisited.length
    let meanProfit : Dbl := if notVisitedCount = 0 then .pinf else .fin (sumProfit / notVisitedCount)
    let chosenCar := nearestCar inp out p
    let gamma := Dbl.div (.fin (out.TravelTime chosenCar)) (.fin inp.MaxTime)
    let extraTravelTimeNorm : Dbl :=
      if inp.MaxTime - out.TravelTime chosenCar = 0 then .pinf
      else .fin ((out.SimulateMoveCar inp chosenCar p).extraTravelTime /
        (inp.MaxTime - out.TravelTime chosenCar))
    match NonChoicheCost inp out chosenCar p sumProfit with
    | .error e => .error e
    | .ok (out1, noChoice) =>
      .ok (out1, Dbl.add
        (Dbl.sub (Dbl.mul (Dbl.div (.fin profit) meanProfit) wProfit)
          (Dbl.mul (Dbl.mul gamma extraTravelTimeNorm) wTime))
        (Dbl.mul noChoice wNonCost))

/-- The candidates of `InsertPoint` (Kevin.cpp:188-205): the unvisited points other than the
depots whose detour between the previous and the current position of the car is admitted. -/
def inEllipse (inp : TOP_Input) (out : TOP_Output) (car : idx_t) (maxDeviationAdmitted : ℚ) :
    List idx_t :=
  let prev := out.Hop inp car (out.Hops inp car - 2)
  (List.range' 1 (inp.Points - 2)).filter fun point =>
    !out.Visited inp point &&
      decide (inp.Distance (out.CarPoint inp car) point + inp.Distance prev point -
        inp.Distance (out.CarPoint inp car) prev ≤ maxDeviationAdmitted)

/-- The call `std::sort` at Kevin.cpp:219-221, by distance from the current position of the car.
`std::sort` leaves the order of candidates at equal distance unspecified; the model fixes one
of the orders it may produce, the one that keeps the input order (§4.3). The theorems on
`InsertPoint` use of this order only that its first entry is a candidate of least distance. -/
def sortEllipse (inp : TOP_Input) (out : TOP_Output) (car : idx_t) (l : List idx_t) : List idx_t :=
  l.insertionSort fun p1 p2 =>
    inp.Distance p1 (out.CarPoint inp car) ≤ inp.Distance p2 (out.CarPoint inp car)

/-- The local insertion optimizer (Kevin.cpp:181-262); returns the state left behind and the
number of insertions. One unit of fuel is one call. -/
def InsertPoint (inp : TOP_Input) (car : idx_t) (maxDeviationAdmitted : ℚ) :
    Nat → TOP_Output → Except Failure (TOP_Output × Nat)
  | 0, _ => .error .outOfFuel
  | fuel + 1, out =>
    if out.CarPoint inp car ≠ inp.StartPoint then
      let ellipse := inEllipse inp out car maxDeviationAdmitted
      if ellipse ≠ [] then
        let lastNode := out.CarPoint inp car
        match out.RollbackCar inp car with
        | none => .error .undefinedBehaviour
        | some out1 =>
          match sortEllipse inp out1 car ellipse with
          | [] => .error .undefinedBehaviour
          | node :: _ =>
            let dist := out1.TravelTime car -
              inp.Distance (out1.CarPoint inp car) inp.EndPoint +
              inp.Distance (out1.CarPoint inp car) node +
              inp.Distance node lastNode +
              inp.Distance lastNode inp.EndPoint
            if dist ≤ inp.MaxTime then
              let m2 := out1.MoveCar inp car node false
              if !m2.2.feasible then .error .insertFailed
              else
                let m3 := m2.1.MoveCar inp car lastNode false
                if !m3.2.feasible then .error .reinsertFailed
                else
                  match InsertPoint inp car maxDeviationAdmitted fuel m3.1 with
                  | .error e => .error e
                  | .ok (out4, k) => .ok (out4, 1 + k)
            else
              -- Kevin.cpp:247-249 builds a runtime_error here and does not throw it
              let m2 := out1.MoveCar inp car lastNode false
              .ok (m2.1, 0)
      else .ok (out, 0)
    else
      -- Kevin.cpp:259 builds a runtime_error here and does not throw it
      .ok (out, 0)

/-- The rating lambda that `SolverGreedy` hands to `min_elements` (Kevin.cpp:272-277). -/
def rating (inp : TOP_Input) (wProfit wTime wNonCost : Dbl) (out : TOP_Output) (p : idx_t) :
    Except Failure (TOP_Output × Dbl) :=
  if !verifyFeasibility inp out p then .ok (out, .ninf)
  else RatingChoice inp out p wProfit wTime wNonCost

/-- The calls of the rating lambda that `min_elements` makes, one per point in index order;
the lambda holds `out` by reference, so the state is threaded through them. -/
def ratePoints (inp : TOP_Input) (wProfit wTime wNonCost : Dbl) :
    List idx_t → TOP_Output → Except Failure (TOP_Output × List Dbl)
  | [], out => .ok (out, [])
  | p :: ps, out =>
    match rating inp wProfit wTime wNonCost out p with
    | .error e => .error e
    | .ok (out1, r) =>
      match ratePoints inp wProfit wTime wNonCost ps out1 with
      | .error e => .error e
      | .ok (out2, rs) => .ok (out2, r :: rs)

/-- The car selected for `chosenPoint` (Kevin.cpp:291-296 and 319-324): marked cars compare as
infinitely distant. -/
def chooseCar (inp : TOP_Input) (out : TOP_Output) (markedCars : List Bool) (chosenPoint : idx_t) :
    idx_t :=
  min_element inp.Cars fun c1 c2 =>
    if markedCars.getD c1 false then false
    else if markedCars.getD c2 false then true
    else decide (calculateDistance inp out chosenPoint c1 < calculateDistance inp out chosenPoint c2)

/-- The body of the loop over the non-canonical tied points (Kevin.cpp:287-313) for one point,
on the pair of the pool and the working solution. -/
def speculativeBranch (inp : TOP_Input) (maxDeviationAdmitted : ℚ) (markedCars : List Bool)
    (st : List TOP_Output × TOP_Output) (chosenPoint : idx_t) :
    Except Failure (List TOP_Output × TOP_Output) :=
  let chosenCar := chooseCar inp st.2 markedCars chosenPoint
  match markedCars[chosenCar]? with
  | none => .error .undefinedBehaviour
  | some true => .ok st
  | some false =>
    if st.2.Visited inp chosenPoint then .ok st
    else
      let m := st.2.MoveCar inp chosenCar chosenPoint false
      if m.2.feasible then
        match InsertPoint inp chosenCar maxDeviationAdmitted (inp.Points + 1) m.1 with
        | .error e => .error e
        | .ok (out1, backhops) =>
          match out1.RollbackCarN inp chosenCar (backhops + 1) with
          | none => .error .undefinedBehaviour
          | some out2 => .ok (st.1 ++ [out1], out2)
      else .ok (st.1, m.1)

/-- The loop over the non-canonical tied points (Kevin.cpp:287-313). -/
def speculativeBranches (inp : TOP_Input) (maxDeviationAdmitted : ℚ) (markedCars : List Bool) :
    List idx_t → List TOP_Output × TOP_Output → Except Failure (List TOP_Output × TOP_Output)
  | [], st => .ok st
  | p :: ps, st =>
    match speculativeBranch inp maxDeviationAdmitted markedCars st p with
    | .error e => .error e
    | .ok st1 => speculativeBranches inp maxDeviationAdmitted markedCars ps st1

/-- The loop of `SolverGreedy` (Kevin.cpp:269-340) on the marked cars, the pool and the working
solution. One unit of fuel is one iteration. -/
def SolverGreedyLoop (inp : TOP_Input) (wProfit wTime : Dbl) (maxDeviationAdmitted : ℚ)
    (wNonCost : Dbl) :
    Nat → List Bool → List TOP_Output → TOP_Output → Except Failure (List TOP_Output × TOP_Output)
  | 0, _, _, _ => .error .outOfFuel
  | fuel + 1, markedCars, partial_solutions, out =>
    match ratePoints inp wProfit wTime wNonCost (List.range inp.Points) out with
    | .error e => .error e
    | .ok (out1, ratings) =>
      let maxPoints := min_elements inp.Points so_negcmp fun p => ratings.getD p .nan
      match speculativeBranches inp maxDeviationAdmitted markedCars (maxPoints.drop 1)
          (partial_solutions, out1) with
      | .error e => .error e
      | .ok (pool, out2) =>
        match maxPoints.head? with
        | none => .error .undefinedBehaviour
        | some chosenPoint =>
          let chosenCar := chooseCar inp out2 markedCars chosenPoint
          match markedCars[chosenCar]? with
          | none => .error .undefinedBehaviour
          | some true => .ok (pool, out2)
          | some false =>
            if out2.Visited inp chosenPoint then
              SolverGreedyLoop inp wProfit wTime maxDeviationAdmitted wNonCost fuel
                (markedCars.set chosenCar true) pool out2
            else
              let m := out2.MoveCar inp chosenCar chosenPoint false
              if !m.2.feasible then
                SolverGreedyLoop inp wProfit wTime maxDeviationAdmitted wNonCost fuel
                  (markedCars.set chosenCar true) pool m.1
              else
                match InsertPoint inp chosenCar maxDeviationAdmitted (inp.Points + 1) m.1 with
                | .error e => .error e
                | .ok (out3, _) =>
                  SolverGreedyLoop inp wProfit wTime maxDeviationAdmitted wNonCost fuel
                    markedCars pool out3

/-- The greedy assignment driver (Kevin.cpp:264-347); returns the pool and the solution it
leaves. The random source of the C++ signature is not used by the code and is left out. -/
def SolverGreedy (fuel : Nat) (partial_solutions : List TOP_Output) (inp : TOP_Input)
    (out : TOP_Output) (wProfit wTime : Dbl) (maxDeviationAdmitted : ℚ) (wNonCost : Dbl) :
    Except Failure (List TOP_Output × TOP_Output) :=
  SolverGreedyLoop inp wProfit wTime maxDeviationAdmitted wNonCost fuel
    (List.replicate inp.Cars false) partial_solutions out

/-- The loop of `SolverGreedy` (Kevin.cpp:269-340) once more, with the value that its local
variable `markedCars` has at the `break` of :326-328 handed back next to the pool and the
solution; `SolverGreedyLoop_eq_marked` shows that it is `SolverGreedyLoop` otherwise. -/
def SolverGreedyLoopMarked (inp : TOP_Input) (wProfit wTime : Dbl) (maxDeviationAdmitted : ℚ)
    (wNonCost : Dbl) :
    Nat → List Bool → List TOP_Output → TOP_Output →
      Except Failure (List Bool × List TOP_Output × TOP_Output)
  | 0, _, _, _ => .error .outOfFuel
  | fuel + 1, markedCars, partial_solutions, out =>
    match ratePoints inp wProfit wTime wNonCost (List.range inp.Points) out with
    | .error e => .error e
    | .ok (out1, ratings) =>
      let maxPoints := min_elements inp.Points so_negcmp fun p => ratings.getD p .nan
      match speculativeBranches inp maxDeviationAdmitted markedCars (maxPoints.drop 1)
          (partial_solutions, out1) with
      | .error e => .error e
      | .ok (pool, out2) =>
        match maxPoints.head? with
        | none => .error .undefinedBehaviour
        | some chosenPoint =>
          let chosenCar := chooseCar inp out2 markedCars chosenPoint
          match markedCars[chosenCar]? with
          | none => .error .undefinedBehaviour
          | some true => .ok (markedCars, pool, out2)
          | some false =>
            if out2.Visited inp chosenPoint then
              SolverGreedyLoopMarked inp wProfit wTime maxDeviationAdmitted wNonCost fuel
                (markedCars.set chosenCar true) pool out2
            else
              let m := out2.MoveCar inp chosenCar chosenPoint false
              if !m.2.feasible then
                SolverGreedyLoopMarked inp wProfit wTime maxDeviationAdmitted wNonCost fuel
                  (markedCars.set chosenCar true) pool m.1
              else
                match InsertPoint inp chosenCar maxDeviationAdmitted (inp.Points + 1) m.1 with
                | .error e => .error e
                | .ok (out3, _) =>
                  SolverGreedyLoopMarked inp wProfit wTime maxDeviationAdmitted wNonCost fuel
                    markedCars pool out3

/-- The variables of `SolverAll` at the head of its loop, with two ghost fields that record
the execution: the solutions popped so far and the solutions `SolverGreedy` has completed so
far, both in order. -/
structure SolverAllState where
  partial_solutions : List TOP_Output
  out : TOP_Output
  cnt : Nat
  popped : List TOP_Output
  solved : List TOP_Output

/-- The loop of `SolverAll` (Kevin.cpp:356-378) around an arbitrary driver. One unit of fuel is
one iteration. -/
def SolverAllLoop
    (greedy : List TOP_Output → TOP_Output → Except Failure (List TOP_Output × TOP_Output)) :
    Nat → SolverAllState → Except Failure SolverAllState
  | 0, _ => .error .outOfFuel
  | fuel + 1, st =>
    match st.partial_solutions.getLast? with
    | none => .ok st
    | some lastSol =>
      let pool := st.partial_solutions.dropLast
      let cnt := st.cnt + 1
      if cnt = 512 then
        .ok { st with partial_solutions := pool, cnt := cnt, popped := st.popped ++ [lastSol] }
      else
        match greedy pool lastSol with
        | .error e => .error e
        | .ok (pool1, lastSol1) =>
          SolverAllLoop greedy fuel
            { partial_solutions := pool1
              out := if lastSol1.PointProfit > st.out.PointProfit then lastSol1 else st.out
              cnt := cnt
              popped := st.popped ++ [lastSol]
              solved := st.solved ++ [lastSol1] }

/-- The execution of `SolverAll` (Kevin.cpp:349-380), with its record: the loop is entered with
the input solution as the only pool entry and runs at most 512 times. `fuel` is the fuel of
each `SolverGreedy` run. -/
def SolverAllRun (fuel : Nat) (inp : TOP_Input) (out : TOP_Output) (wProfit wTime : Dbl)
    (maxDeviationAdmitted : ℚ) (wNonCost : Dbl) : Except Failure SolverAllState :=
  SolverAllLoop
    (fun pool lastSol =>
      SolverGreedy fuel pool inp lastSol wProfit wTime maxDeviationAdmitted wNonCost)
    512
    { partial_solutions := [out], out := out, cnt := 0, popped := [], solved := [] }

/-- The branch manager (Kevin.cpp:349-380): the value of `out` when it returns. -/
def SolverAll (fuel : Nat) (inp : TOP_Input) (out : TOP_Output) (wProfit wTime : Dbl)
    (maxDeviationAdmitted : ℚ) (wNonCost : Dbl) : Except Failure TOP_Output :=
  match SolverAllRun fuel inp out wProfit wTime maxDeviationAdmitted wNonCost with
  | .error e => .error e
  | .ok st => .ok st.out

/-- The number of unvisited points other than the depots: the measure that bounds the depth of
the recursion of `InsertPoint`. -/
def unvisitedInner (inp : TOP_Input) (out : TOP_Output) : Nat :=
  ((List.range' 1 (inp.Points - 2)).filter fun q => !out.Visited inp q).length

/-- The number of unvisited points: with the number of unmarked cars, the measure that bounds
the number of iterations of the loop of `SolverGreedy`. -/
def unvisitedCount (inp : TOP_Input) (out : TOP_Output) : Nat :=
  ((List.range inp.Points).filter fun q => !out.Visited inp q).length

/-! ## Concrete instances -/

/-- The solution in which no car has moved: every travel time is the depot-to-depot
distance. -/
def emptySolution (inp : TOP_Input) : TOP_Output :=
  { car_hops := fun _ => []
    travel_time := fun _ => inp.Distance inp.StartPoint inp.EndPoint
    point_profit := 0 }

/-- The distance between two grid positions, along the grid. -/
def gridDistance (a b : Int × Int) : ℚ :=
  ((a.1 - b.1).natAbs + (a.2 - b.2).natAbs : Nat)

/-- Two cars, time budget 8; both depots at the origin, point 1 at (3,-1) and point 2 at (3,1),
each with profit 1. -/
def twoCarInstance : TOP_Input :=
  { Points := 4
    Cars := 2
    MaxTime := 8
    Profit := fun p => if p = 1 ∨ p = 2 then 1 else 0
    Distance := fun a b =>
      let pos : idx_t → Int × Int := fun p => if p = 1 then (3, -1) else if p = 2 then (3, 1) else (0, 0)
      gridDistance (pos a) (pos b) }

/-- The solution of `twoCarInstance` in which car 0 has moved to point 1 (travel time 8) and
car 1 has not moved. -/
def twoCarSolution : TOP_Output :=
  ((emptySolution twoCarInstance).MoveCar twoCarInstance 0 1 false).1

/-- One car, time budget 6; the points lie on a line: both depots at 0, point 1 at 4 and point 2
at 2, each with profit 1. -/
def lineInstance : TOP_Input :=
  { Points := 4
    Cars := 1
    MaxTime := 6
    Profit := fun p => if p = 1 ∨ p = 2 then 1 else 0
    Distance := fun a b =>
      let pos : idx_t → Int := fun p => if p = 1 then 4 else if p = 2 then 2 else 0
      ((pos a - pos b).natAbs : Nat) }

/-- The solution of `lineInstance` in which the car has gone to point 1: its travel time 8 is
over the budget 6. -/
def lineOverBudget : TOP_Output :=
  (emptySolution lineInstance).applyMove lineInstance 0 1

/-- The instance `lineInstance` with time budget 8. -/
def lineInstanceWide : TOP_Input :=
  { lineInstance with MaxTime := 8 }

/-- The solution of `lineInstanceWide` reached from the empty one by the feasible move of the
car to point 1, at travel time 8. -/
def wideAtOne : TOP_Output :=
  ((emptySolution lineInstanceWide).MoveCar lineInstanceWide 0 1 false).1

/-- The ratings used to exercise `min_elements`: points 1 and 2 share the largest rating. -/
def tiedRatings (i : idx_t) : ℚ :=
  if i = 1 ∨ i = 2 then 5 else 1

/-- One car, time budget 10; five points on a grid: both depots at (0,0), point 1 at (0,1),
point 2 at (4,-1), point 3 at (4,0), the inner points with profit 1; distances are measured
along the grid. -/
def detourInstance : TOP_Input :=
  { Points := 5
    Cars := 1
    MaxTime := 10
    Profit := fun p => if p = 0 ∨ p = 4 then 0 else 1
    Distance := fun a b =>
      let pos : idx_t → Int × Int := fun p =>
        if p = 1 then (0, 1) else if p = 2 then (4, -1) else if p = 3 then (4, 0) else (0, 0)
      gridDistance (pos a) (pos b) }

/-- The solution of `detourInstance` reached from the empty one by the feasible move of the car
to point 3, at travel time 8. -/
def detourAtThree : TOP_Output :=
  ((emptySolution detourInstance).MoveCar detourInstance 0 3 false).1

/-- The instance `lineInstance` with every profit zero. -/
def zeroProfitInstance : TOP_Input :=
  { lineInstance with Profit := fun _ => 0 }

/-- The solution of `zeroProfitInstance` reached from the empty one by the feasible move of the
car to the end depot, at travel time 0. -/
def zeroProfitAtEnd : TOP_Output :=
  ((emptySolution zeroProfitInstance).MoveCar zeroProfitInstance 0 3 false).1

/-- The solution of `twoCarInstance` reached from the empty one by the feasible move of car 0 to
point 2, at travel time 8; car 1 has not moved. -/
def twoCarAtTwo : TOP_Output :=
  ((emptySolution twoCarInstance).MoveCar twoCarInstance 0 2 false).1

/-- One car, time budget 10; three points on a line: the start depot at 0, point 1 at 15 and the
end depot at 30. No point can be reached within the budget. -/
def farInstance : TOP_Input :=
  { Points := 3
    Cars := 1
    MaxTime := 10
    Profit := fun p => if p = 1 then 1 else 0
    Distance := fun a b => ((15 * (a : Int) - 15 * (b : Int)).natAbs : Nat) }

/-- The instance of the scenario of §8: one car, time budget 10, the start depot 0, the
intermediate point 1 with profit `profit` at distance 5 from both depots, the end depot 2 at
distance `depotDistance` from the start depot. -/
def scenarioInstance (depotDistance profit : ℚ) : TOP_Input :=
  { Points := 3
    Cars := 1
    MaxTime := 10
    Profit := fun p => if p = 1 then profit else 0
    Distance := fun a b => if a = b then 0 else if a = 1 ∨ b = 1 then 5 else depotDistance }

/-! ## Invariants of the branch manager -/

/-- The solution `best` kept by `SolverAll` after the solutions `solved` have been completed, in
this order, starting from `out0`: it is `out0` when no completed solution has a larger profit,
and otherwise the first completed solution whose profit is strictly larger than that of `out0`
and of all completed before it, and at least that of all completed after it. -/
def FirstBest (out0 : TOP_Output) (solved : List TOP_Output) (best : TOP_Output) : Prop :=
  (best = out0 ∧ ∀ s ∈ solved, s.PointProfit ≤ out0.PointProfit) ∨
  ∃ pre post, solved = pre ++ best :: post ∧ out0.PointProfit < best.PointProfit ∧
    (∀ s ∈ pre, s.PointProfit < best.PointProfit) ∧ ∀ s ∈ post, s.PointProfit ≤ best.PointProfit

/-- The solution `s` is what a run of the driver on `lastSol` has completed. -/
def CompletedFrom
    (greedy : List TOP_Output → TOP_Output → Except Failure (List TOP_Output × TOP_Output))
    (lastSol s : TOP_Output) : Prop :=
  ∃ pool pool', greedy pool lastSol = .ok (pool', s)

/-- What holds of the variables of `SolverAll` at the head of its loop, for the input solution
`out0`. -/
def SolverAllInv
    (greedy : List TOP_Output → TOP_Output → Except Failure (List TOP_Output × TOP_Output))
    (out0 : TOP_Output) (st : SolverAllState) : Prop :=
  out0.PointProfit ≤ st.out.PointProfit ∧
  FirstBest out0 st.solved st.out ∧
  List.Forall₂ (CompletedFrom greedy) st.popped st.solved ∧
  st.popped.length = st.cnt ∧ st.cnt < 512

/-- What holds of the variables of `SolverAll` when its loop has ended. -/
def SolverAllFinal
    (greedy : List TOP_Output → TOP_Output → Except Failure (List TOP_Output × TOP_Output))
    (out0 : TOP_Output) (st : SolverAllState) : Prop :=
  out0.PointProfit ≤ st.out.PointProfit ∧
  FirstBest out0 st.solved st.out ∧
  List.Forall₂ (CompletedFrom greedy) (st.popped.take st.solved.length) st.solved ∧
  st.popped.length = st.cnt ∧ st.cnt ≤ 512 ∧
  (st.cnt < 512 → st.partial_solutions = [] ∧ st.solved.length = st.cnt) ∧
  (st.cnt = 512 → st.solved.length = 511)

/-! ## The time-budget invariant -/

/-- Every car of the instance has a travel time of at most `MaxTime` (§3). -/
def WithinBudget (inp : TOP_Input) (out : TOP_Output) : Prop :=
  ∀ car, car < inp.Cars → out.TravelTime car ≤ inp.MaxTime

/-! ## The solution interface -/

namespace TOP_Output

theorem ext_fields {a b : TOP_Output} (h1 : a.car_hops = b.car_hops)
    (h2 : a.travel_time = b.travel_time) (h3 : a.point_profit = b.point_profit) : a = b := by
  cases a; cases b; simp_all

theorem CarPoint_applyMove (inp : TOP_Input) (out : TOP_Output) (car p : idx_t) :
    (out.applyMove inp car p).CarPoint inp car = p := by
  simp [CarPoint, applyMove]

theorem travel_time_applyMove (inp : TOP_Input) (out : TOP_Output) (car p : idx_t) :
    (out.applyMove inp car p).travel_time car =
      out.travel_time car + extraTime inp (out.CarPoint inp car) p := by
  simp [applyMove]

/-- Rolling back right after a move restores the state before the move. -/
theorem RollbackCar_applyMove (inp : TOP_Input) (out : TOP_Output) (car p : idx_t) :
    (out.applyMove inp car p).RollbackCar inp car = some out := by
  simp only [RollbackCar, applyMove, Function.update_same, List.getLast?_concat,
    List.dropLast_concat, Function.update_idem, Function.update_eq_self]
  congr 1
  apply ext_fields <;> simp [CarPoint]

/-- Moving back to the point a rollback has removed restores the state before the rollback. -/
theorem applyMove_RollbackCar (inp : TOP_Input) (out out1 : TOP_Output) (car : idx_t)
    (h : out.RollbackCar inp car = some out1) :
    out1.applyMove inp car (out.CarPoint inp car) = out := by
  unfold RollbackCar at h
  cases hl : (out.car_hops car).getLast? with
  | none => simp [hl] at h
  | some p =>
    simp only [hl, Option.some.injEq] at h
    subst h
    have hd : (out.car_hops car).dropLast ++ [p] = out.car_hops car :=
      List.dropLast_append_getLast? p (by simp [hl])
    have hp : out.CarPoint inp car = p := by
      simp [CarPoint, List.getLastD_eq_getLast?, hl]
    apply ext_fields
    · simp [applyMove, hp, hd]
    · simp [applyMove, CarPoint, List.getLastD_eq_getLast?, hl]
    · simp [applyMove, hp]

theorem MoveCar_snd (inp : TOP_Input) (out : TOP_Output) (car p : idx_t) (b : Bool) :
    (out.MoveCar inp car p b).2 = out.SimulateMoveCar inp car p := by
  unfold MoveCar; dsimp only; split <;> rfl

theorem MoveCar_fst_of_feasible (inp : TOP_Input) (out : TOP_Output) (car p : idx_t) (b : Bool)
    (h : (out.SimulateMoveCar inp car p).feasible = true) :
    (out.MoveCar inp car p b).1 = out.applyMove inp car p := by
  unfold MoveCar; simp [h]

theorem MoveCar_fst_of_not_feasible (inp : TOP_Input) (out : TOP_Output) (car p : idx_t)
    (h : (out.SimulateMoveCar inp car p).feasible = false) :
    (out.MoveCar inp car p false).1 = out := by
  unfold MoveCar; simp [h]

theorem MoveCar_fst_forced (inp : TOP_Input) (out : TOP_Output) (car p : idx_t) :
    (out.MoveCar inp car p true).1 = out.applyMove inp car p := by
  unfold MoveCar; simp

theorem feasible_iff (inp : TOP_Input) (out : TOP_Output) (car p : idx_t) :
    (out.SimulateMoveCar inp car p).feasible = true ↔
      (out.applyMove inp car p).travel_time car ≤ inp.MaxTime := by
  simp [SimulateMoveCar, applyMove]

theorem RollbackCarN_succ_last (inp : TOP_Input) (car : idx_t) (n : Nat) (out : TOP_Output) :
    RollbackCarN inp car (n + 1) out =
      (RollbackCarN inp car n out).bind fun o => o.RollbackCar inp car := by
  induction n generalizing out with
  | zero =>
    simp only [RollbackCarN]
    cases h : out.RollbackCar inp car <;> simp [RollbackCarN, h]
  | succ n ih =>
    rw [RollbackCarN]
    cases h : out.RollbackCar inp car with
    | none => simp [RollbackCarN, h]
    | some o => simp only [ih o]; conv_rhs => rw [RollbackCarN]; simp only [h]

end TOP_Output

/-! ## The local insertion optimizer -/

open TOP_Output

theorem RollbackCarN_one (inp : TOP_Input) (car : idx_t) (out : TOP_Output) :
    RollbackCarN inp car 1 out = out.RollbackCar inp car := by
  simp only [RollbackCarN]
  cases h : out.RollbackCar inp car <;> simp

/-- Exactness of the insertion count: when the car is within its budget on entry and
`InsertPoint` returns `k`, then `k + 1` rollbacks lead to the state that one rollback leads to
from the entry state. -/
theorem InsertPoint_RollbackCarN (inp : TOP_Input) (car : idx_t) (maxDev : ℚ) :
    ∀ (fuel : Nat) (out out' : TOP_Output) (k : Nat),
      out.travel_time car ≤ inp.MaxTime →
      InsertPoint inp car maxDev fuel out = .ok (out', k) →
      RollbackCarN inp car (k + 1) out' = out.RollbackCar inp car := by
  intro fuel
  induction fuel with
  | zero => intro out out' k _ h; simp [InsertPoint] at h
  | succ fuel ih =>
    intro out out' k hT h
    rw [InsertPoint] at h
    dsimp only at h
    by_cases hc : out.CarPoint inp car ≠ inp.StartPoint
    · rw [if_pos hc] at h
      by_cases he : inEllipse inp out car maxDev ≠ []
      · rw [if_pos he] at h
        cases hr : out.RollbackCar inp car with
        | none => rw [hr] at h; simp at h
        | some out1 =>
          rw [hr] at h
          dsimp only at h
          have hback := applyMove_RollbackCar inp out out1 car hr
          cases hs : sortEllipse inp out1 car (inEllipse inp out car maxDev) with
          | nil => rw [hs] at h; simp at h
          | cons node rest =>
            rw [hs] at h
            dsimp only at h
            split at h
            · -- within the budget
              cases hf2 : (out1.SimulateMoveCar inp car node).feasible with
              | false => simp [MoveCar_snd, hf2] at h
              | true =>
                have e2 := MoveCar_fst_of_feasible inp out1 car node false hf2
                rw [e2] at h
                cases hf3 : ((out1.applyMove inp car node).SimulateMoveCar inp car
                    (out.CarPoint inp car)).feasible with
                | false => simp [MoveCar_snd, hf2, hf3] at h
                | true =>
                  have e3 := MoveCar_fst_of_feasible inp (out1.applyMove inp car node) car
                    (out.CarPoint inp car) false hf3
                  rw [e3] at h
                  simp only [MoveCar_snd, hf2, hf3, Bool.not_true, Bool.false_eq_true,
                    if_false] at h
                  cases hrec : InsertPoint inp car maxDev fuel
                      ((out1.applyMove inp car node).applyMove inp car (out.CarPoint inp car)) with
                  | error e => simp [hrec] at h
                  | ok r =>
                    obtain ⟨out4, k4⟩ := r
                    simp only [hrec, Except.ok.injEq, Prod.mk.injEq] at h
                    obtain ⟨rfl, rfl⟩ := h
                    have hT3 := (feasible_iff inp _ car _).1 hf3
                    have := ih _ _ _ hT3 hrec
                    rw [RollbackCar_applyMove] at this
                    rw [show 1 + k4 + 1 = (k4 + 1) + 1 by omega, RollbackCarN_succ_last, this]
                    simp [RollbackCar_applyMove]
            · -- over the budget: the last point is moved back in
              simp only [Except.ok.injEq, Prod.mk.injEq] at h
              obtain ⟨rfl, rfl⟩ := h
              have hf : (out1.SimulateMoveCar inp car (out.CarPoint inp car)).feasible = true := by
                rw [feasible_iff, hback]; exact hT
              rw [MoveCar_fst_of_feasible inp out1 car _ false hf, hback, RollbackCarN_one, hr]
      · rw [if_neg he] at h
        simp only [Except.ok.injEq, Prod.mk.injEq] at h
        obtain ⟨rfl, rfl⟩ := h
        exact RollbackCarN_one inp car out
    · rw [if_neg hc] at h
      simp only [Except.ok.injEq, Prod.mk.injEq] at h
      obtain ⟨rfl, rfl⟩ := h
      exact RollbackCarN_one inp car out

theorem Visited_iff (inp : TOP_Input) (out : TOP_Output) (p : idx_t) :
    out.Visited inp p = true ↔ ∃ c, c < inp.Cars ∧ p ∈ out.Route inp c := by
  simp [Visited, List.any_eq_true, List.mem_range]

theorem RollbackCar_car_hops (inp : TOP_Input) (out out1 : TOP_Output) (car : idx_t)
    (h : out.RollbackCar inp car = some out1) :
    out1.car_hops = Function.update out.car_hops car (out.car_hops car).dropLast ∧
      (out.car_hops car).dropLast ++ [out.CarPoint inp car] = out.car_hops car := by
  unfold RollbackCar at h
  cases hl : (out.car_hops car).getLast? with
  | none => simp [hl] at h
  | some p =>
    simp only [hl, Option.some.injEq] at h
    subst h
    refine ⟨rfl, ?_⟩
    have hp : out.CarPoint inp car = p := by
      simp [CarPoint, List.getLastD_eq_getLast?, hl]
    rw [hp]
    exact List.dropLast_append_getLast? p (by simp [hl])

theorem RollbackCar_isSome_of_CarPoint_ne (inp : TOP_Input) (out : TOP_Output) (car : idx_t)
    (h : out.CarPoint inp car ≠ inp.StartPoint) : ∃ out1, out.RollbackCar inp car = some out1 := by
  unfold RollbackCar
  cases hl : (out.car_hops car).getLast? with
  | none =>
    exfalso; apply h
    simp [CarPoint, List.getLastD_eq_getLast?, hl]
  | some p => exact ⟨_, rfl⟩

/-- After `InsertPoint` has put `node` before the last point of the route, the visited points
are those visited before and `node`. -/
theorem Visited_after_insertion (inp : TOP_Input) (out out1 : TOP_Output) (car node : idx_t)
    (hcar : car < inp.Cars) (hr : out.RollbackCar inp car = some out1) (q : idx_t) :
    ((out1.applyMove inp car node).applyMove inp car (out.CarPoint inp car)).Visited inp q = true ↔
      (out.Visited inp q = true ∨ q = node) := by
  obtain ⟨h1, h2⟩ := RollbackCar_car_hops inp out out1 car hr
  simp only [Visited_iff, Route]
  have hself : ((out1.applyMove inp car node).applyMove inp car (out.CarPoint inp car)).car_hops car
      = (out.car_hops car).dropLast ++ [node] ++ [out.CarPoint inp car] := by
    simp [applyMove, h1]
  have hother : ∀ c, c ≠ car →
      ((out1.applyMove inp car node).applyMove inp car (out.CarPoint inp car)).car_hops c
        = out.car_hops c := by
    intro c hc
    simp [applyMove, h1, Function.update_noteq hc]
  constructor
  · rintro ⟨c, hc, hmem⟩
    by_cases hcc : c = car
    · subst hcc
      rw [hself] at hmem
      simp only [List.mem_cons, List.mem_append, List.mem_singleton, List.not_mem_nil,
        or_false] at hmem
      rcases hmem with h | (h | h) | h
      · exact Or.inl ⟨c, hc, by simp [h]⟩
      · exact Or.inl ⟨c, hc, by rw [← h2]; simp [h]⟩
      · exact Or.inr h
      · exact Or.inl ⟨c, hc, by rw [← h2]; simp [h]⟩
    · rw [hother c hcc] at hmem
      exact Or.inl ⟨c, hc, hmem⟩
  · rintro (⟨c, hc, hmem⟩ | h)
    · by_cases hcc : c = car
      · subst hcc
        refine ⟨c, hc, ?_⟩
        rw [hself]
        rw [← h2] at hmem
        simp only [List.mem_cons, List.mem_append, List.mem_singleton, List.not_mem_nil,
          or_false] at hmem ⊢
        rcases hmem with h | h | h
        · exact Or.inl h
        · exact Or.inr (Or.inl (Or.inl h))
        · exact Or.inr (Or.inr h)
      · exact ⟨c, hc, by rw [hother c hcc]; exact hmem⟩
    · refine ⟨car, hcar, ?_⟩
      rw [hself, h]
      simp

theorem mem_inEllipse (inp : TOP_Input) (out : TOP_Output) (car : idx_t) (maxDev : ℚ)
    (q : idx_t) (h : q ∈ inEllipse inp out car maxDev) :
    q ∈ List.range' 1 (inp.Points - 2) ∧ out.Visited inp q = false := by
  unfold inEllipse at h
  simp only [List.mem_filter, Bool.and_eq_true, Bool.not_eq_true'] at h
  exact ⟨h.1, h.2.1⟩

theorem unvisitedInner_after_insertion (inp : TOP_Input) (out out1 : TOP_Output) (car node : idx_t)
    (maxDev : ℚ) (hcar : car < inp.Cars) (hr : out.RollbackCar inp car = some out1)
    (hnode : node ∈ inEllipse inp out car maxDev) :
    unvisitedInner inp ((out1.applyMove inp car node).applyMove inp car (out.CarPoint inp car)) <
      unvisitedInner inp out := by
  obtain ⟨hrange, hunv⟩ := mem_inEllipse inp out car maxDev node hnode
  unfold unvisitedInner
  have hsub : (List.range' 1 (inp.Points - 2)).filter
        (fun q => !((out1.applyMove inp car node).applyMove inp car
          (out.CarPoint inp car)).Visited inp q) =
      ((List.range' 1 (inp.Points - 2)).filter (fun q => !out.Visited inp q)).filter
        (fun q => !((out1.applyMove inp car node).applyMove inp car
          (out.CarPoint inp car)).Visited inp q) := by
    rw [List.filter_filter]
    apply List.filter_congr
    intro q _
    cases hq : ((out1.applyMove inp car node).applyMove inp car
        (out.CarPoint inp car)).Visited inp q with
    | true => simp
    | false =>
      cases hq' : out.Visited inp q with
      | false => simp
      | true =>
        have := (Visited_after_insertion inp out out1 car node hcar hr q).2 (Or.inl hq')
        rw [hq] at this; exact absurd this (by simp)
  rw [hsub]
  apply List.length_filter_lt_length_iff_exists.2
  refine ⟨node, ?_, ?_⟩
  · simp only [List.mem_filter, Bool.not_eq_true', hunv, and_true]; exact hrange
  · have := (Visited_after_insertion inp out out1 car node hcar hr node).2 (Or.inr rfl)
    simp [this]

theorem sortEllipse_head_mem (inp : TOP_Input) (out : TOP_Output) (car : idx_t) (l : List idx_t)
    (node : idx_t) (rest : List idx_t) (h : sortEllipse inp out car l = node :: rest) :
    node ∈ l := by
  have hmem : node ∈ sortEllipse inp out car l := by rw [h]; simp
  unfold sortEllipse at hmem
  exact (List.mem_insertionSort _).1 hmem

theorem sortEllipse_ne_nil (inp : TOP_Input) (out : TOP_Output) (car : idx_t) (l : List idx_t)
    (h : l ≠ []) : sortEllipse inp out car l ≠ [] := by
  unfold sortEllipse
  intro hs
  have := List.length_insertionSort
    (fun p1 p2 => inp.Distance p1 (out.CarPoint inp car) ≤ inp.Distance p2 (out.CarPoint inp car)) l
  rw [hs] at this
  exact h (List.length_eq_zero.1 this.symm)

/-- With more fuel than unvisited inner points, `InsertPoint` on a car of the instance returns or
raises one of its two exceptions: the recursion ends and no undefined operation is reached. -/
theorem InsertPoint_total (inp : TOP_Input) (car : idx_t) (maxDev : ℚ) (hcar : car < inp.Cars) :
    ∀ (fuel : Nat) (out : TOP_Output), unvisitedInner inp out < fuel →
      (∃ r, InsertPoint inp car maxDev fuel out = .ok r) ∨
        InsertPoint inp car maxDev fuel out = .error .insertFailed ∨
        InsertPoint inp car maxDev fuel out = .error .reinsertFailed := by
  intro fuel
  induction fuel with
  | zero => intro out h; omega
  | succ fuel ih =>
    intro out hfuel
    rw [InsertPoint]
    dsimp only
    by_cases hc : out.CarPoint inp car ≠ inp.StartPoint
    · rw [if_pos hc]
      by_cases he : inEllipse inp out car maxDev ≠ []
      · rw [if_pos he]
        obtain ⟨out1, hr⟩ := RollbackCar_isSome_of_CarPoint_ne inp out car hc
        rw [hr]
        dsimp only
        cases hs : sortEllipse inp out1 car (inEllipse inp out car maxDev) with
        | nil => exact absurd hs (sortEllipse_ne_nil inp out1 car _ he)
        | cons node rest =>
          dsimp only
          have hnode := sortEllipse_head_mem inp out1 car _ node rest hs
          split
          · cases hf2 : (out1.SimulateMoveCar inp car node).feasible with
            | false => simp [MoveCar_snd, hf2]
            | true =>
              cases hf3 : ((out1.applyMove inp car node).SimulateMoveCar inp car
                  (out.CarPoint inp car)).feasible with
              | false =>
                simp [MoveCar_snd, hf2, hf3, MoveCar_fst_of_feasible]
              | true =>
                simp only [MoveCar_snd, hf2, hf3, MoveCar_fst_of_feasible, Bool.not_true,
                  Bool.false_eq_true, if_false]
                have hlt := unvisitedInner_after_insertion inp out out1 car node maxDev hcar hr
                  hnode
                rcases ih ((out1.applyMove inp car node).applyMove inp car
                    (out.CarPoint inp car)) (by omega) with ⟨r, hok⟩ | herr | herr
                · rw [hok]; exact Or.inl ⟨_, rfl⟩
                · rw [herr]; exact Or.inr (Or.inl rfl)
                · rw [herr]; exact Or.inr (Or.inr rfl)
          · exact Or.inl ⟨_, rfl⟩
      · rw [if_neg he]; exact Or.inl ⟨_, rfl⟩
    · rw [if_neg hc]; exact Or.inl ⟨_, rfl⟩

theorem unvisitedInner_lt (inp : TOP_Input) (out : TOP_Output) :
    unvisitedInner inp out < inp.Points + 1 := by
  unfold unvisitedInner
  have h := List.length_filter_le (fun q => !out.Visited inp q) (List.range' 1 (inp.Points - 2))
  rw [List.length_range'] at h
  omega

theorem Visited_of_mem_car_hops (inp : TOP_Input) (out : TOP_Output) (car q : idx_t)
    (hcar : car < inp.Cars) (h : q ∈ out.car_hops car) : out.Visited inp q = true :=
  (Visited_iff inp out q).2 ⟨car, hcar, List.mem_cons_of_mem _ h⟩

/-- What `InsertPoint` has done when it returns `k` for a car of the instance that is past the
start depot and within its budget: the points `inserted`, `k` of them, all different and
unvisited before, stand on the route of the car before its last point; nothing else has
changed on any route. -/
theorem InsertPoint_route (inp : TOP_Input) (car : idx_t) (maxDev : ℚ) (hcar : car < inp.Cars) :
    ∀ (fuel : Nat) (out out' : TOP_Output) (k : Nat),
      out.CarPoint inp car ≠ inp.StartPoint →
      out.travel_time car ≤ inp.MaxTime →
      InsertPoint inp car maxDev fuel out = .ok (out', k) →
      ∃ inserted : List idx_t, inserted.length = k ∧ inserted.Nodup ∧
        (∀ q ∈ inserted, out.Visited inp q = false) ∧
        (∀ q, out'.Visited inp q = true ↔ (out.Visited inp q = true ∨ q ∈ inserted)) ∧
        out'.car_hops car = (out.car_hops car).dropLast ++ inserted ++ [out.CarPoint inp car] ∧
        ∀ c, c ≠ car → out'.car_hops c = out.car_hops c := by
  intro fuel
  induction fuel with
  | zero => intro out out' k _ _ h; simp [InsertPoint] at h
  | succ fuel ih =>
    intro out out' k hc hT h
    obtain ⟨out1, hr⟩ := RollbackCar_isSome_of_CarPoint_ne inp out car hc
    obtain ⟨hhops1, hsplit⟩ := RollbackCar_car_hops inp out out1 car hr
    have hback := applyMove_RollbackCar inp out out1 car hr
    have hunchanged : ∃ inserted : List idx_t, inserted.length = 0 ∧ inserted.Nodup ∧
        (∀ q ∈ inserted, out.Visited inp q = false) ∧
        (∀ q, out.Visited inp q = true ↔ (out.Visited inp q = true ∨ q ∈ inserted)) ∧
        out.car_hops car = (out.car_hops car).dropLast ++ inserted ++ [out.CarPoint inp car] ∧
        ∀ c, c ≠ car → out.car_hops c = out.car_hops c :=
      ⟨[], rfl, List.nodup_nil, by simp, by simp, by simpa using hsplit.symm, fun _ _ => rfl⟩
    rw [InsertPoint] at h
    dsimp only at h
    rw [if_pos hc] at h
    by_cases he : inEllipse inp out car maxDev ≠ []
    · rw [if_pos he, hr] at h
      dsimp only at h
      cases hs : sortEllipse inp out1 car (inEllipse inp out car maxDev) with
      | nil => rw [hs] at h; simp at h
      | cons node rest =>
        rw [hs] at h
        dsimp only at h
        have hnode := sortEllipse_head_mem inp out1 car _ node rest hs
        obtain ⟨_, hnodeunv⟩ := mem_inEllipse inp out car maxDev node hnode
        split at h
        · cases hf2 : (out1.SimulateMoveCar inp car node).feasible with
          | false => simp [MoveCar_snd, hf2] at h
          | true =>
            have e2 := MoveCar_fst_of_feasible inp out1 car node false hf2
            rw [e2] at h
            cases hf3 : ((out1.applyMove inp car node).SimulateMoveCar inp car
                (out.CarPoint inp car)).feasible with
            | false => simp [MoveCar_snd, hf2, hf3] at h
            | true =>
              have e3 := MoveCar_fst_of_feasible inp (out1.applyMove inp car node) car
                (out.CarPoint inp car) false hf3
              rw [e3] at h
              simp only [MoveCar_snd, hf2, hf3, Bool.not_true, Bool.false_eq_true,
                if_false] at h
              cases hrec : InsertPoint inp car maxDev fuel
                  ((out1.applyMove inp car node).applyMove inp car (out.CarPoint inp car)) with
              | error e => simp [hrec] at h
              | ok r =>
                obtain ⟨out4, k4⟩ := r
                simp only [hrec, Except.ok.injEq, Prod.mk.injEq] at h
                obtain ⟨rfl, rfl⟩ := h
                have hT3 := (feasible_iff inp _ car _).1 hf3
                have hc3 : ((out1.applyMove inp car node).applyMove inp car
                    (out.CarPoint inp car)).CarPoint inp car ≠ inp.StartPoint := by
                  rw [CarPoint_applyMove]; exact hc
                obtain ⟨ins, hlen, hnd, hunv, hvis, hroute, hothers⟩ :=
                  ih _ _ _ hc3 hT3 hrec
                have hvis3 := Visited_after_insertion inp out out1 car node hcar hr
                have hself3 : ((out1.applyMove inp car node).applyMove inp car
                    (out.CarPoint inp car)).car_hops car =
                    (out.car_hops car).dropLast ++ [node] ++ [out.CarPoint inp car] := by
                  simp [applyMove, hhops1]
                have hother3 : ∀ c, c ≠ car →
                    ((out1.applyMove inp car node).applyMove inp car
                      (out.CarPoint inp car)).car_hops c = out.car_hops c := by
                  intro c hcc
                  simp [applyMove, hhops1, Function.update_noteq hcc]
                refine ⟨node :: ins, by simp [hlen]; omega, ?_, ?_, ?_, ?_, ?_⟩
                · refine List.nodup_cons.2 ⟨?_, hnd⟩
                  intro hmem
                  have h1 := hunv node hmem
                  have h2 := (hvis3 node).2 (Or.inr rfl)
                  rw [h2] at h1; exact absurd h1 (by simp)
                · intro q hq
                  rcases List.mem_cons.1 hq with rfl | hq
                  · exact hnodeunv
                  · have h1 := hunv q hq
                    cases hq' : out.Visited inp q with
                    | false => rfl
                    | true =>
                      have := (hvis3 q).2 (Or.inl hq')
                      rw [this] at h1; exact absurd h1 (by simp)
                · intro q
                  rw [hvis q, hvis3 q]
                  simp only [List.mem_cons]
                  tauto
                · rw [hroute, hself3, CarPoint_applyMove]
                  simp
                · intro c hcc
                  rw [hothers c hcc, hother3 c hcc]
        · -- over the budget: the last point is moved back in
          simp only [Except.ok.injEq, Prod.mk.injEq] at h
          obtain ⟨rfl, rfl⟩ := h
          have hf : (out1.SimulateMoveCar inp car (out.CarPoint inp car)).feasible = true := by
            rw [feasible_iff, hback]; exact hT
          rw [MoveCar_fst_of_feasible inp out1 car _ false hf, hback]
          exact hunchanged
    · rw [if_neg he] at h
      simp only [Except.ok.injEq, Prod.mk.injEq] at h
      obtain ⟨rfl, rfl⟩ := h
      exact hunchanged

/-- The count that `InsertPoint` returns is exact whenever the car is within its budget on
entry, as it is at every call of Kevin.cpp (:304, :337 and :243 follow moves that reported
feasible): for a car of the instance that is past the start depot and within its time budget,
when `InsertPoint` returns `k` the route of the car is exactly `k` entries longer
than on entry and exactly `k` points, all different and unvisited on entry, have become visited,
all on the route of that car; and when the entry state is the one left by the committed move of
the car to a point `P`, `k + 1` successive rollbacks of the car restore the solution (routes,
travel times, total profit, hence the visited set) that held before the move to `P`. -/
theorem InsertPoint_count_exact (inp : TOP_Input) (car : idx_t) (maxDeviationAdmitted : ℚ)
    (fuel : Nat) (out : TOP_Output) (hcar : car < inp.Cars)
    (hpast : out.CarPoint inp car ≠ inp.StartPoint)
    (hbudget : out.TravelTime car ≤ inp.MaxTime) :
    match InsertPoint inp car maxDeviationAdmitted fuel out with
    | .ok (out1, k) =>
      out1.Hops inp car = out.Hops inp car + k ∧
      (∃ inserted : List idx_t, inserted.length = k ∧ inserted.Nodup ∧
        (∀ q ∈ inserted, out.Visited inp q = false ∧ q ∈ out1.Route inp car) ∧
        ∀ q, out1.Visited inp q = true ↔ (out.Visited inp q = true ∨ q ∈ inserted)) ∧
      ∀ out0 P, (out0.SimulateMoveCar inp car P).feasible = true →
        out = (out0.MoveCar inp car P false).1 →
        out1.RollbackCarN inp car (k + 1) = some out0
    | .error _ => True := by
  cases h : InsertPoint inp car maxDeviationAdmitted fuel out with
  | error e => trivial
  | ok r =>
    obtain ⟨out1, k⟩ := r
    dsimp only
    obtain ⟨inserted, hlen, hnd, hunv, hvis, hroute, _⟩ :=
      InsertPoint_route inp car maxDeviationAdmitted hcar fuel out out1 k hpast hbudget h
    obtain ⟨o, hr⟩ := RollbackCar_isSome_of_CarPoint_ne inp out car hpast
    obtain ⟨_, hsplit⟩ := RollbackCar_car_hops inp out o car hr
    refine ⟨?_, ⟨inserted, hlen, hnd, ?_, hvis⟩, ?_⟩
    · have h1 := congrArg List.length hroute
      have h2 := congrArg List.length hsplit
      simp only [List.length_append, List.length_singleton] at h1 h2
      simp only [Hops, Route, List.length_cons]
      omega
    · intro q hq
      refine ⟨hunv q hq, ?_⟩
      simp only [Route, hroute, List.mem_cons, List.mem_append, List.mem_singleton]
      exact Or.inr (Or.inl (Or.inr hq))
    · intro out0 P hf hout
      rw [MoveCar_fst_of_feasible inp out0 car P false hf] at hout
      have := InsertPoint_RollbackCarN inp car maxDeviationAdmitted fuel out out1 k hbudget h
      rw [this, hout, RollbackCar_applyMove]

theorem InsertPoint_count_exact_witness :
    (0 < lineInstanceWide.Cars ∧
      wideAtOne.CarPoint lineInstanceWide 0 ≠ lineInstanceWide.StartPoint ∧
      wideAtOne.TravelTime 0 ≤ lineInstanceWide.MaxTime) ∧
    match InsertPoint lineInstanceWide 0 0 3 wideAtOne with
    | .ok (out1, k) =>
      out1.Hops lineInstanceWide 0 = wideAtOne.Hops lineInstanceWide 0 + k ∧
      (∃ inserted : List idx_t, inserted.length = k ∧ inserted.Nodup ∧
        (∀ q ∈ inserted, wideAtOne.Visited lineInstanceWide q = false ∧
          q ∈ out1.Route lineInstanceWide 0) ∧
        ∀ q, out1.Visited lineInstanceWide q = true ↔
          (wideAtOne.Visited lineInstanceWide q = true ∨ q ∈ inserted)) ∧
      ∀ out0 P, (out0.SimulateMoveCar lineInstanceWide 0 P).feasible = true →
        wideAtOne = (out0.MoveCar lineInstanceWide 0 P false).1 →
        out1.RollbackCarN lineInstanceWide 0 (k + 1) = some out0
    | .error _ => True :=
  ⟨by decide!,
    InsertPoint_count_exact lineInstanceWide 0 0 3 wideAtOne (by decide) (by decide!)
      (by decide!)⟩

/-- On `wideAtOne` the call of `InsertPoint` returns 1: it has put point 2 before point 1. -/
theorem InsertPoint_wideAtOne :
    (match InsertPoint lineInstanceWide 0 0 3 wideAtOne with
      | .ok (out1, k) => decide (k = 1 ∧ out1.car_hops 0 = [2, 1])
      | .error _ => false) = true := by
  decide!

/-! ## Selection helpers and the speculative branches -/

theorem min_element_foldl_mem (comp : idx_t → idx_t → Bool) (rest : List idx_t) (first : idx_t) :
    rest.foldl (fun smallest c => if comp c smallest then c else smallest) first ∈ first :: rest := by
  induction rest generalizing first with
  | nil => simp
  | cons c rest ih =>
    simp only [List.foldl_cons]
    have h := ih (if comp c first then c else first)
    simp only [List.mem_cons] at h ⊢
    by_cases hc : comp c first = true
    · simp only [hc, if_true] at h ⊢
      rcases h with h | h
      · exact Or.inr (Or.inl h)
      · exact Or.inr (Or.inr h)
    · simp only [hc, if_false] at h ⊢
      rcases h with h | h
      · exact Or.inl h
      · exact Or.inr (Or.inr h)

/-- On a non-empty range `min_element` returns an index of the range. -/
theorem min_element_lt (n : idx_t) (comp : idx_t → idx_t → Bool) (hn : 0 < n) :
    min_element n comp < n := by
  unfold min_element
  cases h : List.range n with
  | nil =>
    have h0 : n = 0 := List.range_eq_nil.1 h
    exact absurd h0 (Nat.pos_iff_ne_zero.1 hn)
  | cons first rest =>
    have := min_element_foldl_mem comp rest first
    rw [← h] at this
    exact List.mem_range.1 this

theorem chooseCar_lt (inp : TOP_Input) (out : TOP_Output) (markedCars : List Bool) (p : idx_t)
    (hn : 0 < inp.Cars) : chooseCar inp out markedCars p < inp.Cars :=
  min_element_lt _ _ hn

/-- Claim C9: processing a non-canonical tied point `p` (one pass through the body of the loop
at Kevin.cpp:287-313, with the marked-cars vector of `SolverGreedy`, one entry per car, and at
least one car) leaves the working solution `out` exactly as it was. When the selected car
is unmarked, `p` is unvisited and the move is feasible, the pass returns exactly when
`InsertPoint` does, with exactly one snapshot (the solution holding the move and the
insertions) appended to the pool and the working solution restored by the rollbacks; the only
other outcome is that one of the two exceptions of `InsertPoint` is passed on. Otherwise nothing
is pushed and nothing changes. The marked-cars vector is only read: the pass returns no new
value for it. -/
theorem speculativeBranch_frame (inp : TOP_Input) (maxDeviationAdmitted : ℚ)
    (markedCars : List Bool) (pool : List TOP_Output) (out : TOP_Output) (p : idx_t)
    (hlen : markedCars.length = inp.Cars) (hcars : 0 < inp.Cars) :
    if markedCars.getD (chooseCar inp out markedCars p) true = false ∧
        out.Visited inp p = false ∧
        (out.SimulateMoveCar inp (chooseCar inp out markedCars p) p).feasible = true then
      match InsertPoint inp (chooseCar inp out markedCars p) maxDeviationAdmitted (inp.Points + 1)
          (out.applyMove inp (chooseCar inp out markedCars p) p) with
      | .ok (snapshot, _) =>
        speculativeBranch inp maxDeviationAdmitted markedCars (pool, out) p =
          .ok (pool ++ [snapshot], out)
      | .error e =>
        (e = .insertFailed ∨ e = .reinsertFailed) ∧
          speculativeBranch inp maxDeviationAdmitted markedCars (pool, out) p = .error e
    else
      speculativeBranch inp maxDeviationAdmitted markedCars (pool, out) p = .ok (pool, out) := by
  have hlt := chooseCar_lt inp out markedCars p hcars
  have hget : markedCars[chooseCar inp out markedCars p]? =
      some (markedCars.getD (chooseCar inp out markedCars p) true) := by
    rw [List.getD_eq_getElem?_getD, List.getElem?_eq_getElem (lt_of_lt_of_eq hlt hlen.symm)]; rfl
  unfold speculativeBranch
  dsimp only
  rw [hget]
  cases hm : markedCars.getD (chooseCar inp out markedCars p) true with
  | true => simp
  | false =>
    cases hv : out.Visited inp p with
    | true => simp
    | false =>
      cases hf : (out.SimulateMoveCar inp (chooseCar inp out markedCars p) p).feasible with
      | false =>
        simp [MoveCar_snd, hf, MoveCar_fst_of_not_feasible]
      | true =>
        simp only [MoveCar_snd, hf, MoveCar_fst_of_feasible, and_self, if_true, Bool.false_eq_true,
          if_false]
        cases hi : InsertPoint inp (chooseCar inp out markedCars p) maxDeviationAdmitted
            (inp.Points + 1) (out.applyMove inp (chooseCar inp out markedCars p) p) with
        | error e =>
          rcases InsertPoint_total inp _ maxDeviationAdmitted hlt (inp.Points + 1)
              (out.applyMove inp (chooseCar inp out markedCars p) p)
              (unvisitedInner_lt inp _) with ⟨r, hok⟩ | herr | herr
          · rw [hi] at hok; simp at hok
          · rw [hi] at herr; simp at herr; simp [herr]
          · rw [hi] at herr; simp at herr; simp [herr]
        | ok r =>
          obtain ⟨snapshot, k⟩ := r
          have hT := (feasible_iff inp out _ p).1 hf
          have := InsertPoint_RollbackCarN inp _ maxDeviationAdmitted _ _ _ _ hT hi
          rw [RollbackCar_applyMove] at this
          simp [this]

theorem speculativeBranch_frame_witness :
    ([false].length = lineInstance.Cars ∧ 0 < lineInstance.Cars ∧
      ([false].getD (chooseCar lineInstance (emptySolution lineInstance) [false] 2) true = false ∧
        (emptySolution lineInstance).Visited lineInstance 2 = false ∧
        ((emptySolution lineInstance).SimulateMoveCar lineInstance
          (chooseCar lineInstance (emptySolution lineInstance) [false] 2) 2).feasible = true)) ∧
    (if [false].getD (chooseCar lineInstance (emptySolution lineInstance) [false] 2) true = false ∧
        (emptySolution lineInstance).Visited lineInstance 2 = false ∧
        ((emptySolution lineInstance).SimulateMoveCar lineInstance
          (chooseCar lineInstance (emptySolution lineInstance) [false] 2) 2).feasible = true then
      match InsertPoint lineInstance (chooseCar lineInstance (emptySolution lineInstance) [false] 2)
          0 (lineInstance.Points + 1)
          ((emptySolution lineInstance).applyMove lineInstance
            (chooseCar lineInstance (emptySolution lineInstance) [false] 2) 2) with
      | .ok (snapshot, _) =>
        speculativeBranch lineInstance 0 [false] ([], emptySolution lineInstance) 2 =
          .ok ([] ++ [snapshot], emptySolution lineInstance)
      | .error e =>
        (e = .insertFailed ∨ e = .reinsertFailed) ∧
          speculativeBranch lineInstance 0 [false] ([], emptySolution lineInstance) 2 = .error e
    else
      speculativeBranch lineInstance 0 [false] ([], emptySolution lineInstance) 2 =
        .ok ([], emptySolution lineInstance)) :=
  ⟨⟨rfl, by decide, by decide!⟩,
    speculativeBranch_frame lineInstance 0 [false] [] (emptySolution lineInstance) 2 rfl
      (by decide)⟩

/-! ## The tie set -/

theorem so_negcmp_fin (x y : ℚ) : so_negcmp (Dbl.fin x) (Dbl.fin y) = Dbl.fin (y + -x) := rfl

theorem min_elements_step_fin (r : idx_t → ℚ) (acc : List idx_t) (m : ℚ) (c : idx_t) :
    min_elements_step so_negcmp (fun i => Dbl.fin (r i)) (acc, Dbl.fin m) c =
      if m < r c then ([c], Dbl.fin (r c))
      else if r c = m then (acc ++ [c], Dbl.fin m)
      else (acc, Dbl.fin m) := by
  simp only [min_elements_step, so_negcmp_fin, Dbl.ltZero, Dbl.eqZero, decide_eq_true_eq]
  have h1 : (m + -r c < 0) ↔ m < r c := by constructor <;> intro h <;> linarith
  have h2 : (m + -r c = 0) ↔ r c = m := by constructor <;> intro h <;> linarith
  simp only [h1, h2]

/-- Invariant of the loop of `min_elements` on finite values: the accumulator holds the indices
seen so far whose value is the largest seen so far, in the order seen. -/
theorem min_elements_foldl_fin (r : idx_t → ℚ) :
    ∀ (rest pre : List idx_t) (m : ℚ), (∀ j ∈ pre, r j ≤ m) → (∃ j ∈ pre, r j = m) →
      ∃ m', rest.foldl (min_elements_step so_negcmp fun i => Dbl.fin (r i))
          (pre.filter (fun i => decide (r i = m)), Dbl.fin m) =
          ((pre ++ rest).filter (fun i => decide (r i = m')), Dbl.fin m') ∧
        (∀ j ∈ pre ++ rest, r j ≤ m') ∧ ∃ j ∈ pre ++ rest, r j = m' := by
  intro rest
  induction rest with
  | nil => intro pre m h1 h2; exact ⟨m, by simp, by simpa using h1, by simpa using h2⟩
  | cons c rest ih =>
    intro pre m h1 h2
    simp only [List.foldl_cons, min_elements_step_fin]
    have happ : pre ++ c :: rest = (pre ++ [c]) ++ rest := by simp
    rw [happ]
    by_cases hlt : m < r c
    · simp only [hlt, if_true]
      have hf : [c] = (pre ++ [c]).filter (fun i => decide (r i = r c)) := by
        rw [List.filter_append]
        have : pre.filter (fun i => decide (r i = r c)) = [] := by
          rw [List.filter_eq_nil_iff]
          intro j hj
          have := h1 j hj
          simp only [decide_eq_true_eq]
          intro h; linarith
        simp [this]
      have key := ih (pre ++ [c]) (r c) ?_ ?_
      · rw [← hf] at key; exact key
      · intro j hj
        rcases List.mem_append.1 hj with h | h
        · exact le_trans (h1 j h) (le_of_lt hlt)
        · simp at h; subst h; exact le_refl _
      · exact ⟨c, by simp, rfl⟩
    · simp only [hlt, if_false]
      obtain ⟨j0, hj0, hj0m⟩ := h2
      by_cases heq : r c = m
      · simp only [heq, if_true]
        have hf : pre.filter (fun i => decide (r i = m)) ++ [c] =
            (pre ++ [c]).filter (fun i => decide (r i = m)) := by
          rw [List.filter_append]; simp [heq]
        have key := ih (pre ++ [c]) m ?_ ?_
        · rw [← hf] at key; exact key
        · intro j hj
          rcases List.mem_append.1 hj with h | h
          · exact h1 j h
          · simp at h; subst h; exact le_of_eq heq
        · exact ⟨j0, by simp [hj0], hj0m⟩
      · simp only [heq, if_false]
        have hf : pre.filter (fun i => decide (r i = m)) =
            (pre ++ [c]).filter (fun i => decide (r i = m)) := by
          rw [List.filter_append]; simp [heq]
        have key := ih (pre ++ [c]) m ?_ ?_
        · rw [← hf] at key; exact key
        · intro j hj
          rcases List.mem_append.1 hj with h | h
          · exact h1 j h
          · simp at h; subst h; exact le_of_not_lt hlt
        · exact ⟨j0, by simp [hj0], hj0m⟩

/-- On finite values `min_elements_it` with `so_negcmp` returns the indices of largest value, in
input order. -/
theorem min_elements_it_fin (r : idx_t → ℚ) (idxs : List idx_t) :
    min_elements_it idxs so_negcmp (fun i => Dbl.fin (r i)) =
      idxs.filter fun i => decide (∀ j ∈ idxs, r j ≤ r i) := by
  cases idxs with
  | nil => rfl
  | cons first rest =>
    simp only [min_elements_it]
    obtain ⟨m', hres, hle, j0, hj0, hj0m⟩ := min_elements_foldl_fin r rest [first] (r first)
      (by simp) ⟨first, by simp, rfl⟩
    have hf : [first].filter (fun i => decide (r i = r first)) = [first] := by simp
    rw [hf] at hres
    rw [hres]
    simp only [List.singleton_append] at hle hj0 ⊢
    apply List.filter_congr
    intro i _
    simp only [decide_eq_decide]
    constructor
    · intro h j hj; rw [h]; exact hle j hj
    · intro h; exact le_antisymm (hle i ‹_›) (hj0m ▸ h j0 hj0)

/-- A finite non-empty family of rationals has a largest member. -/
theorem exists_maximiser (r : idx_t → ℚ) (n : Nat) (hn : 1 ≤ n) :
    ∃ i, i < n ∧ ∀ j < n, r j ≤ r i := by
  induction n with
  | zero => omega
  | succ n ih =>
    by_cases h0 : n = 0
    · subst h0
      refine ⟨0, Nat.zero_lt_one, fun j hj => ?_⟩
      have hj0 : j = 0 := Nat.lt_one_iff.1 hj
      rw [hj0]
    · obtain ⟨i, hi, hmax⟩ := ih (by omega)
      by_cases hc : r i ≤ r n
      · refine ⟨n, by omega, fun j hj => ?_⟩
        rcases Nat.lt_succ_iff_lt_or_eq.1 hj with h | h
        · exact le_trans (hmax j h) hc
        · subst h; exact le_refl _
      · refine ⟨i, by omega, fun j hj => ?_⟩
        rcases Nat.lt_succ_iff_lt_or_eq.1 hj with h | h
        · exact hmax j h
        · subst h; exact le_of_lt (lt_of_not_le hc)

/-- Claim C10: for `n ≥ 1` and finite ratings, `min_elements(n, so_negcmp, rating)` is the list
of all indices below `n` whose rating is the largest one, in ascending order; it is non-empty and
its first element, the canonical point, is the maximiser of lowest index. -/
theorem min_elements_so_negcmp_all_maximisers (n : idx_t) (hn : 1 ≤ n) (r : idx_t → ℚ) :
    min_elements n so_negcmp (fun i => Dbl.fin (r i)) =
        (List.range n).filter (fun i => decide (∀ j < n, r j ≤ r i)) ∧
      ∃ canonical rest, min_elements n so_negcmp (fun i => Dbl.fin (r i)) = canonical :: rest ∧
        canonical < n ∧ (∀ j < n, r j ≤ r canonical) ∧ ∀ i < canonical, r i < r canonical := by
  have hmain : min_elements n so_negcmp (fun i => Dbl.fin (r i)) =
      (List.range n).filter (fun i => decide (∀ j < n, r j ≤ r i)) := by
    unfold min_elements
    rw [min_elements_it_fin]
    apply List.filter_congr
    intro i _
    simp [List.mem_range]
  refine ⟨hmain, ?_⟩
  rw [hmain]
  obtain ⟨i0, hi0, hmax0⟩ := exists_maximiser r n hn
  cases hl : (List.range n).filter (fun i => decide (∀ j < n, r j ≤ r i)) with
  | nil =>
    have : i0 ∈ (List.range n).filter (fun i => decide (∀ j < n, r j ≤ r i)) := by
      simp only [List.mem_filter, List.mem_range, decide_eq_true_eq]
      exact ⟨hi0, hmax0⟩
    rw [hl] at this
    simp at this
  | cons c t =>
    have hc : c ∈ (List.range n).filter (fun i => decide (∀ j < n, r j ≤ r i)) := by
      rw [hl]; simp
    simp only [List.mem_filter, List.mem_range, decide_eq_true_eq] at hc
    have hsorted : List.Pairwise (· < ·) (c :: t) := by
      rw [← hl]
      exact List.Pairwise.sublist (List.filter_sublist _) (List.pairwise_lt_range n)
    refine ⟨c, t, rfl, hc.1, hc.2, ?_⟩
    intro i hi
    have hin : i < n := lt_trans hi hc.1
    rcases lt_or_eq_of_le (hc.2 i hin) with h | h
    · exact h
    · exfalso
      have hmem : i ∈ c :: t := by
        rw [← hl]
        simp only [List.mem_filter, List.mem_range, decide_eq_true_eq]
        exact ⟨hin, fun j hj => h ▸ hc.2 j hj⟩
      rcases List.mem_cons.1 hmem with h' | h'
      · exact absurd h' (ne_of_lt hi)
      · exact absurd ((List.pairwise_cons.1 hsorted).1 i h') (lt_asymm hi)

theorem min_elements_so_negcmp_all_maximisers_witness :
    1 ≤ (3 : idx_t) ∧
      (min_elements 3 so_negcmp (fun i => Dbl.fin (tiedRatings i)) =
          (List.range 3).filter
            (fun i => decide (∀ j < (3 : idx_t), tiedRatings j ≤ tiedRatings i)) ∧
        ∃ canonical rest,
          min_elements 3 so_negcmp (fun i => Dbl.fin (tiedRatings i)) = canonical :: rest ∧
          canonical < 3 ∧ (∀ j < (3 : idx_t), tiedRatings j ≤ tiedRatings canonical) ∧
          ∀ i < canonical, tiedRatings i < tiedRatings canonical) :=
  ⟨by decide, min_elements_so_negcmp_all_maximisers 3 (by decide) tiedRatings⟩

/-- The tie set of `tiedRatings` on three points holds both maximisers. -/
theorem min_elements_tiedRatings :
    min_elements 3 so_negcmp (fun i => Dbl.fin (tiedRatings i)) = [1, 2] := by
  decide!

/-! ## The branch manager -/

theorem exists_of_forall₂_right {α β : Type} {R : α → β → Prop} {l1 : List α} {l2 : List β}
    {b : β} (h : List.Forall₂ R l1 l2) : b ∈ l2 → ∃ a, R a b := by
  induction h with
  | nil => intro hb; exact absurd hb (List.not_mem_nil _)
  | cons hab _ ih =>
    intro hb
    rcases List.mem_cons.1 hb with rfl | hb
    · exact ⟨_, hab⟩
    · exact ih hb

theorem FirstBest_le (out0 : TOP_Output) (solved : List TOP_Output) (best : TOP_Output)
    (h0 : out0.PointProfit ≤ best.PointProfit) (h : FirstBest out0 solved best) :
    ∀ s ∈ solved, s.PointProfit ≤ best.PointProfit := by
  intro s hs
  rcases h with ⟨rfl, h⟩ | ⟨pre, post, rfl, _, hpre, hpost⟩
  · exact h s hs
  · simp only [List.mem_append, List.mem_cons] at hs
    rcases hs with hs | rfl | hs
    · exact le_of_lt (hpre s hs)
    · exact le_refl _
    · exact hpost s hs

theorem FirstBest_step (out0 : TOP_Output) (solved : List TOP_Output) (best s1 : TOP_Output)
    (h0 : out0.PointProfit ≤ best.PointProfit) (h : FirstBest out0 solved best) :
    FirstBest out0 (solved ++ [s1]) (if s1.PointProfit > best.PointProfit then s1 else best) := by
  have hle := FirstBest_le out0 solved best h0 h
  by_cases hgt : s1.PointProfit > best.PointProfit
  · rw [if_pos hgt]
    refine Or.inr ⟨solved, [], rfl, lt_of_le_of_lt h0 hgt, ?_, by simp⟩
    intro s hs
    exact lt_of_le_of_lt (hle s hs) hgt
  · rw [if_neg hgt]
    rcases h with ⟨rfl, h⟩ | ⟨pre, post, rfl, hlt, hpre, hpost⟩
    · refine Or.inl ⟨rfl, ?_⟩
      intro s hs
      rcases List.mem_append.1 hs with hs | hs
      · exact h s hs
      · have : s = s1 := by simpa using hs
        subst this; exact le_of_not_lt hgt
    · refine Or.inr ⟨pre, post ++ [s1], by simp, hlt, hpre, ?_⟩
      intro s hs
      rcases List.mem_append.1 hs with hs | hs
      · exact hpost s hs
      · have : s = s1 := by simpa using hs
        subst this; exact le_of_not_lt hgt

theorem SolverAllLoop_spec
    (greedy : List TOP_Output → TOP_Output → Except Failure (List TOP_Output × TOP_Output))
    (out0 : TOP_Output) :
    ∀ (fuel : Nat) (st : SolverAllState), SolverAllInv greedy out0 st → 512 ≤ fuel + st.cnt →
      match SolverAllLoop greedy fuel st with
      | .ok st' => SolverAllFinal greedy out0 st'
      | .error e => ∃ pool lastSol, greedy pool lastSol = .error e := by
  intro fuel
  induction fuel with
  | zero =>
    intro st hinv hfuel
    obtain ⟨_, _, _, _, hcnt⟩ := hinv
    omega
  | succ fuel ih =>
    intro st hinv hfuel
    obtain ⟨h1, h2, h3, h4, h6⟩ := hinv
    have h5 : st.solved.length = st.cnt := by rw [← h3.length_eq, h4]
    rw [SolverAllLoop]
    cases hlast : st.partial_solutions.getLast? with
    | none =>
      have hnil : st.partial_solutions = [] := List.getLast?_eq_none_iff.1 hlast
      refine ⟨h1, h2, ?_, h4, le_of_lt h6, fun _ => ⟨hnil, h5⟩, fun h => by omega⟩
      rw [← h3.length_eq, List.take_length]; exact h3
    | some lastSol =>
      dsimp only
      by_cases hcap : st.cnt + 1 = 512
      · rw [if_pos hcap]
        refine ⟨h1, h2, ?_, ?_, ?_, ?_, ?_⟩
        · dsimp only
          rw [List.take_left' h3.length_eq]; exact h3
        · simp [h4]
        · exact le_of_eq hcap
        · intro h; exact absurd hcap (ne_of_lt h)
        · intro _; dsimp only; omega
      · rw [if_neg hcap]
        cases hg : greedy st.partial_solutions.dropLast lastSol with
        | error e => exact ⟨_, _, hg⟩
        | ok r =>
          obtain ⟨pool1, lastSol1⟩ := r
          dsimp only
          apply ih
          · refine ⟨?_, FirstBest_step out0 st.solved st.out lastSol1 h1 h2, ?_, ?_, ?_⟩
            · dsimp only
              split
              · exact le_trans h1 (le_of_lt ‹_›)
              · exact h1
            · exact List.rel_append h3
                (List.Forall₂.cons ⟨_, _, hg⟩ List.Forall₂.nil)
            · simp [h4]
            · dsimp only; omega
          · dsimp only; omega

/-- The facts about an execution of `SolverAll` that the claims about it draw on. -/
theorem SolverAllRun_spec (fuel : Nat) (inp : TOP_Input) (out : TOP_Output)
    (wProfit wTime : Dbl) (maxDeviationAdmitted : ℚ) (wNonCost : Dbl) :
    match SolverAllRun fuel inp out wProfit wTime maxDeviationAdmitted wNonCost with
    | .ok st =>
      SolverAllFinal
        (fun pool lastSol =>
          SolverGreedy fuel pool inp lastSol wProfit wTime maxDeviationAdmitted wNonCost) out st
    | .error e =>
      ∃ pool lastSol,
        SolverGreedy fuel pool inp lastSol wProfit wTime maxDeviationAdmitted wNonCost =
          .error e :=
  SolverAllLoop_spec
    (fun pool lastSol =>
      SolverGreedy fuel pool inp lastSol wProfit wTime maxDeviationAdmitted wNonCost) out 512
    { partial_solutions := [out], out := out, cnt := 0, popped := [], solved := [] }
    ⟨le_refl _, Or.inl ⟨rfl, fun _ hs => absurd hs (List.not_mem_nil _)⟩, List.Forall₂.nil, rfl,
      Nat.zero_lt_succ 511⟩
    (Nat.le_add_right 512 0)

/-- Claim C1: when `SolverAll` returns, the total profit of the returned solution is at least
that of the solution passed in. The returned solution is the unchanged input, when no solution
completed by `SolverGreedy` has a larger profit; otherwise it is one of the completed solutions,
namely the first whose profit strictly exceeds that of the input and of every solution completed
before it (so `out` is replaced only by a strictly better solution), and no solution completed
after it has a larger profit. -/
theorem SolverAll_profit_not_below_input (fuel : Nat) (inp : TOP_Input) (out : TOP_Output)
    (wProfit wTime : Dbl) (maxDeviationAdmitted : ℚ) (wNonCost : Dbl) :
    match SolverAllRun fuel inp out wProfit wTime maxDeviationAdmitted wNonCost with
    | .ok st =>
      SolverAll fuel inp out wProfit wTime maxDeviationAdmitted wNonCost = .ok st.out ∧
      out.PointProfit ≤ st.out.PointProfit ∧
      ((st.out = out ∧ ∀ s ∈ st.solved, s.PointProfit ≤ out.PointProfit) ∨
        ∃ pre post, st.solved = pre ++ st.out :: post ∧
          out.PointProfit < st.out.PointProfit ∧
          (∀ s ∈ pre, s.PointProfit < st.out.PointProfit) ∧
          ∀ s ∈ post, s.PointProfit ≤ st.out.PointProfit) ∧
      ∀ s ∈ st.solved, ∃ pool lastSol pool',
        SolverGreedy fuel pool inp lastSol wProfit wTime maxDeviationAdmitted wNonCost =
          .ok (pool', s)
    | .error e =>
      SolverAll fuel inp out wProfit wTime maxDeviationAdmitted wNonCost = .error e := by
  have h := SolverAllRun_spec fuel inp out wProfit wTime maxDeviationAdmitted wNonCost
  unfold SolverAll
  cases hr : SolverAllRun fuel inp out wProfit wTime maxDeviationAdmitted wNonCost with
  | error e => rfl
  | ok st =>
    rw [hr] at h
    refine ⟨rfl, h.1, h.2.1, ?_⟩
    intro s hs
    obtain ⟨lastSol, pool, pool', hg⟩ := exists_of_forall₂_right h.2.2.1 hs
    exact ⟨pool, lastSol, pool', hg⟩

/-- Claim C2: the loop of `SolverAll` removes at most 512 solutions from the pool, whatever
`SolverGreedy` pushes; when it has removed fewer than 512 it has stopped on an empty pool; and
`SolverAll` fails to return only when a `SolverGreedy` run fails to return, with the same
failure, so it terminates whenever each `SolverGreedy` run does. -/
theorem SolverAll_at_most_512_pops (fuel : Nat) (inp : TOP_Input) (out : TOP_Output)
    (wProfit wTime : Dbl) (maxDeviationAdmitted : ℚ) (wNonCost : Dbl) :
    match SolverAllRun fuel inp out wProfit wTime maxDeviationAdmitted wNonCost with
    | .ok st =>
      st.popped.length = st.cnt ∧ st.popped.length ≤ 512 ∧
      (st.popped.length < 512 → st.partial_solutions = [])
    | .error e =>
      ∃ pool lastSol,
        SolverGreedy fuel pool inp lastSol wProfit wTime maxDeviationAdmitted wNonCost =
          .error e := by
  have h := SolverAllRun_spec fuel inp out wProfit wTime maxDeviationAdmitted wNonCost
  cases hr : SolverAllRun fuel inp out wProfit wTime maxDeviationAdmitted wNonCost with
  | error e => rw [hr] at h; exact h
  | ok st =>
    rw [hr] at h
    obtain ⟨_, _, _, h4, h5, h6, _⟩ := h
    exact ⟨h4, h4 ▸ h5, fun hlt => (h6 (h4 ▸ hlt)).1⟩

/-- Claim C3, as the code has it: the solutions completed by `SolverGreedy` are, in order, the
results of its runs on the solutions popped. When the loop of `SolverAll` ends on an empty pool
every popped solution has been run; when it ends on the 512th pop, the 512th popped solution has
not: 512 solutions have been popped and 511 completed. -/
theorem SolverAll_runs_versus_pops (fuel : Nat) (inp : TOP_Input) (out : TOP_Output)
    (wProfit wTime : Dbl) (maxDeviationAdmitted : ℚ) (wNonCost : Dbl) :
    match SolverAllRun fuel inp out wProfit wTime maxDeviationAdmitted wNonCost with
    | .ok st =>
      List.Forall₂
        (fun lastSol s => ∃ pool pool',
          SolverGreedy fuel pool inp lastSol wProfit wTime maxDeviationAdmitted wNonCost =
            .ok (pool', s))
        (st.popped.take st.solved.length) st.solved ∧
      (st.popped.length < 512 → st.solved.length = st.popped.length) ∧
      (st.popped.length = 512 → st.solved.length = 511)
    | .error _ => True := by
  have h := SolverAllRun_spec fuel inp out wProfit wTime maxDeviationAdmitted wNonCost
  cases hr : SolverAllRun fuel inp out wProfit wTime maxDeviationAdmitted wNonCost with
  | error e => trivial
  | ok st =>
    rw [hr] at h
    obtain ⟨_, _, h3, h4, _, h6, h7⟩ := h
    exact ⟨h3, fun hlt => h4 ▸ (h6 (h4 ▸ hlt)).2, fun heq => h7 (h4 ▸ heq)⟩

/-- The loop of `SolverAll` around a driver that pushes its input back as one snapshot: the
pool never empties, the loop ends on the 512th pop, with 511 runs made. -/
theorem SolverAllLoop_cap_reached :
    (match SolverAllLoop (fun pool s => .ok (pool ++ [s], s)) 512
        { partial_solutions := [emptySolution lineInstance], out := emptySolution lineInstance,
          cnt := 0, popped := [], solved := [] } with
      | .ok st => decide (st.cnt = 512 ∧ st.popped.length = 512 ∧ st.solved.length = 511 ∧
          st.partial_solutions.length = 0)
      | .error _ => false) = true := by
  decide!

/-! ## The time budget -/

/-- A property of solutions that every run of the driver preserves holds of everything
`SolverAll` handles. -/
theorem SolverAllLoop_preserves
    (greedy : List TOP_Output → TOP_Output → Except Failure (List TOP_Output × TOP_Output))
    (P : TOP_Output → Prop)
    (hg : ∀ pool s r, greedy pool s = .ok r → (∀ x ∈ pool, P x) → P s →
      (∀ x ∈ r.1, P x) ∧ P r.2) :
    ∀ (fuel : Nat) (st st1 : SolverAllState), SolverAllLoop greedy fuel st = .ok st1 →
      (∀ x ∈ st.partial_solutions, P x) → P st.out → (∀ x ∈ st.popped, P x) →
      (∀ x ∈ st.solved, P x) →
      (∀ x ∈ st1.partial_solutions, P x) ∧ P st1.out ∧ (∀ x ∈ st1.popped, P x) ∧
        ∀ x ∈ st1.solved, P x := by
  intro fuel
  induction fuel with
  | zero => intro st st1 hr; simp [SolverAllLoop] at hr
  | succ fuel ih =>
    intro st st1 hr hpool hout hpopped hsolved
    rw [SolverAllLoop] at hr
    cases hlast : st.partial_solutions.getLast? with
    | none =>
      simp only [hlast, Except.ok.injEq] at hr
      rw [← hr]; exact ⟨hpool, hout, hpopped, hsolved⟩
    | some lastSol =>
      simp only [hlast] at hr
      have hlastP : P lastSol := hpool lastSol (List.mem_of_getLast?_eq_some hlast)
      have hdrop : ∀ x ∈ st.partial_solutions.dropLast, P x :=
        fun x hx => hpool x (List.dropLast_subset _ hx)
      have hpopped1 : ∀ x ∈ st.popped ++ [lastSol], P x := by
        intro x hx
        rcases List.mem_append.1 hx with hx | hx
        · exact hpopped x hx
        · have : x = lastSol := by simpa using hx
          rw [this]; exact hlastP
      split at hr
      · simp only [Except.ok.injEq] at hr
        rw [← hr]
        exact ⟨hdrop, hout, hpopped1, hsolved⟩
      · cases hgr : greedy st.partial_solutions.dropLast lastSol with
        | error e => simp [hgr] at hr
        | ok r =>
          obtain ⟨pool1, lastSol1⟩ := r
          simp only [hgr] at hr
          obtain ⟨hp1, hs1⟩ := hg _ _ _ hgr hdrop hlastP
          refine ih _ st1 hr hp1 ?_ hpopped1 ?_
          · dsimp only; split
            · exact hs1
            · exact hout
          · intro x hx
            rcases List.mem_append.1 hx with hx | hx
            · exact hsolved x hx
            · have : x = lastSol1 := by simpa using hx
              rw [this]; exact hs1

/-- On the empty solution of `lineInstanceWide` the branch manager returns, after two pops, the
solution in which the car visits point 2 and then point 1, at travel time 8. -/
theorem SolverAll_lineInstanceWide :
    (match SolverAllRun 3 lineInstanceWide (emptySolution lineInstanceWide) (.fin 1) (.fin 1) 0
        (.fin 1) with
      | .ok st => decide (st.out.car_hops 0 = [2, 1] ∧ st.out.travel_time 0 = 8 ∧ st.cnt = 2)
      | .error _ => false) = true := by
  decide!

/-! ## The feasibility filter and the sentinel rating -/

theorem verifyFeasibility_iff (inp : TOP_Input) (out : TOP_Output) (p : idx_t) :
    verifyFeasibility inp out p = true ↔
      ∃ car, car < inp.Cars ∧ (out.SimulateMoveCar inp car p).feasible = true := by
  simp [verifyFeasibility, List.any_eq_true]

/-- Claim C16, amended: `verifyFeasibility(p)` is true exactly when some car of the instance can
feasibly be moved to `p`, as `SimulateMoveCar` reports; whether `p` is visited plays no part in
it. -/
theorem verifyFeasibility_iff_some_car_feasible (inp : TOP_Input) (out : TOP_Output) (p : idx_t) :
    (verifyFeasibility inp out p = true ↔
        ∃ car, car < inp.Cars ∧ (out.SimulateMoveCar inp car p).feasible = true) ∧
      (verifyFeasibility inp out p = false ↔
        ∀ car, car < inp.Cars → (out.SimulateMoveCar inp car p).feasible = false) := by
  refine ⟨verifyFeasibility_iff inp out p, ?_⟩
  rw [← Bool.not_eq_true, verifyFeasibility_iff]
  constructor
  · intro h car hcar
    cases hf : (out.SimulateMoveCar inp car p).feasible with
    | false => rfl
    | true => exact absurd ⟨car, hcar, hf⟩ h
  · rintro h ⟨car, hcar, hf⟩
    rw [h car hcar] at hf
    exact absurd hf (by decide)

/-- One iteration of the loop of `min_elements` keeps: every collected index has the current
minimum value as its value, and while that value is `-inf` no index seen so far has a finite
value. -/
theorem min_elements_step_ninf (prov : idx_t → Dbl) (acc : List idx_t × Dbl) (c : idx_t)
    (seen : List idx_t) (h1 : ∀ i ∈ acc.1, prov i = acc.2)
    (h2 : acc.2 = .ninf → ∀ j ∈ seen, ∀ r, prov j ≠ .fin r) :
    (∀ i ∈ (min_elements_step so_negcmp prov acc c).1,
        prov i = (min_elements_step so_negcmp prov acc c).2) ∧
      ((min_elements_step so_negcmp prov acc c).2 = .ninf →
        ∀ j ∈ seen ++ [c], ∀ r, prov j ≠ .fin r) := by
  obtain ⟨l, m⟩ := acc
  dsimp only at h1 h2
  have hseen : (∀ j ∈ seen, ∀ r, prov j ≠ .fin r) → (∀ r, prov c ≠ .fin r) →
      ∀ j ∈ seen ++ [c], ∀ r, prov j ≠ .fin r := by
    intro ha hb j hj
    rcases List.mem_append.1 hj with hj | hj
    · exact ha j hj
    · rw [List.mem_singleton.1 hj]; exact hb
  unfold min_elements_step
  dsimp only
  cases hm : m with
  | fin a =>
    subst hm
    cases hc : prov c with
    | fin b =>
      simp only [so_negcmp, Dbl.sub, Dbl.add, Dbl.neg, Dbl.ltZero, Dbl.eqZero]
      by_cases hlt : a + -b < 0
      · simp [hlt, hc]
      · by_cases heq : a + -b = 0
        · have hab : b = a := by linarith
          rw [if_neg (by simpa using hlt), if_pos (by simpa using heq)]
          refine ⟨?_, by simp⟩
          intro i hi
          rcases List.mem_append.1 hi with hi | hi
          · exact h1 i hi
          · rw [List.mem_singleton.1 hi, hc, hab]
        · rw [if_neg (by simpa using hlt), if_neg (by simpa using heq)]
          exact ⟨h1, by simp⟩
    | pinf =>
      simp only [so_negcmp, Dbl.sub, Dbl.add, Dbl.neg, Dbl.ltZero, Dbl.eqZero]
      simp [hc]
    | ninf =>
      simp only [so_negcmp, Dbl.sub, Dbl.add, Dbl.neg, Dbl.ltZero, Dbl.eqZero]
      simpa using h1
    | nan =>
      simp only [so_negcmp, Dbl.sub, Dbl.add, Dbl.neg, Dbl.ltZero, Dbl.eqZero]
      simpa using h1
  | pinf =>
    subst hm
    cases hc : prov c <;>
      simp only [so_negcmp, Dbl.sub, Dbl.add, Dbl.neg, Dbl.ltZero, Dbl.eqZero] <;>
      simpa using h1
  | ninf =>
    subst hm
    cases hc : prov c with
    | fin b =>
      simp only [so_negcmp, Dbl.sub, Dbl.add, Dbl.neg, Dbl.ltZero, Dbl.eqZero]
      simp [hc]
    | pinf =>
      simp only [so_negcmp, Dbl.sub, Dbl.add, Dbl.neg, Dbl.ltZero, Dbl.eqZero]
      simp [hc]
    | ninf =>
      simp only [so_negcmp, Dbl.sub, Dbl.add, Dbl.neg, Dbl.ltZero, Dbl.eqZero]
      refine ⟨by simpa using h1, fun _ => hseen (h2 rfl) ?_⟩
      intro r; rw [hc]; exact fun h => Dbl.noConfusion h
    | nan =>
      simp only [so_negcmp, Dbl.sub, Dbl.add, Dbl.neg, Dbl.ltZero, Dbl.eqZero]
      refine ⟨by simpa using h1, fun _ => hseen (h2 rfl) ?_⟩
      intro r; rw [hc]; exact fun h => Dbl.noConfusion h
  | nan =>
    subst hm
    cases hc : prov c <;>
      simp only [so_negcmp, Dbl.sub, Dbl.add, Dbl.neg, Dbl.ltZero, Dbl.eqZero] <;>
      simpa using h1

theorem min_elements_foldl_ninf (prov : idx_t → Dbl) :
    ∀ (rest : List idx_t) (acc : List idx_t × Dbl) (seen : List idx_t),
      (∀ i ∈ acc.1, prov i = acc.2) →
      (acc.2 = .ninf → ∀ j ∈ seen, ∀ r, prov j ≠ .fin r) →
      (∀ i ∈ (rest.foldl (min_elements_step so_negcmp prov) acc).1,
          prov i = (rest.foldl (min_elements_step so_negcmp prov) acc).2) ∧
        ((rest.foldl (min_elements_step so_negcmp prov) acc).2 = .ninf →
          ∀ j ∈ seen ++ rest, ∀ r, prov j ≠ .fin r) := by
  intro rest
  induction rest with
  | nil => intro acc seen h1 h2; simpa using ⟨h1, h2⟩
  | cons c rest ih =>
    intro acc seen h1 h2
    have hs := min_elements_step_ninf prov acc c seen h1 h2
    have := ih (min_elements_step so_negcmp prov acc c) (seen ++ [c]) hs.1 hs.2
    simpa [List.foldl_cons, List.append_assoc] using this

/-- An index whose value is `-inf` is not in the tie set when some index has a finite value. -/
theorem min_elements_ninf_not_mem (n : idx_t) (prov : idx_t → Dbl) (v u : idx_t) (r : ℚ)
    (hv : prov v = .ninf) (hu : u < n) (hr : prov u = .fin r) :
    v ∉ min_elements n so_negcmp prov := by
  intro hmem
  unfold min_elements min_elements_it at hmem
  cases hl : List.range n with
  | nil =>
    rw [hl] at hmem
    simp at hmem
  | cons first rest =>
    rw [hl] at hmem
    dsimp only at hmem
    have h := min_elements_foldl_ninf prov rest ([first], prov first) [first]
      (by intro i hi; rw [List.mem_singleton.1 hi])
      (by
        intro h0 j hj r
        rw [List.mem_singleton.1 hj]
        dsimp only at h0
        rw [h0]
        exact fun h => Dbl.noConfusion h)
    have hval := h.1 v hmem
    rw [hv] at hval
    have humem : u ∈ [first] ++ rest := by
      rw [List.singleton_append, ← hl]
      exact List.mem_range.2 hu
    exact h.2 hval.symm u humem r hr

/-- Claim C12: for a point that is visited, or that no car can feasibly be moved to,
`RatingChoice` returns `-inf` and hands the solution back as it received it (no move has been
made on it), and so does the rating lambda of `SolverGreedy`. Hence, when the ratings that
`SolverGreedy` hands to `min_elements` give `-inf` to the point `p` and a finite value to some
point `u`, the point `p` is not in the tie set: it is neither the canonical point nor the point
of a speculative branch. -/
theorem RatingChoice_sentinel_for_visited_or_unreachable (inp : TOP_Input) (out : TOP_Output)
    (p : idx_t) (wProfit wTime wNonCost : Dbl)
    (h : out.Visited inp p = true ∨ verifyFeasibility inp out p = false) :
    RatingChoice inp out p wProfit wTime wNonCost = .ok (out, .ninf) ∧
      rating inp wProfit wTime wNonCost out p = .ok (out, .ninf) ∧
      ∀ (ratings : List Dbl) (u : idx_t) (r : ℚ), ratings.getD p .nan = .ninf →
        u < inp.Points → ratings.getD u .nan = .fin r →
        p ∉ min_elements inp.Points so_negcmp (fun q => ratings.getD q .nan) := by
  refine ⟨?_, ?_, ?_⟩
  · unfold RatingChoice
    rcases h with h | h <;> simp [h]
  · unfold rating RatingChoice
    rcases h with h | h <;> simp [h]
  · intro ratings u r hp hu hr
    exact min_elements_ninf_not_mem inp.Points (fun q => ratings.getD q .nan) p u r hp hu hr

theorem RatingChoice_sentinel_for_visited_or_unreachable_witness :
    (wideAtOne.Visited lineInstanceWide 1 = true ∨
      verifyFeasibility lineInstanceWide wideAtOne 1 = false) ∧
    (RatingChoice lineInstanceWide wideAtOne 1 (.fin 1) (.fin 1) (.fin 1) =
        .ok (wideAtOne, .ninf) ∧
      rating lineInstanceWide (.fin 1) (.fin 1) (.fin 1) wideAtOne 1 = .ok (wideAtOne, .ninf) ∧
      ∀ (ratings : List Dbl) (u : idx_t) (r : ℚ), ratings.getD 1 .nan = .ninf →
        u < lineInstanceWide.Points → ratings.getD u .nan = .fin r →
        1 ∉ min_elements lineInstanceWide.Points so_negcmp (fun q => ratings.getD q .nan)) :=
  ⟨Or.inl (by decide!),
    RatingChoice_sentinel_for_visited_or_unreachable lineInstanceWide wideAtOne 1 (.fin 1)
      (.fin 1) (.fin 1) (Or.inl (by decide!))⟩

/-! ## The car selection -/

theorem min_element_one (comp : idx_t → idx_t → Bool) : min_element 1 comp = 0 := rfl

theorem min_element_succ (k : Nat) (comp : idx_t → idx_t → Bool) :
    min_element (k + 2) comp =
      if comp (k + 1) (min_element (k + 1) comp) then k + 1 else min_element (k + 1) comp := by
  unfold min_element
  have h1 : List.range (k + 1) = 0 :: (List.range' 1 k) := by
    rw [List.range_eq_range', List.range'_succ]
  have h2 : List.range (k + 2) = 0 :: (List.range' 1 k ++ [k + 1]) := by
    rw [List.range_succ, h1]; rfl
  rw [h1, h2]
  simp [List.foldl_append]

/-- The comparator of the car selection (Kevin.cpp:291-296): a marked car is never smaller, an
unmarked car is smaller than a marked one, two unmarked cars compare by distance. -/
theorem min_element_marked (m : idx_t → Bool) (d : idx_t → ℚ) (k : Nat) :
    min_element (k + 1) (fun c1 c2 => if m c1 then false else if m c2 then true
        else decide (d c1 < d c2)) ≤ k ∧
      (m (min_element (k + 1) (fun c1 c2 => if m c1 then false else if m c2 then true
        else decide (d c1 < d c2))) = true → ∀ i, i ≤ k → m i = true) ∧
      (m (min_element (k + 1) (fun c1 c2 => if m c1 then false else if m c2 then true
        else decide (d c1 < d c2))) = false → ∀ i, i ≤ k → m i = false →
          d (min_element (k + 1) (fun c1 c2 => if m c1 then false else if m c2 then true
            else decide (d c1 < d c2))) ≤ d i ∧
          (i < min_element (k + 1) (fun c1 c2 => if m c1 then false else if m c2 then true
            else decide (d c1 < d c2)) →
            d (min_element (k + 1) (fun c1 c2 => if m c1 then false else if m c2 then true
              else decide (d c1 < d c2))) < d i)) := by
  induction k with
  | zero =>
    rw [min_element_one]
    refine ⟨le_refl _, ?_, ?_⟩
    · intro h i hi
      rw [Nat.le_zero.1 hi]; exact h
    · intro _ i hi _
      rw [Nat.le_zero.1 hi]
      exact ⟨le_refl _, fun h => absurd h (lt_irrefl _)⟩
  | succ k ih =>
    rw [min_element_succ]
    generalize min_element (k + 1) (fun c1 c2 => if m c1 then false else if m c2 then true
        else decide (d c1 < d c2)) = s at ih ⊢
    obtain ⟨hs, hmark, hun⟩ := ih
    cases hk : m (k + 1) with
    | true =>
      simp only [if_true, Bool.false_eq_true, if_false]
      refine ⟨Nat.le_succ_of_le hs, ?_, ?_⟩
      · intro h i hi
        rcases Nat.lt_or_ge i (k + 1) with hlt | hge
        · exact hmark h i (Nat.lt_succ_iff.1 hlt)
        · rw [le_antisymm hi hge]; exact hk
      · intro h i hi hmi
        rcases Nat.lt_or_ge i (k + 1) with hlt | hge
        · exact hun h i (Nat.lt_succ_iff.1 hlt) hmi
        · rw [le_antisymm hi hge] at hmi; rw [hk] at hmi; exact absurd hmi (by decide)
    | false =>
      cases hms : m s with
      | true =>
        simp only [if_true, Bool.false_eq_true, if_false]
        refine ⟨le_refl _, ?_, ?_⟩
        · intro h; rw [hk] at h; exact absurd h (by decide)
        · intro _ i hi hmi
          rcases Nat.lt_or_ge i (k + 1) with hlt | hge
          · have := hmark hms i (Nat.lt_succ_iff.1 hlt)
            rw [hmi] at this; exact absurd this (by decide)
          · have hik : i = k + 1 := le_antisymm hi hge
            rw [hik]
            exact ⟨le_refl _, fun h => absurd h (lt_irrefl _)⟩
      | false =>
        simp only [Bool.false_eq_true, if_false]
        by_cases hd : d (k + 1) < d s
        · rw [if_pos (by simpa using hd)]
          refine ⟨le_refl _, ?_, ?_⟩
          · intro h; rw [hk] at h; exact absurd h (by decide)
          · intro _ i hi hmi
            rcases Nat.lt_or_ge i (k + 1) with hlt | hge
            · have h3 := (hun hms i (Nat.lt_succ_iff.1 hlt) hmi).1
              exact ⟨le_of_lt (lt_of_lt_of_le hd h3), fun _ => lt_of_lt_of_le hd h3⟩
            · have hik : i = k + 1 := le_antisymm hi hge
              rw [hik]
              exact ⟨le_refl _, fun h => absurd h (lt_irrefl _)⟩
        · rw [if_neg (by simpa using hd)]
          refine ⟨Nat.le_succ_of_le hs, ?_, ?_⟩
          · intro h; rw [hms] at h; exact absurd h (by decide)
          · intro _ i hi hmi
            rcases Nat.lt_or_ge i (k + 1) with hlt | hge
            · exact hun hms i (Nat.lt_succ_iff.1 hlt) hmi
            · have hik : i = k + 1 := le_antisymm hi hge
              rw [hik]
              refine ⟨not_lt.1 hd, fun h => ?_⟩
              exact absurd (lt_of_lt_of_le h hs) (Nat.lt_irrefl _ ∘ Nat.lt_of_succ_lt)

theorem chooseCar_marked_iff (inp : TOP_Input) (out : TOP_Output) (markedCars : List Bool)
    (p : idx_t) (hcars : 0 < inp.Cars) :
    markedCars.getD (chooseCar inp out markedCars p) false = true ↔
      ∀ i, i < inp.Cars → markedCars.getD i false = true := by
  obtain ⟨k, hk⟩ := Nat.exists_eq_succ_of_ne_zero (Nat.pos_iff_ne_zero.1 hcars)
  have h := min_element_marked (fun c => markedCars.getD c false)
    (fun c => calculateDistance inp out p c) k
  have hc : chooseCar inp out markedCars p = min_element (k + 1)
      (fun c1 c2 => if markedCars.getD c1 false then false else if markedCars.getD c2 false
        then true else decide (calculateDistance inp out p c1 < calculateDistance inp out p c2)) := by
    unfold chooseCar; rw [hk]
  rw [← hc] at h
  obtain ⟨hle, hmark, _⟩ := h
  constructor
  · intro hm i hi
    exact hmark hm i (by omega)
  · intro hall
    exact hall _ (chooseCar_lt inp out markedCars p hcars)

theorem chooseCar_nearest (inp : TOP_Input) (out : TOP_Output) (markedCars : List Bool)
    (p : idx_t) (i : idx_t) (hi : i < inp.Cars) (hmi : markedCars.getD i false = false) :
    markedCars.getD (chooseCar inp out markedCars p) false = false ∧
      calculateDistance inp out p (chooseCar inp out markedCars p) ≤
        calculateDistance inp out p i ∧
      (i < chooseCar inp out markedCars p →
        calculateDistance inp out p (chooseCar inp out markedCars p) <
          calculateDistance inp out p i) := by
  have hcars : 0 < inp.Cars := Nat.lt_of_le_of_lt (Nat.zero_le _) hi
  obtain ⟨k, hk⟩ := Nat.exists_eq_succ_of_ne_zero (Nat.pos_iff_ne_zero.1 hcars)
  have h := min_element_marked (fun c => markedCars.getD c false)
    (fun c => calculateDistance inp out p c) k
  have hc : chooseCar inp out markedCars p = min_element (k + 1)
      (fun c1 c2 => if markedCars.getD c1 false then false else if markedCars.getD c2 false
        then true else decide (calculateDistance inp out p c1 < calculateDistance inp out p c2)) := by
    unfold chooseCar; rw [hk]
  rw [← hc] at h
  obtain ⟨_, hmark, hun⟩ := h
  have hik : i ≤ k := Nat.lt_succ_iff.1 (lt_of_lt_of_eq hi hk)
  have hun0 : markedCars.getD (chooseCar inp out markedCars p) false = false := by
    cases hb : markedCars.getD (chooseCar inp out markedCars p) false with
    | false => rfl
    | true =>
      have := hmark hb i hik
      rw [hmi] at this; exact absurd this (by decide)
  exact ⟨hun0, hun hun0 i hik hmi⟩

theorem getD_of_getElem? (l : List Bool) (c : Nat) (b : Bool) (h : l[c]? = some b) :
    l.getD c false = b := by
  simp [List.getD, h]

/-! ## The non-choice cost -/

theorem find?_range_first (n : Nat) (pred : Nat → Bool) (q : Nat) (hq : q < n)
    (hp : pred q = true) (hlow : ∀ q', q' < q → pred q' = false) :
    (List.range n).find? pred = some q := by
  induction n with
  | zero => omega
  | succ n ih =>
    rw [List.range_succ, List.find?_append]
    rcases Nat.lt_or_ge q n with h | h
    · rw [ih h]; rfl
    · have hqn : q = n := by omega
      subst hqn
      have hnone : (List.range q).find? pred = none := by
        rw [List.find?_eq_none]
        intro x hx
        rw [hlow x (List.mem_range.1 hx)]
        decide
      rw [hnone]
      simp [hp]

theorem find?_range_none (n : Nat) (pred : Nat → Bool) (h : ∀ q, q < n → pred q = false) :
    (List.range n).find? pred = none := by
  rw [List.find?_eq_none]
  intro x hx
  rw [h x (List.mem_range.1 hx)]
  decide

theorem profitEllipse_none (inp : TOP_Input) (out : TOP_Output) (car : idx_t)
    (h : ∀ q, q < inp.Points →
      out.Visited inp q = true ∨ (out.SimulateMoveCar inp car q).feasible = false) :
    profitEllipse inp out car = 0 := by
  unfold profitEllipse
  rw [find?_range_none]
  intro q hq
  rcases h q hq with h | h <;> simp [h]

theorem profitEllipse_first (inp : TOP_Input) (out : TOP_Output) (car q : idx_t)
    (hq : q < inp.Points) (hv : out.Visited inp q = false)
    (hf : (out.SimulateMoveCar inp car q).feasible = true)
    (hlow : ∀ q', q' < q →
      out.Visited inp q' = true ∨ (out.SimulateMoveCar inp car q').feasible = false) :
    profitEllipse inp out car = inp.Profit q := by
  unfold profitEllipse
  rw [find?_range_first inp.Points _ q hq (by simp [hv, hf])
    (by intro q' hq'; rcases hlow q' hq' with h | h <;> simp [h])]
  simp

/-- Claim C17, amended: `NonChoicheCost(car, p, sumProfit)` fails only when its final rollback
is undefined; otherwise it leaves the solution that the rollback produces and returns `+inf`
whenever `sumProfit` is zero; for a non-zero `sumProfit` it returns 0 when, in the solution left
by its call of `MoveCar(car, p)`, no unvisited point can feasibly be reached by the car, and
`profit(q) / sumProfit` when `q` is the unvisited point of lowest index that the car can
feasibly reach in that solution. -/
theorem NonChoicheCost_value (inp : TOP_Input) (out : TOP_Output) (car p : idx_t)
    (sumProfit : ℚ) :
    match NonChoicheCost inp out car p sumProfit with
    | .error e =>
      e = .undefinedBehaviour ∧ (out.MoveCar inp car p true).1.RollbackCar inp car = none
    | .ok (out2, v) =>
      (out.MoveCar inp car p true).1.RollbackCar inp car = some out2 ∧
      (sumProfit = 0 → v = .pinf) ∧
      (sumProfit ≠ 0 →
        (∀ q, q < inp.Points → (out.MoveCar inp car p true).1.Visited inp q = true ∨
          ((out.MoveCar inp car p true).1.SimulateMoveCar inp car q).feasible = false) →
        v = .fin 0) ∧
      (sumProfit ≠ 0 → ∀ q, q < inp.Points →
        (out.MoveCar inp car p true).1.Visited inp q = false →
        ((out.MoveCar inp car p true).1.SimulateMoveCar inp car q).feasible = true →
        (∀ q', q' < q → (out.MoveCar inp car p true).1.Visited inp q' = true ∨
          ((out.MoveCar inp car p true).1.SimulateMoveCar inp car q').feasible = false) →
        v = .fin (inp.Profit q / sumProfit)) := by
  unfold NonChoicheCost
  dsimp only
  cases hr : (out.MoveCar inp car p true).1.RollbackCar inp car with
  | none => exact ⟨rfl, rfl⟩
  | some out2 =>
    dsimp only
    by_cases hs : sumProfit = 0
    · rw [if_pos hs]
      exact ⟨rfl, fun _ => rfl, fun h => absurd hs h, fun h => absurd hs h⟩
    · rw [if_neg hs]
      refine ⟨rfl, fun h => absurd h hs, ?_, ?_⟩
      · intro _ hnone
        rw [profitEllipse_none inp _ car hnone]
        simp [Dbl.div, hs]
      · intro _ q hq hv hf hlow
        rw [profitEllipse_first inp _ car q hq hv hf hlow]
        simp [Dbl.div, hs]

/-! ## The frame of the local insertion optimizer -/

theorem RollbackCar_travel_time_other (inp : TOP_Input) (out out1 : TOP_Output) (car c : idx_t)
    (h : out.RollbackCar inp car = some out1) (hc : c ≠ car) :
    out1.travel_time c = out.travel_time c := by
  unfold RollbackCar at h
  cases hl : (out.car_hops car).getLast? with
  | none => rw [hl] at h; simp at h
  | some p =>
    rw [hl] at h
    simp only [Option.some.injEq] at h
    rw [← h]
    simp [Function.update_noteq hc]

/-- What `InsertPoint` leaves alone when it returns `k` for a car that is past the start depot
and within its budget: the points `inserted`, `k` of them, stand on the route of the car before
its last point, and the routes and travel times of the other cars are untouched. -/
theorem InsertPoint_frame_route (inp : TOP_Input) (car : idx_t) (maxDev : ℚ) :
    ∀ (fuel : Nat) (out out' : TOP_Output) (k : Nat),
      out.CarPoint inp car ≠ inp.StartPoint →
      out.travel_time car ≤ inp.MaxTime →
      InsertPoint inp car maxDev fuel out = .ok (out', k) →
      ∃ inserted : List idx_t, inserted.length = k ∧
        out'.car_hops car = (out.car_hops car).dropLast ++ inserted ++ [out.CarPoint inp car] ∧
        ∀ c, c ≠ car → out'.car_hops c = out.car_hops c ∧
          out'.travel_time c = out.travel_time c := by
  intro fuel
  induction fuel with
  | zero => intro out out' k _ _ h; simp [InsertPoint] at h
  | succ fuel ih =>
    intro out out' k hc hT h
    obtain ⟨out1, hr⟩ := RollbackCar_isSome_of_CarPoint_ne inp out car hc
    obtain ⟨hhops1, hsplit⟩ := RollbackCar_car_hops inp out out1 car hr
    have hback := applyMove_RollbackCar inp out out1 car hr
    have hunchanged : ∃ inserted : List idx_t, inserted.length = 0 ∧
        out.car_hops car = (out.car_hops car).dropLast ++ inserted ++ [out.CarPoint inp car] ∧
        ∀ c, c ≠ car → out.car_hops c = out.car_hops c ∧
          out.travel_time c = out.travel_time c :=
      ⟨[], rfl, by simpa using hsplit.symm, fun _ _ => ⟨rfl, rfl⟩⟩
    rw [InsertPoint] at h
    dsimp only at h
    rw [if_pos hc] at h
    by_cases he : inEllipse inp out car maxDev ≠ []
    · rw [if_pos he, hr] at h
      dsimp only at h
      cases hs : sortEllipse inp out1 car (inEllipse inp out car maxDev) with
      | nil => rw [hs] at h; simp at h
      | cons node rest =>
        rw [hs] at h
        dsimp only at h
        split at h
        · cases hf2 : (out1.SimulateMoveCar inp car node).feasible with
          | false => simp [MoveCar_snd, hf2] at h
          | true =>
            have e2 := MoveCar_fst_of_feasible inp out1 car node false hf2
            rw [e2] at h
            cases hf3 : ((out1.applyMove inp car node).SimulateMoveCar inp car
                (out.CarPoint inp car)).feasible with
            | false => simp [MoveCar_snd, hf2, hf3] at h
            | true =>
              have e3 := MoveCar_fst_of_feasible inp (out1.applyMove inp car node) car
                (out.CarPoint inp car) false hf3
              rw [e3] at h
              simp only [MoveCar_snd, hf2, hf3, Bool.not_true, Bool.false_eq_true,
                if_false] at h
              cases hrec : InsertPoint inp car maxDev fuel
                  ((out1.applyMove inp car node).applyMove inp car (out.CarPoint inp car)) with
              | error e => simp [hrec] at h
              | ok r =>
                obtain ⟨out4, k4⟩ := r
                simp only [hrec, Except.ok.injEq, Prod.mk.injEq] at h
                obtain ⟨rfl, rfl⟩ := h
                have hT3 := (feasible_iff inp _ car _).1 hf3
                have hc3 : ((out1.applyMove inp car node).applyMove inp car
                    (out.CarPoint inp car)).CarPoint inp car ≠ inp.StartPoint := by
                  rw [CarPoint_applyMove]; exact hc
                obtain ⟨ins, hlen, hroute, hothers⟩ := ih _ _ _ hc3 hT3 hrec
                have hself3 : ((out1.applyMove inp car node).applyMove inp car
                    (out.CarPoint inp car)).car_hops car =
                    (out.car_hops car).dropLast ++ [node] ++ [out.CarPoint inp car] := by
                  simp [applyMove, hhops1]
                have hother3 : ∀ c, c ≠ car →
                    ((out1.applyMove inp car node).applyMove inp car
                      (out.CarPoint inp car)).car_hops c = out.car_hops c ∧
                    ((out1.applyMove inp car node).applyMove inp car
                      (out.CarPoint inp car)).travel_time c = out.travel_time c := by
                  intro c hcc
                  refine ⟨by simp [applyMove, hhops1, Function.update_noteq hcc], ?_⟩
                  rw [← RollbackCar_travel_time_other inp out out1 car c hr hcc]
                  simp [applyMove, Function.update_noteq hcc]
                refine ⟨node :: ins, by simp [hlen]; omega, ?_, ?_⟩
                · rw [hroute, hself3, CarPoint_applyMove]
                  simp
                · intro c hcc
                  rw [(hothers c hcc).1, (hothers c hcc).2]
                  exact hother3 c hcc
        · simp only [Except.ok.injEq, Prod.mk.injEq] at h
          obtain ⟨rfl, rfl⟩ := h
          have hf : (out1.SimulateMoveCar inp car (out.CarPoint inp car)).feasible = true := by
            rw [feasible_iff, hback]; exact hT
          rw [MoveCar_fst_of_feasible inp out1 car _ false hf, hback]
          exact hunchanged
    · rw [if_neg he] at h
      simp only [Except.ok.injEq, Prod.mk.injEq] at h
      obtain ⟨rfl, rfl⟩ := h
      exact hunchanged

/-- When `InsertPoint` returns a positive count, the first candidate in the order of
`sortEllipse`, taken after the rollback of the last move, stands on the route where the last
point stood. -/
theorem InsertPoint_first_splice (inp : TOP_Input) (car : idx_t) (maxDev : ℚ) (fuel : Nat)
    (out out' : TOP_Output) (k : Nat)
    (h : InsertPoint inp car maxDev fuel out = .ok (out', k)) (hk : 0 < k) :
    ∃ (out1 : TOP_Output) (node : idx_t) (rest ins : List idx_t),
      out.RollbackCar inp car = some out1 ∧
      sortEllipse inp out1 car (inEllipse inp out car maxDev) = node :: rest ∧
      out'.car_hops car = (out.car_hops car).dropLast ++ node :: ins ++ [out.CarPoint inp car] := by
  cases fuel with
  | zero => simp [InsertPoint] at h
  | succ fuel =>
    rw [InsertPoint] at h
    dsimp only at h
    by_cases hc : out.CarPoint inp car ≠ inp.StartPoint
    · rw [if_pos hc] at h
      obtain ⟨out1, hr⟩ := RollbackCar_isSome_of_CarPoint_ne inp out car hc
      obtain ⟨hhops1, hsplit⟩ := RollbackCar_car_hops inp out out1 car hr
      by_cases he : inEllipse inp out car maxDev ≠ []
      · rw [if_pos he, hr] at h
        dsimp only at h
        cases hs : sortEllipse inp out1 car (inEllipse inp out car maxDev) with
        | nil => rw [hs] at h; simp at h
        | cons node rest =>
          rw [hs] at h
          dsimp only at h
          split at h
          · cases hf2 : (out1.SimulateMoveCar inp car node).feasible with
            | false => simp [MoveCar_snd, hf2] at h
            | true =>
              have e2 := MoveCar_fst_of_feasible inp out1 car node false hf2
              rw [e2] at h
              cases hf3 : ((out1.applyMove inp car node).SimulateMoveCar inp car
                  (out.CarPoint inp car)).feasible with
              | false => simp [MoveCar_snd, hf2, hf3] at h
              | true =>
                have e3 := MoveCar_fst_of_feasible inp (out1.applyMove inp car node) car
                  (out.CarPoint inp car) false hf3
                rw [e3] at h
                simp only [MoveCar_snd, hf2, hf3, Bool.not_true, Bool.false_eq_true,
                  if_false] at h
                cases hrec : InsertPoint inp car maxDev fuel
                    ((out1.applyMove inp car node).applyMove inp car (out.CarPoint inp car)) with
                | error e => simp [hrec] at h
                | ok r =>
                  obtain ⟨out4, k4⟩ := r
                  simp only [hrec, Except.ok.injEq, Prod.mk.injEq] at h
                  obtain ⟨rfl, rfl⟩ := h
                  have hT3 := (feasible_iff inp _ car _).1 hf3
                  have hc3 : ((out1.applyMove inp car node).applyMove inp car
                      (out.CarPoint inp car)).CarPoint inp car ≠ inp.StartPoint := by
                    rw [CarPoint_applyMove]; exact hc
                  obtain ⟨ins, _, hroute, _⟩ :=
                    InsertPoint_frame_route inp car maxDev fuel _ _ _ hc3 hT3 hrec
                  refine ⟨out1, node, rest, ins, hr, hs, ?_⟩
                  rw [hroute, CarPoint_applyMove]
                  simp [applyMove, hhops1]
          · simp only [Except.ok.injEq, Prod.mk.injEq] at h
            omega
      · rw [if_neg he] at h
        simp only [Except.ok.injEq, Prod.mk.injEq] at h
        omega
    · rw [if_neg hc] at h
      simp only [Except.ok.injEq, Prod.mk.injEq] at h
      omega

/-- The head of the sorted candidates is a candidate of least distance to the position of the
car in the solution the sort reads. -/
theorem sortEllipse_head_min (inp : TOP_Input) (out : TOP_Output) (car : idx_t) (l : List idx_t)
    (node : idx_t) (rest : List idx_t) (h : sortEllipse inp out car l = node :: rest) :
    ∀ q ∈ l, inp.Distance node (out.CarPoint inp car) ≤ inp.Distance q (out.CarPoint inp car) := by
  intro q hq
  let r : idx_t → idx_t → Prop := fun p1 p2 =>
    inp.Distance p1 (out.CarPoint inp car) ≤ inp.Distance p2 (out.CarPoint inp car)
  haveI : IsTotal idx_t r := ⟨fun a b => le_total _ _⟩
  haveI : IsTrans idx_t r := ⟨fun a b c hab hbc => le_trans hab hbc⟩
  have hsorted : (l.insertionSort r).Sorted r := List.sorted_insertionSort r l
  have hperm : (l.insertionSort r).Perm l := List.perm_insertionSort r l
  have hq' : q ∈ l.insertionSort r := hperm.mem_iff.2 hq
  have hform : l.insertionSort r = node :: rest := h
  rw [hform] at hsorted hq'
  rcases List.mem_cons.1 hq' with rfl | hq'
  · exact le_refl _
  · exact List.rel_of_sorted_cons hsorted q hq'

theorem getLastD_eq_getD_prev (pre : List idx_t) (last s : idx_t) :
    pre.getLastD s = (s :: (pre ++ [last])).getD ((s :: (pre ++ [last])).length - 2) s := by
  have hidx : (s :: (pre ++ [last])).length - 2 = pre.length := by simp
  rw [hidx]
  induction pre using List.reverseRecOn with
  | nil => simp
  | append_singleton pre1 x _ =>
    simp only [List.getLastD_concat, List.length_append, List.length_singleton,
      List.getD_eq_getElem?_getD, List.getElem?_cons_succ, List.append_assoc]
    rw [List.getElem?_append_right (le_refl _)]
    simp

/-- The position a rollback leaves the car at is the route entry before the last one. -/
theorem RollbackCar_CarPoint (inp : TOP_Input) (out out1 : TOP_Output) (car : idx_t)
    (h : out.RollbackCar inp car = some out1) :
    out1.CarPoint inp car = out.Hop inp car (out.Hops inp car - 2) := by
  obtain ⟨hhops1, hsplit⟩ := RollbackCar_car_hops inp out out1 car h
  unfold CarPoint Hop Hops Route
  rw [hhops1, ← hsplit]
  simp only [Function.update_same, List.dropLast_concat]
  exact getLastD_eq_getD_prev _ _ _

/-- The number of insertions is at most the number of unvisited inner points on entry: each
level of the recursion that inserts makes one of them visited. -/
theorem InsertPoint_count_le (inp : TOP_Input) (car : idx_t) (maxDev : ℚ) (hcar : car < inp.Cars) :
    ∀ (fuel : Nat) (out out' : TOP_Output) (k : Nat),
      InsertPoint inp car maxDev fuel out = .ok (out', k) → k ≤ unvisitedInner inp out := by
  intro fuel
  induction fuel with
  | zero => intro out out' k h; simp [InsertPoint] at h
  | succ fuel ih =>
    intro out out' k h
    rw [InsertPoint] at h
    dsimp only at h
    by_cases hc : out.CarPoint inp car ≠ inp.StartPoint
    · rw [if_pos hc] at h
      obtain ⟨out1, hr⟩ := RollbackCar_isSome_of_CarPoint_ne inp out car hc
      by_cases he : inEllipse inp out car maxDev ≠ []
      · rw [if_pos he, hr] at h
        dsimp only at h
        cases hs : sortEllipse inp out1 car (inEllipse inp out car maxDev) with
        | nil => rw [hs] at h; simp at h
        | cons node rest =>
          rw [hs] at h
          dsimp only at h
          have hnode := sortEllipse_head_mem inp out1 car _ node rest hs
          split at h
          · cases hf2 : (out1.SimulateMoveCar inp car node).feasible with
            | false => simp [MoveCar_snd, hf2] at h
            | true =>
              have e2 := MoveCar_fst_of_feasible inp out1 car node false hf2
              rw [e2] at h
              cases hf3 : ((out1.applyMove inp car node).SimulateMoveCar inp car
                  (out.CarPoint inp car)).feasible with
              | false => simp [MoveCar_snd, hf2, hf3] at h
              | true =>
                have e3 := MoveCar_fst_of_feasible inp (out1.applyMove inp car node) car
                  (out.CarPoint inp car) false hf3
                rw [e3] at h
                simp only [MoveCar_snd, hf2, hf3, Bool.not_true, Bool.false_eq_true,
                  if_false] at h
                cases hrec : InsertPoint inp car maxDev fuel
                    ((out1.applyMove inp car node).applyMove inp car (out.CarPoint inp car)) with
                | error e => simp [hrec] at h
                | ok r =>
                  obtain ⟨out4, k4⟩ := r
                  simp only [hrec, Except.ok.injEq, Prod.mk.injEq] at h
                  obtain ⟨rfl, rfl⟩ := h
                  have hlt := unvisitedInner_after_insertion inp out out1 car node maxDev hcar hr
                    hnode
                  have := ih _ _ _ hrec
                  omega
          · simp only [Except.ok.injEq, Prod.mk.injEq] at h
            omega
      · rw [if_neg he] at h
        simp only [Except.ok.injEq, Prod.mk.injEq] at h
        omega
    · rw [if_neg hc] at h
      simp only [Except.ok.injEq, Prod.mk.injEq] at h
      omega

/-- Claim C11, amended: when `InsertPoint` returns a positive count, the point that stands on
the route where the last point stood on entry is a candidate of least distance to the previous
position of the car (the position it has after the rollback of its last move, the route entry
before the last one), over all candidates. -/
theorem InsertPoint_splices_nearest_to_previous (inp : TOP_Input) (car : idx_t)
    (maxDeviationAdmitted : ℚ) (fuel : Nat) (out : TOP_Output) :
    match InsertPoint inp car maxDeviationAdmitted fuel out with
    | .ok (out1, k) =>
      0 < k → ∃ node : idx_t,
        (out1.car_hops car)[(out.car_hops car).length - 1]? = some node ∧
        node ∈ inEllipse inp out car maxDeviationAdmitted ∧
        ∀ q ∈ inEllipse inp out car maxDeviationAdmitted,
          inp.Distance node (out.Hop inp car (out.Hops inp car - 2)) ≤
            inp.Distance q (out.Hop inp car (out.Hops inp car - 2))
    | .error _ => True := by
  cases h : InsertPoint inp car maxDeviationAdmitted fuel out with
  | error e => trivial
  | ok r =>
    obtain ⟨out1, k⟩ := r
    dsimp only
    intro hk
    obtain ⟨prev, node, rest, ins, hr, hs, hroute⟩ :=
      InsertPoint_first_splice inp car maxDeviationAdmitted fuel out out1 k h hk
    refine ⟨node, ?_, sortEllipse_head_mem inp prev car _ node rest hs, ?_⟩
    · obtain ⟨_, hsplit⟩ := RollbackCar_car_hops inp out prev car hr
      have hlen : (out.car_hops car).length - 1 = (out.car_hops car).dropLast.length := by
        simp
      rw [hroute, hlen, List.append_assoc, List.getElem?_append_right (le_refl _)]
      simp
    · rw [← RollbackCar_CarPoint inp out prev car hr]
      exact sortEllipse_head_min inp prev car _ node rest hs

/-- Claim C15: for a car of the instance and more fuel than there are unvisited inner points
(the point count plus one always suffices), `InsertPoint` returns or raises one of its two
exceptions, whatever the state; the count it returns is at most the number of unvisited points
other than the depots on entry, hence at most the point count. -/
theorem InsertPoint_terminates (inp : TOP_Input) (car : idx_t) (maxDeviationAdmitted : ℚ)
    (fuel : Nat) (out : TOP_Output) (hcar : car < inp.Cars)
    (hfuel : unvisitedInner inp out < fuel) :
    unvisitedInner inp out < inp.Points + 1 ∧
    match InsertPoint inp car maxDeviationAdmitted fuel out with
    | .ok (_, k) => k ≤ unvisitedInner inp out ∧ k ≤ inp.Points
    | .error e => e = .insertFailed ∨ e = .reinsertFailed := by
  refine ⟨unvisitedInner_lt inp out, ?_⟩
  have hlt := unvisitedInner_lt inp out
  rcases InsertPoint_total inp car maxDeviationAdmitted hcar fuel out hfuel with
    ⟨r, hok⟩ | herr | herr
  · obtain ⟨out1, k⟩ := r
    rw [hok]
    dsimp only
    have := InsertPoint_count_le inp car maxDeviationAdmitted hcar fuel out out1 k hok
    omega
  · rw [herr]; exact Or.inl rfl
  · rw [herr]; exact Or.inr rfl

theorem InsertPoint_terminates_witness :
    (0 < lineInstanceWide.Cars ∧ unvisitedInner lineInstanceWide wideAtOne < 3) ∧
    (unvisitedInner lineInstanceWide wideAtOne < lineInstanceWide.Points + 1 ∧
      match InsertPoint lineInstanceWide 0 0 3 wideAtOne with
      | .ok (_, k) => k ≤ unvisitedInner lineInstanceWide wideAtOne ∧ k ≤ lineInstanceWide.Points
      | .error e => e = .insertFailed ∨ e = .reinsertFailed) :=
  ⟨⟨by decide, by decide!⟩,
    InsertPoint_terminates lineInstanceWide 0 0 3 wideAtOne (by decide) (by decide!)⟩

/-- The frame of `InsertPoint` whenever the car is within its budget on entry, as it is at
every call of Kevin.cpp (:304, :337 and :243 follow moves that reported feasible): for a car
that is past the start depot and within its time budget, when `InsertPoint` returns, the car
stands where it stood on entry, its route up to and including the previous position is
unchanged, and the routes and travel times of all other cars are unchanged. -/
theorem InsertPoint_frame (inp : TOP_Input) (car : idx_t) (maxDeviationAdmitted : ℚ)
    (fuel : Nat) (out : TOP_Output) (hpast : out.CarPoint inp car ≠ inp.StartPoint)
    (hbudget : out.TravelTime car ≤ inp.MaxTime) :
    match InsertPoint inp car maxDeviationAdmitted fuel out with
    | .ok (out1, _) =>
      out1.CarPoint inp car = out.CarPoint inp car ∧
      (out.Route inp car).dropLast <+: out1.Route inp car ∧
      ∀ c, c ≠ car → out1.Route inp c = out.Route inp c ∧ out1.TravelTime c = out.TravelTime c
    | .error _ => True := by
  cases h : InsertPoint inp car maxDeviationAdmitted fuel out with
  | error e => trivial
  | ok r =>
    obtain ⟨out1, k⟩ := r
    dsimp only
    obtain ⟨ins, _, hroute, hothers⟩ :=
      InsertPoint_frame_route inp car maxDeviationAdmitted fuel out out1 k hpast hbudget h
    obtain ⟨prev, hr⟩ := RollbackCar_isSome_of_CarPoint_ne inp out car hpast
    obtain ⟨_, hsplit⟩ := RollbackCar_car_hops inp out prev car hr
    refine ⟨?_, ?_, ?_⟩
    · unfold CarPoint at *
      rw [hroute]
      simp
    · unfold Route
      rw [hroute]
      have hne : out.car_hops car ≠ [] := by
        intro he
        rw [he] at hsplit
        simp at hsplit
      rw [List.dropLast_cons_of_ne_nil hne]
      simp [List.append_assoc]
    · intro c hc
      unfold Route TravelTime
      rw [(hothers c hc).1, (hothers c hc).2]
      exact ⟨rfl, rfl⟩

theorem InsertPoint_frame_witness :
    (wideAtOne.CarPoint lineInstanceWide 0 ≠ lineInstanceWide.StartPoint ∧
      wideAtOne.TravelTime 0 ≤ lineInstanceWide.MaxTime) ∧
    match InsertPoint lineInstanceWide 0 0 3 wideAtOne with
    | .ok (out1, _) =>
      out1.CarPoint lineInstanceWide 0 = wideAtOne.CarPoint lineInstanceWide 0 ∧
      (wideAtOne.Route lineInstanceWide 0).dropLast <+: out1.Route lineInstanceWide 0 ∧
      ∀ c, c ≠ 0 → out1.Route lineInstanceWide c = wideAtOne.Route lineInstanceWide c ∧
        out1.TravelTime c = wideAtOne.TravelTime c
    | .error _ => True :=
  ⟨⟨by decide!, by decide!⟩,
    InsertPoint_frame lineInstanceWide 0 0 3 wideAtOne (by decide!) (by decide!)⟩

/-! ## The driver when nothing is reachable -/

theorem ratePoints_unreachable (inp : TOP_Input) (wProfit wTime wNonCost : Dbl)
    (out : TOP_Output) :
    ∀ ps : List idx_t, (∀ p ∈ ps, verifyFeasibility inp out p = false) →
      ratePoints inp wProfit wTime wNonCost ps out = .ok (out, List.replicate ps.length .ninf) := by
  intro ps
  induction ps with
  | nil => intro _; rfl
  | cons p ps ih =>
    intro h
    have hp : rating inp wProfit wTime wNonCost out p = .ok (out, .ninf) := by
      unfold rating
      simp [h p (List.mem_cons_self _ _)]
    rw [ratePoints, hp]
    dsimp only
    rw [ih (fun q hq => h q (List.mem_cons_of_mem _ hq))]
    rfl

theorem min_elements_foldl_all_ninf (prov : idx_t → Dbl) :
    ∀ (rest : List idx_t) (l : List idx_t), (∀ c ∈ rest, prov c = .ninf) →
      rest.foldl (min_elements_step so_negcmp prov) (l, .ninf) = (l, .ninf) := by
  intro rest
  induction rest with
  | nil => intro l _; rfl
  | cons c rest ih =>
    intro l h
    have hstep : min_elements_step so_negcmp prov (l, .ninf) c = (l, .ninf) := by
      unfold min_elements_step
      simp [so_negcmp, Dbl.sub, Dbl.add, Dbl.neg, Dbl.ltZero, Dbl.eqZero,
        h c (List.mem_cons_self _ _)]
    rw [List.foldl_cons, hstep]
    exact ih l (fun q hq => h q (List.mem_cons_of_mem _ hq))

/-- When every value is `-inf` the tie set holds the first index only: `-inf - -inf` is not a
number, so no later index is taken as equal. -/
theorem min_elements_all_ninf (n : idx_t) (prov : idx_t → Dbl) (hn : 0 < n)
    (h : ∀ i, i < n → prov i = .ninf) : min_elements n so_negcmp prov = [0] := by
  obtain ⟨k, hk⟩ := Nat.exists_eq_succ_of_ne_zero (Nat.pos_iff_ne_zero.1 hn)
  subst hk
  unfold min_elements min_elements_it
  have h1 : List.range (k + 1) = 0 :: List.range' 1 k := by
    rw [List.range_eq_range', List.range'_succ]
  rw [h1]
  dsimp only
  rw [h 0 (Nat.succ_pos k), min_elements_foldl_all_ninf prov _ [0]]
  intro c hc
  have hc1 : c < 1 + k := (List.mem_range'_1.1 hc).2
  exact h c (lt_of_lt_of_eq hc1 (Nat.add_comm 1 k))

theorem count_false_set (l : List Bool) (c : Nat) (h : l[c]? = some false) :
    (l.set c true).count false + 1 = l.count false := by
  induction l generalizing c with
  | nil => simp at h
  | cons b l ih =>
    cases c with
    | zero =>
      simp only [List.getElem?_cons_zero, Option.some.injEq] at h
      subst h
      simp
    | succ c =>
      simp only [List.getElem?_cons_succ] at h
      have := ih c h
      cases b <;> simp [List.set, List.count_cons] <;> omega

/-- When no car can feasibly be moved to any point, the loop of `SolverGreedy` marks the cars
one after the other and exits; the pool and the solution are left as they were. -/
theorem SolverGreedyLoop_unreachable (inp : TOP_Input) (wProfit wTime : Dbl) (maxDev : ℚ)
    (wNonCost : Dbl) (pool : List TOP_Output) (out : TOP_Output) (hpoints : 0 < inp.Points)
    (hcars : 0 < inp.Cars)
    (h : ∀ car, car < inp.Cars → ∀ p, p < inp.Points →
      (out.SimulateMoveCar inp car p).feasible = false) :
    ∀ (n : Nat) (markedCars : List Bool) (fuel : Nat), markedCars.length = inp.Cars →
      markedCars.count false ≤ n → n < fuel →
      SolverGreedyLoop inp wProfit wTime maxDev wNonCost fuel markedCars pool out =
        .ok (pool, out) := by
  have hver : ∀ p ∈ List.range inp.Points, verifyFeasibility inp out p = false := by
    intro p hp
    rw [← Bool.not_eq_true, verifyFeasibility_iff]
    rintro ⟨car, hcar, hf⟩
    rw [h car hcar p (List.mem_range.1 hp)] at hf
    exact absurd hf (by decide)
  have hrate := ratePoints_unreachable inp wProfit wTime wNonCost out _ hver
  have htie : (min_elements inp.Points so_negcmp fun p =>
      (List.replicate (List.range inp.Points).length Dbl.ninf).getD p Dbl.nan) = [0] := by
    apply min_elements_all_ninf _ _ hpoints
    intro i hi
    simp [List.getD_eq_getElem?_getD, List.getElem?_replicate, hi]
  intro n
  induction n with
  | zero =>
    intro markedCars fuel hlen hcount hfuel
    obtain ⟨f, rfl⟩ := Nat.exists_eq_succ_of_ne_zero (Nat.pos_iff_ne_zero.1 hfuel)
    rw [SolverGreedyLoop, hrate]
    dsimp only
    rw [htie]
    simp only [List.drop_succ_cons, List.drop_nil, speculativeBranches, List.head?_cons]
    have hc := chooseCar_lt inp out markedCars 0 hcars
    have hget : markedCars[chooseCar inp out markedCars 0]? =
        some (markedCars.getD (chooseCar inp out markedCars 0) false) := by
      rw [List.getD_eq_getElem?_getD, List.getElem?_eq_getElem (by rw [hlen]; exact hc)]
      rfl
    have hall : ∀ i, i < inp.Cars → markedCars.getD i false = true := by
      intro i hi
      cases hb : markedCars.getD i false with
      | true => rfl
      | false =>
        have hi' : i < markedCars.length := by rw [hlen]; exact hi
        have hmem : false ∈ markedCars := by
          rw [List.getD_eq_getElem?_getD, List.getElem?_eq_getElem hi'] at hb
          simp only [Option.getD_some] at hb
          rw [← hb]
          exact List.getElem_mem _
        have := List.count_pos_iff.2 hmem
        omega
    rw [hget, (chooseCar_marked_iff inp out markedCars 0 hcars).2 hall]
  | succ n ih =>
    intro markedCars fuel hlen hcount hfuel
    obtain ⟨f, rfl⟩ := Nat.exists_eq_succ_of_ne_zero (Nat.pos_iff_ne_zero.1
      (Nat.lt_of_le_of_lt (Nat.zero_le _) hfuel))
    rw [SolverGreedyLoop, hrate]
    dsimp only
    rw [htie]
    simp only [List.drop_succ_cons, List.drop_nil, speculativeBranches, List.head?_cons]
    have hc := chooseCar_lt inp out markedCars 0 hcars
    have hget : markedCars[chooseCar inp out markedCars 0]? =
        some (markedCars.getD (chooseCar inp out markedCars 0) false) := by
      rw [List.getD_eq_getElem?_getD, List.getElem?_eq_getElem (by rw [hlen]; exact hc)]
      rfl
    rw [hget]
    cases hb : markedCars.getD (chooseCar inp out markedCars 0) false with
    | true => rfl
    | false =>
      dsimp only
      rw [hb] at hget
      have hcnt := count_false_set markedCars _ hget
      have hrec := ih (markedCars.set (chooseCar inp out markedCars 0) true) f
        (by rw [List.length_set]; exact hlen) (by omega) (by omega)
      have hinf := h _ hc 0 hpoints
      split
      · exact hrec
      · rw [MoveCar_snd, hinf, MoveCar_fst_of_not_feasible inp out _ 0 hinf]
        simp only [Bool.not_false, if_true]
        exact hrec

/-- Claim C14: for an instance with at least one point and one car and a solution in which no
car can feasibly be moved to any point, `SolverGreedy` (with fuel for one iteration per car and
one more) returns with the pool and the solution as it received them, and `SolverAll` returns
the input solution; for the empty input solution the returned total profit is 0. -/
theorem SolverAll_unreachable_returns_input (fuel : Nat) (pool : List TOP_Output)
    (inp : TOP_Input) (out : TOP_Output) (wProfit wTime : Dbl) (maxDeviationAdmitted : ℚ)
    (wNonCost : Dbl) (hpoints : 0 < inp.Points) (hcars : 0 < inp.Cars) (hfuel : inp.Cars < fuel)
    (h : ∀ car, car < inp.Cars → ∀ p, p < inp.Points →
      (out.SimulateMoveCar inp car p).feasible = false) :
    SolverGreedy fuel pool inp out wProfit wTime maxDeviationAdmitted wNonCost = .ok (pool, out) ∧
      SolverAll fuel inp out wProfit wTime maxDeviationAdmitted wNonCost = .ok out ∧
      (out = emptySolution inp →
        ∃ r, SolverAll fuel inp out wProfit wTime maxDeviationAdmitted wNonCost = .ok r ∧
          r.PointProfit = 0) := by
  have hg : ∀ pool1, SolverGreedy fuel pool1 inp out wProfit wTime maxDeviationAdmitted
      wNonCost = .ok (pool1, out) := by
    intro pool1
    unfold SolverGreedy
    exact SolverGreedyLoop_unreachable inp wProfit wTime maxDeviationAdmitted wNonCost pool1 out
      hpoints hcars h inp.Cars _ fuel (List.length_replicate _ _)
      (by rw [List.count_replicate_self]) hfuel
  have hall : SolverAll fuel inp out wProfit wTime maxDeviationAdmitted wNonCost = .ok out := by
    unfold SolverAll SolverAllRun
    rw [SolverAllLoop]
    simp only [List.getLast?_singleton, List.dropLast_single, Nat.zero_add, Nat.reduceEqDiff,
      if_false, hg []]
    rw [SolverAllLoop]
    simp
  refine ⟨hg pool, hall, ?_⟩
  intro he
  refine ⟨out, hall, ?_⟩
  rw [he]
  rfl

theorem SolverAll_unreachable_returns_input_witness :
    (0 < farInstance.Points ∧ 0 < farInstance.Cars ∧ farInstance.Cars < 2 ∧
      ∀ car, car < farInstance.Cars → ∀ p, p < farInstance.Points →
        ((emptySolution farInstance).SimulateMoveCar farInstance car p).feasible = false) ∧
    (SolverGreedy 2 [] farInstance (emptySolution farInstance) (.fin 1) (.fin 1) 0 (.fin 1) =
        .ok ([], emptySolution farInstance) ∧
      SolverAll 2 farInstance (emptySolution farInstance) (.fin 1) (.fin 1) 0 (.fin 1) =
        .ok (emptySolution farInstance) ∧
      (emptySolution farInstance = emptySolution farInstance →
        ∃ r, SolverAll 2 farInstance (emptySolution farInstance) (.fin 1) (.fin 1) 0 (.fin 1) =
            .ok r ∧
          r.PointProfit = 0)) :=
  ⟨⟨by decide, by decide, by decide, by decide!⟩,
    SolverAll_unreachable_returns_input 2 [] farInstance (emptySolution farInstance) (.fin 1)
      (.fin 1) 0 (.fin 1) (by decide) (by decide) (by decide) (by decide!)⟩

theorem rating_sentinel (inp : TOP_Input) (wProfit wTime wNonCost : Dbl) (out : TOP_Output)
    (p : idx_t) (h : out.Visited inp p = true ∨ verifyFeasibility inp out p = false) :
    rating inp wProfit wTime wNonCost out p = .ok (out, .ninf) := by
  unfold rating RatingChoice
  rcases h with h | h <;> simp [h]

/-! ## The scenario of the single intermediate point -/

theorem Dbl.div_fin_fin (a b : ℚ) (hb : b ≠ 0) : Dbl.div (.fin a) (.fin b) = .fin (a / b) := by
  simp [Dbl.div, hb]

theorem Dbl.mul_fin_fin (a b : ℚ) : Dbl.mul (.fin a) (.fin b) = .fin (a * b) := rfl

theorem Dbl.sub_fin_fin (a b : ℚ) : Dbl.sub (.fin a) (.fin b) = .fin (a + -b) := rfl

theorem Dbl.add_fin_fin (a b : ℚ) : Dbl.add (.fin a) (.fin b) = .fin (a + b) := rfl

theorem scenario_Visited_empty (D gain : ℚ) (p : idx_t) :
    (emptySolution (scenarioInstance D gain)).Visited (scenarioInstance D gain) p = decide (p = 0)
      := by
  simp [Visited, Route, emptySolution, scenarioInstance, TOP_Input.StartPoint, List.range_succ]

theorem scenario_Visited_mid (D gain : ℚ) (p : idx_t) :
    ((emptySolution (scenarioInstance D gain)).applyMove (scenarioInstance D gain) 0 1).Visited
      (scenarioInstance D gain) p = decide (p = 0 ∨ p = 1) := by
  simp [Visited, Route, emptySolution, applyMove, scenarioInstance, TOP_Input.StartPoint,
    List.range_succ]

theorem scenario_Visited_end (D gain : ℚ) (p : idx_t) :
    ((emptySolution (scenarioInstance D gain)).applyMove (scenarioInstance D gain) 0 2).Visited
      (scenarioInstance D gain) p = decide (p = 0 ∨ p = 2) := by
  simp [Visited, Route, emptySolution, applyMove, scenarioInstance, TOP_Input.StartPoint,
    List.range_succ]

theorem scenario_Visited_mid_end (D gain : ℚ) (p : idx_t) :
    (((emptySolution (scenarioInstance D gain)).applyMove (scenarioInstance D gain) 0 1).applyMove
      (scenarioInstance D gain) 0 2).Visited (scenarioInstance D gain) p =
      decide (p = 0 ∨ p = 1 ∨ p = 2) := by
  simp [Visited, Route, emptySolution, applyMove, scenarioInstance, TOP_Input.StartPoint,
    List.range_succ]

theorem scenario_nearestCar (D gain : ℚ) (out : TOP_Output) (p : idx_t) :
    nearestCar (scenarioInstance D gain) out p = 0 := rfl

theorem scenario_chooseCar (D gain : ℚ) (out : TOP_Output) (m : List Bool) (p : idx_t) :
    chooseCar (scenarioInstance D gain) out m p = 0 := rfl

theorem scenario_feasible_empty (D gain : ℚ) (p : Nat) (hp : p < 3) (hD : D ≤ 10) :
    ((emptySolution (scenarioInstance D gain)).SimulateMoveCar (scenarioInstance D gain) 0
      p).feasible =
      true := by
  have h : p = 0 ∨ p = 1 ∨ p = 2 := by omega
  rcases h with rfl | rfl | rfl <;>
    simp [SimulateMoveCar, extraTime, CarPoint, emptySolution, scenarioInstance,
      TOP_Input.EndPoint, TOP_Input.StartPoint] <;> linarith

theorem scenario_verify_empty (D gain : ℚ) (p : Nat) (hp : p < 3) (hD : D ≤ 10) :
    verifyFeasibility (scenarioInstance D gain) (emptySolution (scenarioInstance D gain)) p = true
      := by
  rw [verifyFeasibility_iff]
  exact ⟨0, Nat.zero_lt_one, scenario_feasible_empty D gain p hp hD⟩

theorem scenario_travel_time_mid (D gain : ℚ) :
    ((emptySolution (scenarioInstance D gain)).applyMove (scenarioInstance D gain) 0 1).travel_time
      0 =
      10 := by
  simp [applyMove, extraTime, CarPoint, emptySolution, scenarioInstance,
    TOP_Input.EndPoint, TOP_Input.StartPoint]
  ring

theorem scenario_feasible_mid_end (D gain : ℚ) :
    (((emptySolution (scenarioInstance D gain)).applyMove (scenarioInstance D gain) 0
      1).SimulateMoveCar
      (scenarioInstance D gain) 0 2).feasible = true := by
  simp [SimulateMoveCar, applyMove, extraTime, CarPoint, emptySolution, scenarioInstance,
    TOP_Input.EndPoint, TOP_Input.StartPoint]
  linarith

theorem scenario_not_feasible_end_mid (D gain : ℚ) (hD : 0 < D) :
    (((emptySolution (scenarioInstance D gain)).applyMove (scenarioInstance D gain) 0
      2).SimulateMoveCar
      (scenarioInstance D gain) 0 1).feasible = false := by
  simp [SimulateMoveCar, applyMove, extraTime, CarPoint, emptySolution, scenarioInstance,
    TOP_Input.EndPoint, TOP_Input.StartPoint]
  linarith

/-- The non-choice cost of the intermediate point on the empty solution: after the move the
first unvisited reachable point is the end depot, whose profit is 0. -/
theorem scenario_NonChoicheCost_mid (D gain : ℚ) (s : ℚ) (hs : s ≠ 0) (hD : D ≤ 10) :
    NonChoicheCost (scenarioInstance D gain) (emptySolution (scenarioInstance D gain)) 0 1 s =
      .ok (emptySolution (scenarioInstance D gain), .fin 0) := by
  unfold NonChoicheCost
  dsimp only
  rw [MoveCar_fst_of_feasible _ _ _ _ _ (scenario_feasible_empty D gain 1 (by decide) hD),
    RollbackCar_applyMove]
  dsimp only
  rw [if_neg hs, profitEllipse_first _ _ 0 2 (show (2 : Nat) < 3 by decide)
    (by simp [scenario_Visited_mid])
    (scenario_feasible_mid_end D gain)
    (by
      intro q hq
      left
      rw [scenario_Visited_mid]
      have h2 : ∀ n : Nat, n < 2 → n = 0 ∨ n = 1 := by omega
      simpa using h2 q hq)]
  simp [Dbl.div, hs, scenarioInstance]

theorem scenario_NonChoicheCost_end (D gain : ℚ) (s : ℚ) (hs : s ≠ 0) (hD0 : 0 < D) (hD : D ≤ 10) :
    NonChoicheCost (scenarioInstance D gain) (emptySolution (scenarioInstance D gain)) 0 2 s =
      .ok (emptySolution (scenarioInstance D gain), .fin 0) := by
  unfold NonChoicheCost
  dsimp only
  rw [MoveCar_fst_of_feasible _ _ _ _ _ (scenario_feasible_empty D gain 2 (by decide) hD),
    RollbackCar_applyMove]
  dsimp only
  rw [if_neg hs, profitEllipse_none _ _ 0
    (by
      intro q hq
      have h3 : ∀ n : Nat, n < 3 → n = 0 ∨ n = 1 ∨ n = 2 := by omega
      rcases h3 q hq with rfl | rfl | rfl
      · left; simp [scenario_Visited_end]
      · right; exact scenario_not_feasible_end_mid D gain hD0
      · left; simp [scenario_Visited_end])]
  simp [Dbl.div, hs]

theorem scenario_filter_empty (D gain : ℚ) :
    List.filter (fun q => !decide (q = 0)) (List.range (scenarioInstance D gain).Points) = [1, 2]
      := by
  have hpts : (scenarioInstance D gain).Points = 3 := rfl
  rw [hpts]
  decide

theorem scenario_rating_mid (D gain : ℚ) (wP wT wN : ℚ) (hD : D < 10) (hgain : 0 < gain) :
    rating (scenarioInstance D gain) (.fin wP) (.fin wT) (.fin wN)
        (emptySolution (scenarioInstance D gain)) 1 =
      .ok (emptySolution (scenarioInstance D gain), .fin (2 * wP - D / 10 * wT)) := by
  have hgain0 : gain ≠ 0 := ne_of_gt hgain
  have hsum : (List.map (scenarioInstance D gain).Profit [1, 2]).sum = gain := by
    simp [scenarioInstance]
  have hT : (emptySolution (scenarioInstance D gain)).TravelTime 0 = D := by
    simp [TravelTime, emptySolution, scenarioInstance, TOP_Input.EndPoint, TOP_Input.StartPoint]
  have hM : (scenarioInstance D gain).MaxTime = 10 := rfl
  have hP : (scenarioInstance D gain).Profit 1 = gain := by simp [scenarioInstance]
  have hextra : ((emptySolution (scenarioInstance D gain)).SimulateMoveCar (scenarioInstance D gain)
      0 1).extraTravelTime = 10 - D := by
    simp [SimulateMoveCar, extraTime, CarPoint, emptySolution, scenarioInstance,
      TOP_Input.EndPoint, TOP_Input.StartPoint]
    ring
  have hslack : (10 : ℚ) - D ≠ 0 := by intro h; linarith
  unfold rating RatingChoice
  simp only [scenario_verify_empty D gain 1 (by decide) (le_of_lt hD), scenario_Visited_empty,
    scenario_filter_empty, scenario_nearestCar, hsum, hT, hM, hP, hextra,
    scenario_NonChoicheCost_mid D gain gain hgain0 (le_of_lt hD)]
  have hlen : (([1, 2] : List idx_t).length : ℚ) = 2 := by norm_num
  have h2 : gain / 2 ≠ 0 := div_ne_zero hgain0 two_ne_zero
  simp only [Bool.not_true, Bool.false_eq_true, if_false, Bool.or_false, decide_eq_true_eq,
    one_ne_zero, hlen, two_ne_zero, hslack, Dbl.div_fin_fin _ _ h2,
    Dbl.div_fin_fin _ _ (show (10 : ℚ) ≠ 0 by norm_num), Dbl.mul_fin_fin, Dbl.sub_fin_fin,
    Dbl.add_fin_fin]
  have hval : gain / (gain / 2) * wP + -(D / 10 * ((10 - D) / (10 - D)) * wT) + 0 * wN =
      2 * wP - D / 10 * wT := by
    field_simp
    ring
  rw [hval]

theorem scenario_rating_end (D gain : ℚ) (wP wT wN : ℚ) (hD0 : 0 < D) (hD : D < 10)
    (hgain : 0 < gain) :
    rating (scenarioInstance D gain) (.fin wP) (.fin wT) (.fin wN)
        (emptySolution (scenarioInstance D gain)) 2 =
      .ok (emptySolution (scenarioInstance D gain), .fin 0) := by
  have hgain0 : gain ≠ 0 := ne_of_gt hgain
  have hsum : (List.map (scenarioInstance D gain).Profit [1, 2]).sum = gain := by
    simp [scenarioInstance]
  have hT : (emptySolution (scenarioInstance D gain)).TravelTime 0 = D := by
    simp [TravelTime, emptySolution, scenarioInstance, TOP_Input.EndPoint, TOP_Input.StartPoint]
  have hM : (scenarioInstance D gain).MaxTime = 10 := rfl
  have hP : (scenarioInstance D gain).Profit 2 = 0 := by simp [scenarioInstance]
  have hextra : ((emptySolution (scenarioInstance D gain)).SimulateMoveCar (scenarioInstance D gain)
      0 2).extraTravelTime = 0 := by
    simp [SimulateMoveCar, extraTime, CarPoint, emptySolution, scenarioInstance,
      TOP_Input.EndPoint, TOP_Input.StartPoint]
  have hslack : (10 : ℚ) - D ≠ 0 := by intro h; linarith
  unfold rating RatingChoice
  simp only [scenario_verify_empty D gain 2 (by decide) (le_of_lt hD), scenario_Visited_empty,
    scenario_filter_empty, scenario_nearestCar, hsum, hT, hM, hP, hextra,
    scenario_NonChoicheCost_end D gain gain hgain0 hD0 (le_of_lt hD)]
  have hlen : (([1, 2] : List idx_t).length : ℚ) = 2 := by norm_num
  have h2 : gain / 2 ≠ 0 := div_ne_zero hgain0 two_ne_zero
  simp only [Bool.not_true, Bool.false_eq_true, if_false, Bool.or_false, decide_eq_true_eq,
    OfNat.ofNat_ne_zero, hlen, two_ne_zero, hslack, Dbl.div_fin_fin _ _ h2,
    Dbl.div_fin_fin _ _ (show (10 : ℚ) ≠ 0 by norm_num), Dbl.mul_fin_fin, Dbl.sub_fin_fin,
    Dbl.add_fin_fin]
  have hval : (0 : ℚ) / (gain / 2) * wP + -(D / 10 * (0 / (10 - D)) * wT) + 0 * wN = 0 := by
    simp
  rw [hval]

theorem scenario_ratePoints_empty (D gain : ℚ) (wP wT wN : ℚ) (hD0 : 0 < D) (hD : D < 10)
    (hgain : 0 < gain) :
    ratePoints (scenarioInstance D gain) (.fin wP) (.fin wT) (.fin wN)
        (List.range (scenarioInstance D gain).Points) (emptySolution (scenarioInstance D gain)) =
      .ok (emptySolution (scenarioInstance D gain),
        [.ninf, .fin (2 * wP - D / 10 * wT), .fin 0]) := by
  have hpts : (scenarioInstance D gain).Points = 3 := rfl
  have hrange : List.range 3 = [0, 1, 2] := by decide
  have r0 : rating (scenarioInstance D gain) (.fin wP) (.fin wT) (.fin wN)
      (emptySolution (scenarioInstance D gain)) 0 =
      .ok (emptySolution (scenarioInstance D gain), .ninf) :=
    rating_sentinel _ _ _ _ _ _ (Or.inl (by simp [scenario_Visited_empty]))
  rw [hpts, hrange]
  simp only [ratePoints, r0, scenario_rating_mid D gain wP wT wN hD hgain,
    scenario_rating_end D gain wP wT wN hD0 hD hgain]

theorem scenario_rating_mid_end (D gain : ℚ) (wP wT wN : ℚ) :
    rating (scenarioInstance D gain) (.fin wP) (.fin wT) (.fin wN)
        ((emptySolution (scenarioInstance D gain)).applyMove (scenarioInstance D gain) 0 1) 2 =
      .ok ((emptySolution (scenarioInstance D gain)).applyMove (scenarioInstance D gain) 0 1, .nan)
        := by
  have hver : verifyFeasibility (scenarioInstance D gain)
      ((emptySolution (scenarioInstance D gain)).applyMove (scenarioInstance D gain) 0 1) 2 = true
        := by
    rw [verifyFeasibility_iff]
    exact ⟨0, Nat.zero_lt_one, scenario_feasible_mid_end D gain⟩
  have hfilter : List.filter (fun q => !decide (q = 0 ∨ q = 1))
      (List.range (scenarioInstance D gain).Points) = [2] := by
    have hpts : (scenarioInstance D gain).Points = 3 := rfl
    rw [hpts]
    decide
  have hsum : (List.map (scenarioInstance D gain).Profit [2]).sum = 0 := by
    simp [scenarioInstance]
  have hP : (scenarioInstance D gain).Profit 2 = 0 := by simp [scenarioInstance]
  have hNC : NonChoicheCost (scenarioInstance D gain)
      ((emptySolution (scenarioInstance D gain)).applyMove (scenarioInstance D gain) 0 1) 0 2 0 =
      .ok ((emptySolution (scenarioInstance D gain)).applyMove (scenarioInstance D gain) 0 1,
        .pinf) := by
    unfold NonChoicheCost
    dsimp only
    rw [MoveCar_fst_of_feasible _ _ _ _ _ (scenario_feasible_mid_end D gain), RollbackCar_applyMove]
    simp
  unfold rating RatingChoice
  simp only [hver, scenario_Visited_mid, hfilter, scenario_nearestCar, hsum, hP, hNC]
  simp [Dbl.div, Dbl.mul, Dbl.sub, Dbl.add]

theorem scenario_ratePoints_mid (D gain : ℚ) (wP wT wN : ℚ) :
    ratePoints (scenarioInstance D gain) (.fin wP) (.fin wT) (.fin wN)
        (List.range (scenarioInstance D gain).Points)
        ((emptySolution (scenarioInstance D gain)).applyMove (scenarioInstance D gain) 0 1) =
      .ok ((emptySolution (scenarioInstance D gain)).applyMove (scenarioInstance D gain) 0 1,
        [.ninf, .ninf, .nan]) := by
  have hpts : (scenarioInstance D gain).Points = 3 := rfl
  have hrange : List.range 3 = [0, 1, 2] := by decide
  have r0 : rating (scenarioInstance D gain) (.fin wP) (.fin wT) (.fin wN)
      ((emptySolution (scenarioInstance D gain)).applyMove (scenarioInstance D gain) 0 1) 0 =
      .ok ((emptySolution (scenarioInstance D gain)).applyMove (scenarioInstance D gain) 0 1,
        .ninf) :=
    rating_sentinel _ _ _ _ _ _ (Or.inl (by simp [scenario_Visited_mid]))
  have r1 : rating (scenarioInstance D gain) (.fin wP) (.fin wT) (.fin wN)
      ((emptySolution (scenarioInstance D gain)).applyMove (scenarioInstance D gain) 0 1) 1 =
      .ok ((emptySolution (scenarioInstance D gain)).applyMove (scenarioInstance D gain) 0 1,
        .ninf) :=
    rating_sentinel _ _ _ _ _ _ (Or.inl (by simp [scenario_Visited_mid]))
  rw [hpts, hrange]
  simp only [ratePoints, r0, r1, scenario_rating_mid_end D gain wP wT wN]

theorem scenario_tie_empty (D gain : ℚ) (r : ℚ) (hr : 0 < r) :
    (min_elements (scenarioInstance D gain).Points so_negcmp fun p =>
      [Dbl.ninf, Dbl.fin r, Dbl.fin 0].getD p Dbl.nan) = [1] := by
  have hpts : (scenarioInstance D gain).Points = 3 := rfl
  have hrange : List.range 3 = [0, 1, 2] := by decide
  rw [hpts]
  unfold min_elements min_elements_it
  rw [hrange]
  have h1 : ¬ (r < 0) := by linarith
  have h2 : ¬ (r = 0) := by linarith
  simp [min_elements_step, so_negcmp, Dbl.sub, Dbl.add, Dbl.neg, Dbl.ltZero, Dbl.eqZero, h1, h2]

theorem scenario_tie_mid (D gain : ℚ) :
    (min_elements (scenarioInstance D gain).Points so_negcmp fun p =>
      [Dbl.ninf, Dbl.ninf, Dbl.nan].getD p Dbl.nan) = [0] := by
  have hpts : (scenarioInstance D gain).Points = 3 := rfl
  rw [hpts]
  decide

theorem scenario_InsertPoint_mid (D gain : ℚ) (maxDev : ℚ) (fuel : Nat) :
    InsertPoint (scenarioInstance D gain) 0 maxDev (fuel + 1)
        ((emptySolution (scenarioInstance D gain)).applyMove (scenarioInstance D gain) 0 1) =
      .ok ((emptySolution (scenarioInstance D gain)).applyMove (scenarioInstance D gain) 0 1, 0) :=
        by
  have he : inEllipse (scenarioInstance D gain)
      ((emptySolution (scenarioInstance D gain)).applyMove (scenarioInstance D gain) 0 1) 0 maxDev =
      [] := by
    unfold inEllipse
    have hpts : (scenarioInstance D gain).Points = 3 := rfl
    have hr : List.range' 1 (3 - 2) = [1] := by decide
    rw [hpts, hr]
    simp [List.filter, scenario_Visited_mid]
  rw [InsertPoint]
  dsimp only
  rw [he]
  simp

/-- The run of the loop of `SolverGreedy` on the empty solution of the scenario: the first
iteration moves the car to the intermediate point, the second marks the car, the third
exits. -/
theorem scenario_SolverGreedyLoop (D gain : ℚ) (wP wT wN maxDev : ℚ) (hD0 : 0 < D) (hD : D < 10)
    (hgain : 0 < gain)
    (hw : D * wT < 20 * wP) (pool : List TOP_Output) (fuel : Nat) :
    SolverGreedyLoop (scenarioInstance D gain) (.fin wP) (.fin wT) maxDev (.fin wN) (fuel + 3)
        [false] pool (emptySolution (scenarioInstance D gain)) =
      .ok (pool, (emptySolution (scenarioInstance D gain)).applyMove (scenarioInstance D gain) 0 1)
        := by
  have hr : 0 < 2 * wP - D / 10 * wT := by
    have : D / 10 * wT = D * wT / 10 := by ring
    rw [this]
    linarith
  have hpts1 : (scenarioInstance D gain).Points + 1 = 3 + 1 := rfl
  have hfeas := scenario_feasible_empty D gain 1 (by decide) (le_of_lt hD)
  rw [SolverGreedyLoop, scenario_ratePoints_empty D gain wP wT wN hD0 hD hgain]
  dsimp only
  rw [scenario_tie_empty D gain _ hr]
  simp only [List.drop_succ_cons, List.drop_nil, speculativeBranches, List.head?_cons,
    scenario_chooseCar, List.getElem?_cons_zero, scenario_Visited_empty, MoveCar_snd, hfeas,
    MoveCar_fst_of_feasible _ _ _ _ _ hfeas, hpts1, scenario_InsertPoint_mid]
  simp only [one_ne_zero, decide_False, Bool.false_eq_true, if_false, Bool.not_true]
  rw [SolverGreedyLoop, scenario_ratePoints_mid]
  dsimp only
  rw [scenario_tie_mid]
  simp only [List.drop_succ_cons, List.drop_nil, speculativeBranches, List.head?_cons,
    scenario_chooseCar, List.getElem?_cons_zero, scenario_Visited_mid]
  simp only [true_or, decide_True, if_true, List.set_cons_zero]
  rw [SolverGreedyLoop, scenario_ratePoints_mid]
  dsimp only
  rw [scenario_tie_mid]
  simp only [List.drop_succ_cons, List.drop_nil, speculativeBranches, List.head?_cons,
    scenario_chooseCar, List.getElem?_cons_zero]

/-- The scenario of §8 in the exact arithmetic of the model: one car, three points (start
depot, an intermediate point of positive profit, end depot, the depots without profit),
`Distance(start, mid) = Distance(mid, end) = 5`, `MaxTime = 10`, a depot-to-depot distance `D`
with `0 < D < 10`, and finite weights with `D * wTime < 20 * wProfit`. Starting from the empty
solution, `SolverAll` returns a solution in which the intermediate point is visited, it is the
only move of the car, and the travel time of the car is 10. The rating of the intermediate
point is `2 * wProfit - (D / 10) * wTime` here; the program computes it in binary64, and this
statement is a statement about the program only where those operations are exact. -/
theorem scenario_SolverAll_exact (D gain wProfit wTime wNonCost : ℚ)
    (maxDeviationAdmitted : ℚ) (fuel : Nat) (hD0 : 0 < D) (hD : D < 10) (hgain : 0 < gain)
    (hw : D * wTime < 20 * wProfit) (hfuel : 3 ≤ fuel) :
    ∃ out, SolverAll fuel (scenarioInstance D gain) (emptySolution (scenarioInstance D gain))
        (.fin wProfit) (.fin wTime) maxDeviationAdmitted (.fin wNonCost) = .ok out ∧
      out.Visited (scenarioInstance D gain) 1 = true ∧ out.TravelTime 0 = 10 ∧
      out.car_hops 0 = [1] := by
  obtain ⟨f, rfl⟩ : ∃ f, fuel = f + 3 := ⟨fuel - 3, by omega⟩
  have hg : ∀ pool, SolverGreedy (f + 3) pool (scenarioInstance D gain)
      (emptySolution (scenarioInstance D gain)) (.fin wProfit) (.fin wTime) maxDeviationAdmitted
      (.fin wNonCost) =
      .ok (pool, (emptySolution (scenarioInstance D gain)).applyMove (scenarioInstance D gain) 0 1)
        :=
    fun pool => scenario_SolverGreedyLoop D gain wProfit wTime wNonCost maxDeviationAdmitted hD0 hD
      hgain hw pool f
  have hbetter : ((emptySolution (scenarioInstance D gain)).applyMove (scenarioInstance D gain)
      0 1).PointProfit > (emptySolution (scenarioInstance D gain)).PointProfit := by
    simp [PointProfit, applyMove, emptySolution, scenarioInstance, hgain]
  refine ⟨(emptySolution (scenarioInstance D gain)).applyMove (scenarioInstance D gain) 0 1, ?_, ?_,
    scenario_travel_time_mid D gain, ?_⟩
  · unfold SolverAll SolverAllRun
    rw [SolverAllLoop]
    simp only [List.getLast?_singleton, List.dropLast_single, Nat.zero_add, Nat.reduceEqDiff,
      if_false, hg []]
    rw [SolverAllLoop]
    simp [hbetter]
  · simp [scenario_Visited_mid]
  · simp [applyMove, emptySolution]

/-- Claim C18, amended: one car, three points (start depot, an intermediate point, end depot,
the depots without profit), `Distance(start, mid) = Distance(mid, end) = 5`, `MaxTime = 10`,
depot-to-depot distance 5, the profit of the intermediate point a positive integer, the
weights integers, none above `2 ^ 40` in absolute value, and `wTime < 4 * wProfit` (any admitted
deviation). Starting from the empty solution, `SolverAll` returns a solution in which the
intermediate point is visited, it is the only move of the car, and the travel time of the car
is 10. In this range every operation of the rating (Kevin.cpp:146-178) has a result that
binary64 represents, so the exact arithmetic of the model is the arithmetic of the program:
the intermediate point is rated `2 * wProfit - wTime / 2` and the end depot 0. -/
theorem SolverAll_scenario_visits_intermediate (gain : ℕ) (wProfit wTime wNonCost : ℤ)
    (maxDeviationAdmitted : ℚ) (fuel : Nat) (hgain : 0 < gain) (hgainBound : gain ≤ 2 ^ 40)
    (hProfitBound : wProfit.natAbs ≤ 2 ^ 40) (hTimeBound : wTime.natAbs ≤ 2 ^ 40)
    (hNonCostBound : wNonCost.natAbs ≤ 2 ^ 40) (hw : wTime < 4 * wProfit) (hfuel : 3 ≤ fuel) :
    ∃ out, SolverAll fuel (scenarioInstance 5 gain) (emptySolution (scenarioInstance 5 gain))
        (.fin wProfit) (.fin wTime) maxDeviationAdmitted (.fin wNonCost) = .ok out ∧
      out.Visited (scenarioInstance 5 gain) 1 = true ∧ out.TravelTime 0 = 10 ∧
      out.car_hops 0 = [1] := by
  have hw1 : (wTime : ℚ) < 4 * (wProfit : ℚ) := by exact_mod_cast hw
  exact scenario_SolverAll_exact 5 gain wProfit wTime wNonCost maxDeviationAdmitted fuel
    (by norm_num) (by norm_num) (by exact_mod_cast hgain) (by linarith) hfuel

theorem SolverAll_scenario_visits_intermediate_witness :
    (0 < 1 ∧ 1 ≤ 2 ^ 40 ∧ (1 : ℤ).natAbs ≤ 2 ^ 40 ∧ (3 : ℤ).natAbs ≤ 2 ^ 40 ∧
      (-2 : ℤ).natAbs ≤ 2 ^ 40 ∧ (3 : ℤ) < 4 * 1 ∧ 3 ≤ 3) ∧
    ∃ out, SolverAll 3 (scenarioInstance 5 (1 : ℕ)) (emptySolution (scenarioInstance 5 (1 : ℕ)))
        (.fin (1 : ℤ)) (.fin (3 : ℤ)) 0 (.fin (-2 : ℤ)) = .ok out ∧
      out.Visited (scenarioInstance 5 (1 : ℕ)) 1 = true ∧ out.TravelTime 0 = 10 ∧
      out.car_hops 0 = [1] :=
  ⟨⟨by decide, by decide, by decide, by decide, by decide, by decide, by decide⟩,
    SolverAll_scenario_visits_intermediate 1 1 3 (-2) 0 3 (by decide) (by decide) (by decide)
      (by decide) (by decide) (by decide) (by decide)⟩

/-! ## Route indexing -/

/-- The route of a car begins with the start depot and ends with the current position of the
car. -/
theorem Route_head_getLast (inp : TOP_Input) (out : TOP_Output) (car : idx_t) :
    (out.Route inp car).head? = some inp.StartPoint ∧
      (out.Route inp car).getLast? = some (out.CarPoint inp car) := by
  refine ⟨rfl, ?_⟩
  unfold Route CarPoint
  rw [List.getLast?_cons, List.getLastD_eq_getLast?]

/-- A car whose current position is not the start depot has a route of at least two entries,
and the entry before the last one is read within the route. -/
theorem Hops_of_CarPoint_ne (inp : TOP_Input) (out : TOP_Output) (car : idx_t)
    (h : out.CarPoint inp car ≠ inp.StartPoint) :
    2 ≤ out.Hops inp car ∧ out.Hops inp car - 2 < out.Hops inp car ∧
      (out.Route inp car)[out.Hops inp car - 2]? =
        some (out.Hop inp car (out.Hops inp car - 2)) := by
  have hne : out.car_hops car ≠ [] := by
    intro he
    apply h
    unfold CarPoint
    rw [he]
    rfl
  have hlen : 0 < (out.car_hops car).length := List.length_pos.2 hne
  have h2 : 2 ≤ out.Hops inp car := by
    unfold Hops Route
    rw [List.length_cons]
    omega
  have hlt : out.Hops inp car - 2 < out.Hops inp car := by omega
  refine ⟨h2, hlt, ?_⟩
  have hlt' : out.Hops inp car - 2 < (out.Route inp car).length := hlt
  unfold Hop
  rw [List.getD_eq_getElem?_getD, List.getElem?_eq_getElem hlt']
  rfl

/-- A call of `InsertPoint` either makes no recursive call (its result does not depend on the
fuel left for one), or makes it on a solution in which the car stands where it stood, past the
start depot, with a route one entry longer. -/
theorem InsertPoint_recursive_call (inp : TOP_Input) (car : idx_t) (maxDev : ℚ)
    (out : TOP_Output) :
    (∀ fuel fuel1 : Nat,
      InsertPoint inp car maxDev (fuel + 1) out = InsertPoint inp car maxDev (fuel1 + 1) out) ∨
    ∃ out3 : TOP_Output,
      out3.CarPoint inp car = out.CarPoint inp car ∧
      out3.CarPoint inp car ≠ inp.StartPoint ∧
      out3.Hops inp car = out.Hops inp car + 1 ∧
      ∀ fuel : Nat, InsertPoint inp car maxDev (fuel + 1) out =
        match InsertPoint inp car maxDev fuel out3 with
        | .error e => .error e
        | .ok (out4, k) => .ok (out4, 1 + k) := by
  by_cases hc : out.CarPoint inp car ≠ inp.StartPoint
  · by_cases he : inEllipse inp out car maxDev ≠ []
    · obtain ⟨out1, hr⟩ := RollbackCar_isSome_of_CarPoint_ne inp out car hc
      obtain ⟨hhops1, hsplit⟩ := RollbackCar_car_hops inp out out1 car hr
      cases hs : sortEllipse inp out1 car (inEllipse inp out car maxDev) with
      | nil => exact absurd hs (sortEllipse_ne_nil inp out1 car _ he)
      | cons node rest =>
        by_cases hd : out1.TravelTime car - inp.Distance (out1.CarPoint inp car) inp.EndPoint +
            inp.Distance (out1.CarPoint inp car) node + inp.Distance node (out.CarPoint inp car) +
            inp.Distance (out.CarPoint inp car) inp.EndPoint ≤ inp.MaxTime
        · cases hf2 : (out1.SimulateMoveCar inp car node).feasible with
          | false =>
            left
            intro fuel fuel1
            rw [InsertPoint, InsertPoint]
            simp [hc, he, hr, hs, hd, MoveCar_snd, hf2]
          | true =>
            cases hf3 : ((out1.applyMove inp car node).SimulateMoveCar inp car
                (out.CarPoint inp car)).feasible with
            | false =>
              left
              intro fuel fuel1
              rw [InsertPoint, InsertPoint]
              simp [hc, he, hr, hs, hd, MoveCar_snd, hf2, hf3, MoveCar_fst_of_feasible]
            | true =>
              right
              refine ⟨(out1.applyMove inp car node).applyMove inp car (out.CarPoint inp car),
                CarPoint_applyMove _ _ _ _, ?_, ?_, ?_⟩
              · rw [CarPoint_applyMove]; exact hc
              · unfold Hops Route
                simp only [applyMove, hhops1, Function.update_same, List.length_cons,
                  List.length_append, List.length_singleton]
                rw [← hsplit]
                simp
              · intro fuel
                rw [InsertPoint]
                simp only [hc, he, hr, hs, hd, MoveCar_snd, hf2, hf3, MoveCar_fst_of_feasible,
                  ne_eq, not_false_eq_true, if_true, Bool.not_true, Bool.false_eq_true, if_false]
                first
                  | done
                  | (cases InsertPoint inp car maxDev fuel
                      ((out1.applyMove inp car node).applyMove inp car (out.CarPoint inp car))
                      <;> rfl)
        · left
          intro fuel fuel1
          rw [InsertPoint, InsertPoint]
          simp [hc, he, hr, hs, hd]
    · left
      intro fuel fuel1
      rw [InsertPoint, InsertPoint]
      simp [hc, he]
  · left
    intro fuel fuel1
    rw [InsertPoint, InsertPoint]
    simp [hc]

/-- Claim C21: the route of a car begins with the start depot and ends with its current
position; whenever the guard `CarPoint(car) != StartPoint` of `InsertPoint` holds, the route has
at least 2 entries, the index `Hops(car) - 2` is below `Hops(car)` and `Hop` reads the route
entry at that index. A call of `InsertPoint` either makes no recursive call or makes it on a
solution in which the guard holds again (the car stands where it stood, the route is one entry
longer), so the same holds on entry of every recursive call. -/
theorem InsertPoint_route_index_in_range (inp : TOP_Input) (out : TOP_Output) (car : idx_t)
    (maxDeviationAdmitted : ℚ) (hguard : out.CarPoint inp car ≠ inp.StartPoint) :
    ((out.Route inp car).head? = some inp.StartPoint ∧
      (out.Route inp car).getLast? = some (out.CarPoint inp car)) ∧
    (2 ≤ out.Hops inp car ∧ out.Hops inp car - 2 < out.Hops inp car ∧
      (out.Route inp car)[out.Hops inp car - 2]? =
        some (out.Hop inp car (out.Hops inp car - 2))) ∧
    ((∀ fuel fuel1 : Nat,
        InsertPoint inp car maxDeviationAdmitted (fuel + 1) out =
          InsertPoint inp car maxDeviationAdmitted (fuel1 + 1) out) ∨
      ∃ out3 : TOP_Output,
        out3.CarPoint inp car = out.CarPoint inp car ∧
        out3.CarPoint inp car ≠ inp.StartPoint ∧
        out3.Hops inp car = out.Hops inp car + 1 ∧
        (2 ≤ out3.Hops inp car ∧ out3.Hops inp car - 2 < out3.Hops inp car ∧
          (out3.Route inp car)[out3.Hops inp car - 2]? =
            some (out3.Hop inp car (out3.Hops inp car - 2))) ∧
        ∀ fuel : Nat, InsertPoint inp car maxDeviationAdmitted (fuel + 1) out =
          match InsertPoint inp car maxDeviationAdmitted fuel out3 with
          | .error e => .error e
          | .ok (out4, k) => .ok (out4, 1 + k)) := by
  refine ⟨Route_head_getLast inp out car, Hops_of_CarPoint_ne inp out car hguard, ?_⟩
  rcases InsertPoint_recursive_call inp car maxDeviationAdmitted out with h | ⟨out3, h1, h2, h3, h4⟩
  · exact Or.inl h
  · exact Or.inr ⟨out3, h1, h2, h3, Hops_of_CarPoint_ne inp out3 car h2, h4⟩

theorem InsertPoint_route_index_in_range_witness :
    wideAtOne.CarPoint lineInstanceWide 0 ≠ lineInstanceWide.StartPoint ∧
    (((wideAtOne.Route lineInstanceWide 0).head? = some lineInstanceWide.StartPoint ∧
      (wideAtOne.Route lineInstanceWide 0).getLast? = some (wideAtOne.CarPoint lineInstanceWide 0)) ∧
    (2 ≤ wideAtOne.Hops lineInstanceWide 0 ∧
      wideAtOne.Hops lineInstanceWide 0 - 2 < wideAtOne.Hops lineInstanceWide 0 ∧
      (wideAtOne.Route lineInstanceWide 0)[wideAtOne.Hops lineInstanceWide 0 - 2]? =
        some (wideAtOne.Hop lineInstanceWide 0 (wideAtOne.Hops lineInstanceWide 0 - 2))) ∧
    ((∀ fuel fuel1 : Nat,
        InsertPoint lineInstanceWide 0 0 (fuel + 1) wideAtOne =
          InsertPoint lineInstanceWide 0 0 (fuel1 + 1) wideAtOne) ∨
      ∃ out3 : TOP_Output,
        out3.CarPoint lineInstanceWide 0 = wideAtOne.CarPoint lineInstanceWide 0 ∧
        out3.CarPoint lineInstanceWide 0 ≠ lineInstanceWide.StartPoint ∧
        out3.Hops lineInstanceWide 0 = wideAtOne.Hops lineInstanceWide 0 + 1 ∧
        (2 ≤ out3.Hops lineInstanceWide 0 ∧
          out3.Hops lineInstanceWide 0 - 2 < out3.Hops lineInstanceWide 0 ∧
          (out3.Route lineInstanceWide 0)[out3.Hops lineInstanceWide 0 - 2]? =
            some (out3.Hop lineInstanceWide 0 (out3.Hops lineInstanceWide 0 - 2))) ∧
        ∀ fuel : Nat, InsertPoint lineInstanceWide 0 0 (fuel + 1) wideAtOne =
          match InsertPoint lineInstanceWide 0 0 fuel out3 with
          | .error e => .error e
          | .ok (out4, k) => .ok (out4, 1 + k))) :=
  ⟨by decide!, InsertPoint_route_index_in_range lineInstanceWide wideAtOne 0 0 (by decide!)⟩

/-! ## What the rating phase and the speculative branches leave behind -/

/-- The hypothetical move of `NonChoicheCost` is undone exactly: the call returns, and the
solution it leaves is the one it received. -/
theorem NonChoicheCost_read_only (inp : TOP_Input) (out : TOP_Output) (car p : idx_t)
    (sumProfit : ℚ) : ∃ v, NonChoicheCost inp out car p sumProfit = .ok (out, v) := by
  unfold NonChoicheCost
  dsimp only
  rw [MoveCar_fst_forced, RollbackCar_applyMove]
  dsimp only
  split
  · exact ⟨_, rfl⟩
  · exact ⟨_, rfl⟩

theorem RatingChoice_read_only (inp : TOP_Input) (out : TOP_Output) (p : idx_t)
    (wProfit wTime wNonCost : Dbl) :
    ∃ v, RatingChoice inp out p wProfit wTime wNonCost = .ok (out, v) := by
  unfold RatingChoice
  dsimp only
  split
  · exact ⟨_, rfl⟩
  · obtain ⟨v, hv⟩ := NonChoicheCost_read_only inp out (nearestCar inp out p) p
      ((List.filter (fun q => !out.Visited inp q) (List.range inp.Points)).map inp.Profit).sum
    rw [hv]
    exact ⟨_, rfl⟩

theorem rating_read_only (inp : TOP_Input) (wProfit wTime wNonCost : Dbl) (out : TOP_Output)
    (p : idx_t) : ∃ v, rating inp wProfit wTime wNonCost out p = .ok (out, v) := by
  unfold rating
  split
  · exact ⟨_, rfl⟩
  · exact RatingChoice_read_only inp out p wProfit wTime wNonCost

theorem ratePoints_read_only (inp : TOP_Input) (wProfit wTime wNonCost : Dbl) (out : TOP_Output) :
    ∀ ps : List idx_t, ∃ rs, ratePoints inp wProfit wTime wNonCost ps out = .ok (out, rs) := by
  intro ps
  induction ps with
  | nil => exact ⟨[], rfl⟩
  | cons p ps ih =>
    obtain ⟨v, hv⟩ := rating_read_only inp wProfit wTime wNonCost out p
    obtain ⟨rs, hrs⟩ := ih
    rw [ratePoints, hv]
    dsimp only
    rw [hrs]
    exact ⟨_, rfl⟩

/-- A car within its budget on entry is within its budget when `InsertPoint` returns, and the
travel times of the other cars are untouched. -/
theorem InsertPoint_within_budget (inp : TOP_Input) (car : idx_t) (maxDev : ℚ) :
    ∀ (fuel : Nat) (out out1 : TOP_Output) (k : Nat),
      out.travel_time car ≤ inp.MaxTime →
      InsertPoint inp car maxDev fuel out = .ok (out1, k) →
      out1.travel_time car ≤ inp.MaxTime ∧
        ∀ c, c ≠ car → out1.travel_time c = out.travel_time c := by
  intro fuel out out1 k hT h
  by_cases hc : out.CarPoint inp car ≠ inp.StartPoint
  · obtain ⟨_, -, -, hothers⟩ := InsertPoint_frame_route inp car maxDev fuel out out1 k hc hT h
    refine ⟨?_, fun c hcc => (hothers c hcc).2⟩
    clear hothers
    induction fuel generalizing out k with
    | zero => simp [InsertPoint] at h
    | succ fuel ih =>
      obtain ⟨prev, hr⟩ := RollbackCar_isSome_of_CarPoint_ne inp out car hc
      have hback := applyMove_RollbackCar inp out prev car hr
      rw [InsertPoint] at h
      dsimp only at h
      rw [if_pos hc] at h
      by_cases he : inEllipse inp out car maxDev ≠ []
      · rw [if_pos he, hr] at h
        dsimp only at h
        cases hs : sortEllipse inp prev car (inEllipse inp out car maxDev) with
        | nil => rw [hs] at h; simp at h
        | cons node rest =>
          rw [hs] at h
          dsimp only at h
          split at h
          · cases hf2 : (prev.SimulateMoveCar inp car node).feasible with
            | false => simp [MoveCar_snd, hf2] at h
            | true =>
              have e2 := MoveCar_fst_of_feasible inp prev car node false hf2
              rw [e2] at h
              cases hf3 : ((prev.applyMove inp car node).SimulateMoveCar inp car
                  (out.CarPoint inp car)).feasible with
              | false => simp [MoveCar_snd, hf2, hf3] at h
              | true =>
                have e3 := MoveCar_fst_of_feasible inp (prev.applyMove inp car node) car
                  (out.CarPoint inp car) false hf3
                rw [e3] at h
                simp only [MoveCar_snd, hf2, hf3, Bool.not_true, Bool.false_eq_true,
                  if_false] at h
                cases hrec : InsertPoint inp car maxDev fuel
                    ((prev.applyMove inp car node).applyMove inp car (out.CarPoint inp car)) with
                | error e => simp [hrec] at h
                | ok r =>
                  obtain ⟨out4, k4⟩ := r
                  simp only [hrec, Except.ok.injEq, Prod.mk.injEq] at h
                  obtain ⟨rfl, rfl⟩ := h
                  have hT3 := (feasible_iff inp _ car _).1 hf3
                  have hc3 : ((prev.applyMove inp car node).applyMove inp car
                      (out.CarPoint inp car)).CarPoint inp car ≠ inp.StartPoint := by
                    rw [CarPoint_applyMove]; exact hc
                  exact ih _ _ hT3 hrec hc3
          · simp only [Except.ok.injEq, Prod.mk.injEq] at h
            obtain ⟨rfl, rfl⟩ := h
            have hf : (prev.SimulateMoveCar inp car (out.CarPoint inp car)).feasible = true := by
              rw [feasible_iff, hback]; exact hT
            rw [MoveCar_fst_of_feasible inp prev car _ false hf, hback]
            exact hT
      · rw [if_neg he] at h
        simp only [Except.ok.injEq, Prod.mk.injEq] at h
        rw [← h.1]
        exact hT
  · cases fuel with
    | zero => simp [InsertPoint] at h
    | succ fuel =>
      rw [InsertPoint] at h
      dsimp only at h
      rw [if_neg hc] at h
      simp only [Except.ok.injEq, Prod.mk.injEq] at h
      rw [← h.1]
      exact ⟨hT, fun _ _ => rfl⟩

theorem WithinBudget_applyMove_feasible (inp : TOP_Input) (out : TOP_Output) (car p : idx_t)
    (h : WithinBudget inp out) (hf : (out.SimulateMoveCar inp car p).feasible = true) :
    WithinBudget inp (out.applyMove inp car p) := by
  intro c hc
  by_cases hcc : c = car
  · rw [hcc]; exact (feasible_iff inp out car p).1 hf
  · have : (out.applyMove inp car p).TravelTime c = out.TravelTime c := by
      simp [TravelTime, applyMove, Function.update_noteq hcc]
    rw [this]; exact h c hc

theorem WithinBudget_InsertPoint (inp : TOP_Input) (car : idx_t) (maxDev : ℚ) (fuel : Nat)
    (out out1 : TOP_Output) (k : Nat) (hT : out.travel_time car ≤ inp.MaxTime)
    (h : InsertPoint inp car maxDev fuel out = .ok (out1, k)) (hb : WithinBudget inp out) :
    WithinBudget inp out1 := by
  obtain ⟨hself, hothers⟩ := InsertPoint_within_budget inp car maxDev fuel out out1 k hT h
  intro c hc
  by_cases hcc : c = car
  · rw [hcc]; exact hself
  · unfold TravelTime
    rw [hothers c hcc]; exact hb c hc

/-- What one pass through the body of the loop over the non-canonical tied points does: it
hands the working solution back as it was, with the pool as it was or with one snapshot more
(within the budget when the working solution is); or it passes on an exception of
`InsertPoint`. -/
theorem speculativeBranch_outcome (inp : TOP_Input) (maxDev : ℚ) (markedCars : List Bool)
    (pool : List TOP_Output) (out : TOP_Output) (p : idx_t)
    (hlen : markedCars.length = inp.Cars) :
    (∃ pool2, speculativeBranch inp maxDev markedCars (pool, out) p = .ok (pool2, out) ∧
        ∀ s ∈ pool2, s ∈ pool ∨ (WithinBudget inp out → WithinBudget inp s)) ∨
      ∃ e, speculativeBranch inp maxDev markedCars (pool, out) p = .error e ∧
        (e = .insertFailed ∨ e = .reinsertFailed ∨ (e = .undefinedBehaviour ∧ inp.Cars = 0)) := by
  unfold speculativeBranch
  dsimp only
  cases hget : markedCars[chooseCar inp out markedCars p]? with
  | none =>
    right
    refine ⟨_, rfl, Or.inr (Or.inr ⟨rfl, ?_⟩)⟩
    by_contra hne
    have hlt := chooseCar_lt inp out markedCars p (Nat.pos_of_ne_zero hne)
    rw [List.getElem?_eq_getElem (lt_of_lt_of_eq hlt hlen.symm)] at hget
    exact Option.noConfusion hget
  | some b =>
    have hcar : chooseCar inp out markedCars p < inp.Cars := by
      have := (List.getElem?_eq_some_iff.1 hget).1
      exact lt_of_lt_of_eq this hlen
    cases b with
    | true => exact Or.inl ⟨pool, rfl, fun s hs => Or.inl hs⟩
    | false =>
      dsimp only
      cases hv : out.Visited inp p with
      | true => exact Or.inl ⟨pool, by simp, fun s hs => Or.inl hs⟩
      | false =>
        cases hf : (out.SimulateMoveCar inp (chooseCar inp out markedCars p) p).feasible with
        | false =>
          exact Or.inl ⟨pool, by simp [MoveCar_snd, hf, MoveCar_fst_of_not_feasible],
            fun s hs => Or.inl hs⟩
        | true =>
          simp only [MoveCar_snd, hf, MoveCar_fst_of_feasible, if_true, Bool.false_eq_true,
            if_false]
          cases hi : InsertPoint inp (chooseCar inp out markedCars p) maxDev
              (inp.Points + 1) (out.applyMove inp (chooseCar inp out markedCars p) p) with
          | error e =>
            right
            rcases InsertPoint_total inp _ maxDev hcar (inp.Points + 1)
                (out.applyMove inp (chooseCar inp out markedCars p) p)
                (unvisitedInner_lt inp _) with ⟨r, hok⟩ | herr | herr
            · rw [hi] at hok; simp at hok
            · rw [hi] at herr
              exact ⟨e, rfl, Or.inl (by simpa using herr)⟩
            · rw [hi] at herr
              exact ⟨e, rfl, Or.inr (Or.inl (by simpa using herr))⟩
          | ok r =>
            obtain ⟨snapshot, k⟩ := r
            have hT := (feasible_iff inp out _ p).1 hf
            have hroll := InsertPoint_RollbackCarN inp _ maxDev _ _ _ _ hT hi
            rw [RollbackCar_applyMove] at hroll
            left
            refine ⟨pool ++ [snapshot], by simp [hroll], ?_⟩
            intro s hs
            rcases List.mem_append.1 hs with hs | hs
            · exact Or.inl hs
            · right
              intro hb
              rw [List.mem_singleton.1 hs]
              exact WithinBudget_InsertPoint inp _ maxDev _ _ _ _ hT hi
                (WithinBudget_applyMove_feasible inp out _ p hb hf)

theorem speculativeBranches_outcome (inp : TOP_Input) (maxDev : ℚ) (markedCars : List Bool)
    (out : TOP_Output) (hlen : markedCars.length = inp.Cars) :
    ∀ (ps : List idx_t) (pool : List TOP_Output),
      (∃ pool2, speculativeBranches inp maxDev markedCars ps (pool, out) = .ok (pool2, out) ∧
          ∀ s ∈ pool2, s ∈ pool ∨ (WithinBudget inp out → WithinBudget inp s)) ∨
        ∃ e, speculativeBranches inp maxDev markedCars ps (pool, out) = .error e ∧
          (e = .insertFailed ∨ e = .reinsertFailed ∨
            (e = .undefinedBehaviour ∧ inp.Cars = 0)) := by
  intro ps
  induction ps with
  | nil => intro pool; exact Or.inl ⟨pool, rfl, fun s hs => Or.inl hs⟩
  | cons p ps ih =>
    intro pool
    rcases speculativeBranch_outcome inp maxDev markedCars pool out p hlen with
      ⟨pool1, h1, hp1⟩ | ⟨e, h1, he⟩
    · rcases ih pool1 with ⟨pool2, h2, hp2⟩ | ⟨e, h2, he⟩
      · left
        refine ⟨pool2, by rw [speculativeBranches, h1]; exact h2, ?_⟩
        intro s hs
        rcases hp2 s hs with h | h
        · exact hp1 s h
        · exact Or.inr h
      · right
        exact ⟨e, by rw [speculativeBranches, h1]; exact h2, he⟩
    · right
      exact ⟨e, by rw [speculativeBranches, h1], he⟩

theorem Visited_applyMove (inp : TOP_Input) (out : TOP_Output) (car p q : idx_t)
    (hcar : car < inp.Cars) :
    (out.applyMove inp car p).Visited inp q = true ↔ (out.Visited inp q = true ∨ q = p) := by
  rw [Visited_iff, Visited_iff]
  constructor
  · rintro ⟨c, hc, hmem⟩
    by_cases hcc : c = car
    · subst hcc
      have h3 : q = inp.StartPoint ∨ q ∈ out.car_hops c ∨ q = p := by
        simpa [Route, applyMove] using hmem
      rcases h3 with h | h | h
      · exact Or.inl ⟨c, hc, by simp [Route, h]⟩
      · exact Or.inl ⟨c, hc, by simp [Route, h]⟩
      · exact Or.inr h
    · left
      refine ⟨c, hc, ?_⟩
      simpa [Route, applyMove, Function.update_noteq hcc] using hmem
  · rintro (⟨c, hc, hmem⟩ | rfl)
    · refine ⟨c, hc, ?_⟩
      by_cases hcc : c = car
      · subst hcc
        have h2 : q = inp.StartPoint ∨ q ∈ out.car_hops c := by simpa [Route] using hmem
        have h3 : q = inp.StartPoint ∨ q ∈ out.car_hops c ∨ q = p := by
          rcases h2 with h | h
          · exact Or.inl h
          · exact Or.inr (Or.inl h)
        simpa [Route, applyMove] using h3
      · simpa [Route, applyMove, Function.update_noteq hcc] using hmem
    · exact ⟨car, hcar, by simp [Route, applyMove]⟩

/-- The number of unvisited points goes down when no point is un-visited and an unvisited point
of the instance becomes visited. -/
theorem unvisitedCount_lt (inp : TOP_Input) (out out1 : TOP_Output) (p : idx_t)
    (hp : p < inp.Points) (hmono : ∀ q, out.Visited inp q = true → out1.Visited inp q = true)
    (hunv : out.Visited inp p = false) (hvis : out1.Visited inp p = true) :
    unvisitedCount inp out1 < unvisitedCount inp out := by
  unfold unvisitedCount
  have hsub : (List.range inp.Points).filter (fun q => !out1.Visited inp q) =
      ((List.range inp.Points).filter (fun q => !out.Visited inp q)).filter
        (fun q => !out1.Visited inp q) := by
    rw [List.filter_filter]
    apply List.filter_congr
    intro q _
    cases hq : out1.Visited inp q with
    | true => simp
    | false =>
      cases hq1 : out.Visited inp q with
      | false => simp
      | true =>
        have := hmono q hq1
        rw [hq] at this; exact absurd this (by simp)
  rw [hsub]
  apply List.length_filter_lt_length_iff_exists.2
  refine ⟨p, ?_, ?_⟩
  · simp only [List.mem_filter, Bool.not_eq_true', hunv, and_true]
    exact List.mem_range.2 hp
  · simp [hvis]

theorem min_elements_foldl_subset {V : Type} (pred : V → V → Dbl) (prov : idx_t → V) :
    ∀ (rest : List idx_t) (acc : List idx_t × V) (idxs : List idx_t),
      (∀ i ∈ acc.1, i ∈ idxs) → (∀ i ∈ rest, i ∈ idxs) →
      ∀ i ∈ (rest.foldl (min_elements_step pred prov) acc).1, i ∈ idxs := by
  intro rest
  induction rest with
  | nil => intro acc idxs h _; exact h
  | cons c rest ih =>
    intro acc idxs hacc hrest
    rw [List.foldl_cons]
    apply ih _ idxs
    · unfold min_elements_step
      dsimp only
      split
      · intro i hi
        rw [List.mem_singleton.1 hi]
        exact hrest c (List.mem_cons_self _ _)
      · split
        · intro i hi
          rcases List.mem_append.1 hi with hi | hi
          · exact hacc i hi
          · rw [List.mem_singleton.1 hi]
            exact hrest c (List.mem_cons_self _ _)
        · exact hacc
    · exact fun i hi => hrest i (List.mem_cons_of_mem _ hi)

theorem min_elements_foldl_ne_nil {V : Type} (pred : V → V → Dbl) (prov : idx_t → V) :
    ∀ (rest : List idx_t) (acc : List idx_t × V), acc.1 ≠ [] →
      (rest.foldl (min_elements_step pred prov) acc).1 ≠ [] := by
  intro rest
  induction rest with
  | nil => intro acc h; exact h
  | cons c rest ih =>
    intro acc hacc
    rw [List.foldl_cons]
    apply ih
    unfold min_elements_step
    dsimp only
    split
    · simp
    · split
      · simp
      · exact hacc

/-- The indices that `min_elements` returns are indices of the range, and there is one when the
range is not empty. -/
theorem min_elements_lt {V : Type} (n : idx_t) (pred : V → V → Dbl) (prov : idx_t → V) :
    (∀ i ∈ min_elements n pred prov, i < n) ∧ (0 < n → min_elements n pred prov ≠ []) := by
  unfold min_elements min_elements_it
  cases hl : List.range n with
  | nil =>
    refine ⟨by simp, fun hn => ?_⟩
    exact absurd (List.range_eq_nil.1 hl) (Nat.pos_iff_ne_zero.1 hn)
  | cons first rest =>
    dsimp only
    have hsub := min_elements_foldl_subset pred prov rest ([first], prov first) (first :: rest)
      (by intro i hi; rw [List.mem_singleton.1 hi]; exact List.mem_cons_self _ _)
      (fun i hi => List.mem_cons_of_mem _ hi)
    refine ⟨fun i hi => ?_, fun _ => ?_⟩
    · have := hsub i hi
      rw [← hl] at this
      exact List.mem_range.1 this
    · exact min_elements_foldl_ne_nil pred prov rest ([first], prov first) (by simp)

/-! ## The iterations of the driver -/

/-- What one iteration of the loop of `SolverGreedy` does, for a marked-cars vector with one
entry per car. The rating phase and the speculative branches leave the working solution as it
was and add snapshots to the pool. Then the iteration either fails (with an exception of
`InsertPoint`, or with an undefined operation when the instance has no car or no point), or
exits, which it does only when every car is marked, or marks a car that was unmarked and
leaves the solution alone, or commits a move, after which a point of the instance that was
unvisited is visited and no point has been un-visited. -/
theorem SolverGreedyLoopMarked_step (inp : TOP_Input) (wProfit wTime : Dbl) (maxDev : ℚ)
    (wNonCost : Dbl) (markedCars : List Bool) (pool : List TOP_Output) (out : TOP_Output)
    (hlen : markedCars.length = inp.Cars) :
    (∃ e, (e = .insertFailed ∨ e = .reinsertFailed ∨
          (e = .undefinedBehaviour ∧ (inp.Cars = 0 ∨ inp.Points = 0))) ∧
        ∀ fuel, SolverGreedyLoopMarked inp wProfit wTime maxDev wNonCost (fuel + 1) markedCars
          pool out = .error e) ∨
    ∃ pool2, (∀ s ∈ pool2, s ∈ pool ∨ (WithinBudget inp out → WithinBudget inp s)) ∧
      (((∀ i, i < inp.Cars → markedCars.getD i false = true) ∧
          ∀ fuel, SolverGreedyLoopMarked inp wProfit wTime maxDev wNonCost (fuel + 1) markedCars
            pool out = .ok (markedCars, pool2, out)) ∨
        (∃ c, c < inp.Cars ∧ markedCars[c]? = some false ∧
          ∀ fuel, SolverGreedyLoopMarked inp wProfit wTime maxDev wNonCost (fuel + 1) markedCars
              pool out =
            SolverGreedyLoopMarked inp wProfit wTime maxDev wNonCost fuel
              (markedCars.set c true) pool2 out) ∨
        ∃ out3 p, p < inp.Points ∧ out.Visited inp p = false ∧ out3.Visited inp p = true ∧
          (∀ q, out.Visited inp q = true → out3.Visited inp q = true) ∧
          (WithinBudget inp out → WithinBudget inp out3) ∧
          ∀ fuel, SolverGreedyLoopMarked inp wProfit wTime maxDev wNonCost (fuel + 1) markedCars
              pool out =
            SolverGreedyLoopMarked inp wProfit wTime maxDev wNonCost fuel markedCars pool2
              out3) := by
  obtain ⟨ratings, hrate⟩ := ratePoints_read_only inp wProfit wTime wNonCost out
    (List.range inp.Points)
  obtain ⟨htie_lt, htie_ne⟩ := min_elements_lt inp.Points so_negcmp
    (fun p => ratings.getD p Dbl.nan)
  rcases speculativeBranches_outcome inp maxDev markedCars out hlen
      ((min_elements inp.Points so_negcmp fun p => ratings.getD p Dbl.nan).drop 1) pool with
    ⟨pool2, hspec, hpool⟩ | ⟨e, hspec, he⟩
  · cases hhead : (min_elements inp.Points so_negcmp fun p => ratings.getD p Dbl.nan).head? with
    | none =>
      left
      refine ⟨.undefinedBehaviour, Or.inr (Or.inr ⟨rfl, Or.inr ?_⟩), ?_⟩
      · by_contra hne
        exact htie_ne (Nat.pos_of_ne_zero hne) (List.head?_eq_none_iff.1 hhead)
      · intro fuel
        rw [SolverGreedyLoopMarked, hrate]
        dsimp only
        rw [hspec]
        dsimp only
        rw [hhead]
    | some p =>
      have hp : p < inp.Points := htie_lt p (List.mem_of_mem_head? hhead)
      cases hget : markedCars[chooseCar inp out markedCars p]? with
      | none =>
        left
        refine ⟨.undefinedBehaviour, Or.inr (Or.inr ⟨rfl, Or.inl ?_⟩), ?_⟩
        · by_contra hne
          have hlt := chooseCar_lt inp out markedCars p (Nat.pos_of_ne_zero hne)
          rw [List.getElem?_eq_getElem (lt_of_lt_of_eq hlt hlen.symm)] at hget
          exact Option.noConfusion hget
        · intro fuel
          rw [SolverGreedyLoopMarked, hrate]
          dsimp only
          rw [hspec]
          dsimp only
          rw [hhead]
          dsimp only
          rw [hget]
      | some b =>
        have hcar : chooseCar inp out markedCars p < inp.Cars :=
          lt_of_lt_of_eq (List.getElem?_eq_some_iff.1 hget).1 hlen
        have hcars : 0 < inp.Cars := Nat.lt_of_le_of_lt (Nat.zero_le _) hcar
        cases b with
        | true =>
          right
          refine ⟨pool2, hpool, Or.inl ?_⟩
          refine ⟨(chooseCar_marked_iff inp out markedCars p hcars).1
            (getD_of_getElem? _ _ _ hget), ?_⟩
          intro fuel
          rw [SolverGreedyLoopMarked, hrate]
          dsimp only
          rw [hspec]
          dsimp only
          rw [hhead]
          dsimp only
          rw [hget]
        | false =>
          cases hv : out.Visited inp p with
          | true =>
            right
            refine ⟨pool2, hpool, Or.inr (Or.inl ?_)⟩
            refine ⟨_, hcar, hget, ?_⟩
            intro fuel
            rw [SolverGreedyLoopMarked, hrate]
            dsimp only
            rw [hspec]
            dsimp only
            rw [hhead]
            dsimp only
            rw [hget]
            dsimp only
            rw [hv]
            simp
          | false =>
            cases hf : (out.SimulateMoveCar inp (chooseCar inp out markedCars p) p).feasible with
            | false =>
              right
              refine ⟨pool2, hpool, Or.inr (Or.inl ?_)⟩
              refine ⟨_, hcar, hget, ?_⟩
              intro fuel
              rw [SolverGreedyLoopMarked, hrate]
              dsimp only
              rw [hspec]
              dsimp only
              rw [hhead]
              dsimp only
              rw [hget]
              dsimp only
              rw [hv]
              simp [MoveCar_snd, hf, MoveCar_fst_of_not_feasible]
            | true =>
              have hT := (feasible_iff inp out _ p).1 hf
              cases hi : InsertPoint inp (chooseCar inp out markedCars p) maxDev
                  (inp.Points + 1) (out.applyMove inp (chooseCar inp out markedCars p) p) with
              | error e =>
                left
                refine ⟨e, ?_, ?_⟩
                · rcases InsertPoint_total inp _ maxDev hcar (inp.Points + 1)
                      (out.applyMove inp (chooseCar inp out markedCars p) p)
                      (unvisitedInner_lt inp _) with ⟨r, hok⟩ | herr | herr
                  · rw [hi] at hok; simp at hok
                  · rw [hi] at herr
                    exact Or.inl (by simpa using herr)
                  · rw [hi] at herr
                    exact Or.inr (Or.inl (by simpa using herr))
                · intro fuel
                  rw [SolverGreedyLoopMarked, hrate]
                  dsimp only
                  rw [hspec]
                  dsimp only
                  rw [hhead]
                  dsimp only
                  rw [hget]
                  dsimp only
                  rw [hv]
                  simp [MoveCar_snd, hf, MoveCar_fst_of_feasible, hi]
              | ok r =>
                obtain ⟨out3, k⟩ := r
                have hstart : out.Visited inp inp.StartPoint = true :=
                  (Visited_iff inp out _).2 ⟨_, hcar, by simp [Route]⟩
                have hpne : p ≠ inp.StartPoint := by
                  intro h
                  rw [h, hstart] at hv
                  exact absurd hv (by decide)
                have hpast : (out.applyMove inp (chooseCar inp out markedCars p) p).CarPoint inp
                    (chooseCar inp out markedCars p) ≠ inp.StartPoint := by
                  rw [CarPoint_applyMove]; exact hpne
                obtain ⟨ins, _, _, _, hvis, _, _⟩ :=
                  InsertPoint_route inp _ maxDev hcar _ _ _ _ hpast hT hi
                right
                refine ⟨pool2, hpool, Or.inr (Or.inr ⟨out3, p, hp, hv, ?_, ?_, ?_, ?_⟩)⟩
                · exact (hvis p).2 (Or.inl ((Visited_applyMove inp out _ p p hcar).2 (Or.inr rfl)))
                · intro q hq
                  exact (hvis q).2 (Or.inl ((Visited_applyMove inp out _ p q hcar).2 (Or.inl hq)))
                · intro hb
                  exact WithinBudget_InsertPoint inp _ maxDev _ _ _ _ hT hi
                    (WithinBudget_applyMove_feasible inp out _ p hb hf)
                · intro fuel
                  rw [SolverGreedyLoopMarked, hrate]
                  dsimp only
                  rw [hspec]
                  dsimp only
                  rw [hhead]
                  dsimp only
                  rw [hget]
                  dsimp only
                  rw [hv]
                  simp [MoveCar_snd, hf, MoveCar_fst_of_feasible, hi]
  · left
    refine ⟨e, ?_, ?_⟩
    · rcases he with h | h | ⟨h1, h2⟩
      · exact Or.inl h
      · exact Or.inr (Or.inl h)
      · exact Or.inr (Or.inr ⟨h1, Or.inl h2⟩)
    · intro fuel
      rw [SolverGreedyLoopMarked, hrate]
      dsimp only
      rw [hspec]

/-- The loop of `SolverGreedy` and the loop that also hands back `markedCars` do the same. -/
theorem SolverGreedyLoop_eq_marked (inp : TOP_Input) (wProfit wTime : Dbl) (maxDev : ℚ)
    (wNonCost : Dbl) :
    ∀ (fuel : Nat) (markedCars : List Bool) (pool : List TOP_Output) (out : TOP_Output),
      SolverGreedyLoop inp wProfit wTime maxDev wNonCost fuel markedCars pool out =
        match SolverGreedyLoopMarked inp wProfit wTime maxDev wNonCost fuel markedCars pool
            out with
        | .ok r => .ok (r.2.1, r.2.2)
        | .error e => .error e := by
  intro fuel
  induction fuel with
  | zero => intro markedCars pool out; rfl
  | succ fuel ih =>
    intro markedCars pool out
    rw [SolverGreedyLoop, SolverGreedyLoopMarked]
    cases h1 : ratePoints inp wProfit wTime wNonCost (List.range inp.Points) out with
    | error e => rfl
    | ok r1 =>
      obtain ⟨out1, ratings⟩ := r1
      dsimp only
      cases h2 : speculativeBranches inp maxDev markedCars
          ((min_elements inp.Points so_negcmp fun p => ratings.getD p Dbl.nan).drop 1)
          (pool, out1) with
      | error e => rfl
      | ok r2 =>
        obtain ⟨pool2, out2⟩ := r2
        dsimp only
        cases h3 : (min_elements inp.Points so_negcmp fun p => ratings.getD p Dbl.nan).head? with
        | none => rfl
        | some chosenPoint =>
          dsimp only
          cases h4 : markedCars[chooseCar inp out2 markedCars chosenPoint]? with
          | none => rfl
          | some b =>
            cases b with
            | true => rfl
            | false =>
              dsimp only
              split
              · exact ih _ _ _
              · split
                · exact ih _ _ _
                · cases hi : InsertPoint inp (chooseCar inp out2 markedCars chosenPoint) maxDev
                      (inp.Points + 1)
                      (out2.MoveCar inp (chooseCar inp out2 markedCars chosenPoint) chosenPoint
                        false).1 with
                  | error e => rfl
                  | ok r3 =>
                    obtain ⟨out3, k⟩ := r3
                    exact ih _ _ _

/-- What holds when the loop of `SolverGreedy` returns: every car is marked, every solution in
the pool was there before or is a snapshot that is within the budget if the solution on entry
is, the solution left is within the budget if the solution on entry is, and no point has been
un-visited. -/
theorem SolverGreedyLoopMarked_result (inp : TOP_Input) (wProfit wTime : Dbl) (maxDev : ℚ)
    (wNonCost : Dbl) :
    ∀ (fuel : Nat) (markedCars : List Bool) (pool : List TOP_Output) (out : TOP_Output)
      (marked1 : List Bool) (pool1 : List TOP_Output) (out1 : TOP_Output),
      markedCars.length = inp.Cars →
      SolverGreedyLoopMarked inp wProfit wTime maxDev wNonCost fuel markedCars pool out =
        .ok (marked1, pool1, out1) →
      (∀ i, i < inp.Cars → marked1.getD i false = true) ∧
        (∀ s ∈ pool1, s ∈ pool ∨ (WithinBudget inp out → WithinBudget inp s)) ∧
        (WithinBudget inp out → WithinBudget inp out1) ∧
        ∀ q, out.Visited inp q = true → out1.Visited inp q = true := by
  intro fuel
  induction fuel with
  | zero => intro markedCars pool out marked1 pool1 out1 _ h; simp [SolverGreedyLoopMarked] at h
  | succ fuel ih =>
    intro markedCars pool out marked1 pool1 out1 hlen h
    rcases SolverGreedyLoopMarked_step inp wProfit wTime maxDev wNonCost markedCars pool out
        hlen with ⟨e, _, he⟩ | ⟨pool2, hpool, hcase⟩
    · rw [he fuel] at h
      exact Except.noConfusion h
    · rcases hcase with ⟨hall, hexit⟩ | ⟨c, _, _, hmark⟩ | ⟨out3, p, _, _, _, hmono, hbud, hmove⟩
      · rw [hexit fuel] at h
        simp only [Except.ok.injEq, Prod.mk.injEq] at h
        obtain ⟨rfl, rfl, rfl⟩ := h
        exact ⟨hall, hpool, fun hb => hb, fun _ hq => hq⟩
      · rw [hmark fuel] at h
        obtain ⟨h1, h2, h3, h4⟩ := ih _ _ _ _ _ _ (by rw [List.length_set]; exact hlen) h
        refine ⟨h1, ?_, h3, h4⟩
        intro s hs
        rcases h2 s hs with hs2 | hs2
        · exact hpool s hs2
        · exact Or.inr hs2
      · rw [hmove fuel] at h
        obtain ⟨h1, h2, h3, h4⟩ := ih _ _ _ _ _ _ hlen h
        refine ⟨h1, ?_, fun hb => h3 (hbud hb), fun q hq => h4 q (hmono q hq)⟩
        intro s hs
        rcases h2 s hs with hs2 | hs2
        · exact hpool s hs2
        · exact Or.inr (fun hb => hs2 (hbud hb))

/-- The loop of `SolverGreedy` ends within one iteration more than there are unmarked cars and
unvisited points: with that much fuel it does not run out of fuel. -/
theorem SolverGreedyLoopMarked_terminates (inp : TOP_Input) (wProfit wTime : Dbl) (maxDev : ℚ)
    (wNonCost : Dbl) :
    ∀ (n : Nat) (markedCars : List Bool) (pool : List TOP_Output) (out : TOP_Output)
      (fuel : Nat) (e : Failure),
      markedCars.length = inp.Cars →
      markedCars.count false + unvisitedCount inp out ≤ n → n < fuel →
      SolverGreedyLoopMarked inp wProfit wTime maxDev wNonCost fuel markedCars pool out =
        .error e →
      e = .insertFailed ∨ e = .reinsertFailed ∨
        (e = .undefinedBehaviour ∧ (inp.Cars = 0 ∨ inp.Points = 0)) := by
  intro n
  induction n with
  | zero =>
    intro markedCars pool out fuel e hlen hmeasure hfuel h
    obtain ⟨f, rfl⟩ := Nat.exists_eq_succ_of_ne_zero (Nat.pos_iff_ne_zero.1 hfuel)
    rcases SolverGreedyLoopMarked_step inp wProfit wTime maxDev wNonCost markedCars pool out
        hlen with ⟨e1, he1, he⟩ | ⟨pool2, _, hcase⟩
    · rw [he f] at h
      simp only [Except.error.injEq] at h
      rw [← h]; exact he1
    · rcases hcase with ⟨_, hexit⟩ | ⟨c, _, hget, _⟩ | ⟨out3, p, hp, hunv, hvis, hmono, _, _⟩
      · rw [hexit f] at h
        exact Except.noConfusion h
      · have := count_false_set markedCars c hget
        omega
      · have := unvisitedCount_lt inp out out3 p hp hmono hunv hvis
        omega
  | succ n ih =>
    intro markedCars pool out fuel e hlen hmeasure hfuel h
    obtain ⟨f, rfl⟩ := Nat.exists_eq_succ_of_ne_zero (Nat.pos_iff_ne_zero.1
      (Nat.lt_of_le_of_lt (Nat.zero_le _) hfuel))
    rcases SolverGreedyLoopMarked_step inp wProfit wTime maxDev wNonCost markedCars pool out
        hlen with ⟨e1, he1, he⟩ | ⟨pool2, _, hcase⟩
    · rw [he f] at h
      simp only [Except.error.injEq] at h
      rw [← h]; exact he1
    · rcases hcase with ⟨_, hexit⟩ | ⟨c, _, hget, hmark⟩ |
        ⟨out3, p, hp, hunv, hvis, hmono, _, hmove⟩
      · rw [hexit f] at h
        exact Except.noConfusion h
      · have hcnt := count_false_set markedCars c hget
        rw [hmark f] at h
        exact ih _ _ _ f e (by rw [List.length_set]; exact hlen) (by omega) (by omega) h
      · have hcnt := unvisitedCount_lt inp out out3 p hp hmono hunv hvis
        rw [hmove f] at h
        exact ih _ _ _ f e hlen (by omega) (by omega) h

/-- A run of `SolverGreedy` keeps the time budget: from a pool and a solution within the budget
it leaves a pool and a solution within the budget. -/
theorem WithinBudget_SolverGreedy (fuel : Nat) (pool : List TOP_Output) (inp : TOP_Input)
    (out : TOP_Output) (wProfit wTime : Dbl) (maxDev : ℚ) (wNonCost : Dbl)
    (r : List TOP_Output × TOP_Output)
    (h : SolverGreedy fuel pool inp out wProfit wTime maxDev wNonCost = .ok r)
    (hpool : ∀ s ∈ pool, WithinBudget inp s) (hout : WithinBudget inp out) :
    (∀ s ∈ r.1, WithinBudget inp s) ∧ WithinBudget inp r.2 := by
  unfold SolverGreedy at h
  rw [SolverGreedyLoop_eq_marked] at h
  cases hm : SolverGreedyLoopMarked inp wProfit wTime maxDev wNonCost fuel
      (List.replicate inp.Cars false) pool out with
  | error e => rw [hm] at h; exact Except.noConfusion h
  | ok r1 =>
    obtain ⟨marked1, pool1, out1⟩ := r1
    rw [hm] at h
    simp only [Except.ok.injEq] at h
    obtain ⟨_, h2, h3, _⟩ := SolverGreedyLoopMarked_result inp wProfit wTime maxDev wNonCost fuel
      _ pool out marked1 pool1 out1 (List.length_replicate _ _) hm
    rw [← h]
    refine ⟨fun s hs => ?_, h3 hout⟩
    rcases h2 s hs with hs2 | hs2
    · exact hpool s hs2
    · exact hs2 hout

/-- Claim C4: if in the input solution every car's travel time is at most `MaxTime`, then in
the solution returned by `SolverAll`, in the solution left by every `SolverGreedy` run and in
every solution that has been in the pool (the input and every snapshot pushed, popped or not)
every car's travel time is at most `MaxTime`. -/
theorem SolverAll_within_budget (fuel : Nat) (inp : TOP_Input) (out : TOP_Output)
    (wProfit wTime : Dbl) (maxDeviationAdmitted : ℚ) (wNonCost : Dbl)
    (h : ∀ car < inp.Cars, out.TravelTime car ≤ inp.MaxTime) :
    match SolverAllRun fuel inp out wProfit wTime maxDeviationAdmitted wNonCost with
    | .ok st =>
      (∀ car < inp.Cars, st.out.TravelTime car ≤ inp.MaxTime) ∧
      (∀ s ∈ st.solved, ∀ car < inp.Cars, s.TravelTime car ≤ inp.MaxTime) ∧
      (∀ s ∈ st.popped, ∀ car < inp.Cars, s.TravelTime car ≤ inp.MaxTime) ∧
      ∀ s ∈ st.partial_solutions, ∀ car < inp.Cars, s.TravelTime car ≤ inp.MaxTime
    | .error _ => True := by
  cases hr : SolverAllRun fuel inp out wProfit wTime maxDeviationAdmitted wNonCost with
  | error e => trivial
  | ok st =>
    unfold SolverAllRun at hr
    obtain ⟨h1, h2, h3, h4⟩ := SolverAllLoop_preserves _ (WithinBudget inp)
      (fun pool s r hgr hp hs =>
        WithinBudget_SolverGreedy fuel pool inp s wProfit wTime maxDeviationAdmitted wNonCost r
          hgr hp hs)
      512 _ st hr (by intro x hx; have : x = out := by simpa using hx
                      rw [this]; exact h) h (by simp) (by simp)
    exact ⟨h2, h4, h3, h1⟩

theorem SolverAll_within_budget_witness :
    (∀ car < lineInstanceWide.Cars,
      (emptySolution lineInstanceWide).TravelTime car ≤ lineInstanceWide.MaxTime) ∧
    match SolverAllRun 3 lineInstanceWide (emptySolution lineInstanceWide) (.fin 1) (.fin 1) 0
        (.fin 1) with
    | .ok st =>
      (∀ car < lineInstanceWide.Cars, st.out.TravelTime car ≤ lineInstanceWide.MaxTime) ∧
      (∀ s ∈ st.solved, ∀ car < lineInstanceWide.Cars,
        s.TravelTime car ≤ lineInstanceWide.MaxTime) ∧
      (∀ s ∈ st.popped, ∀ car < lineInstanceWide.Cars,
        s.TravelTime car ≤ lineInstanceWide.MaxTime) ∧
      ∀ s ∈ st.partial_solutions, ∀ car < lineInstanceWide.Cars,
        s.TravelTime car ≤ lineInstanceWide.MaxTime
    | .error _ => True :=
  ⟨fun _ _ =>
      show lineInstanceWide.Distance lineInstanceWide.StartPoint lineInstanceWide.EndPoint ≤
        lineInstanceWide.MaxTime by decide!,
    SolverAll_within_budget 3 lineInstanceWide (emptySolution lineInstanceWide) (.fin 1) (.fin 1)
      0 (.fin 1) (fun _ _ =>
        show lineInstanceWide.Distance lineInstanceWide.StartPoint lineInstanceWide.EndPoint ≤
          lineInstanceWide.MaxTime by decide!)⟩

/-- Claim C13: with at least one car, the car selected for a point (Kevin.cpp:291-296 and
319-324) is a car of the instance; it is marked if and only if all cars are marked; when some
car is unmarked it is unmarked and no unmarked car is nearer to the point, and every unmarked
car of lower index is strictly farther. Consequently the loop of `SolverGreedy` exits only
with every car marked: the run that also hands back its `markedCars` returns the pool and the
solution that `SolverGreedy` returns, and in the `markedCars` it returns every car is marked. -/
theorem chooseCar_selects_nearest_unmarked (inp : TOP_Input) (out : TOP_Output)
    (markedCars : List Bool) (p : idx_t) (hcars : 0 < inp.Cars) :
    chooseCar inp out markedCars p < inp.Cars ∧
      (markedCars.getD (chooseCar inp out markedCars p) false = true ↔
        ∀ i, i < inp.Cars → markedCars.getD i false = true) ∧
      (∀ i, i < inp.Cars → markedCars.getD i false = false →
        markedCars.getD (chooseCar inp out markedCars p) false = false ∧
        calculateDistance inp out p (chooseCar inp out markedCars p) ≤
          calculateDistance inp out p i ∧
        (i < chooseCar inp out markedCars p →
          calculateDistance inp out p (chooseCar inp out markedCars p) <
            calculateDistance inp out p i)) ∧
      ∀ (fuel : Nat) (wProfit wTime : Dbl) (maxDeviationAdmitted : ℚ) (wNonCost : Dbl)
        (pool : List TOP_Output),
        match SolverGreedyLoopMarked inp wProfit wTime maxDeviationAdmitted wNonCost fuel
            (List.replicate inp.Cars false) pool out with
        | .ok r =>
          SolverGreedy fuel pool inp out wProfit wTime maxDeviationAdmitted wNonCost =
              .ok (r.2.1, r.2.2) ∧
            ∀ i, i < inp.Cars → r.1.getD i false = true
        | .error e =>
          SolverGreedy fuel pool inp out wProfit wTime maxDeviationAdmitted wNonCost =
            .error e := by
  refine ⟨chooseCar_lt inp out markedCars p hcars, chooseCar_marked_iff inp out markedCars p hcars,
    fun i hi hmi => chooseCar_nearest inp out markedCars p i hi hmi, ?_⟩
  intro fuel wProfit wTime mdev wNonCost pool
  unfold SolverGreedy
  rw [SolverGreedyLoop_eq_marked]
  cases hm : SolverGreedyLoopMarked inp wProfit wTime mdev wNonCost fuel
      (List.replicate inp.Cars false) pool out with
  | error e => rfl
  | ok r =>
    obtain ⟨marked1, pool1, out1⟩ := r
    exact ⟨rfl, (SolverGreedyLoopMarked_result inp wProfit wTime mdev wNonCost fuel _ pool out
      marked1 pool1 out1 (List.length_replicate _ _) hm).1⟩

theorem chooseCar_selects_nearest_unmarked_witness :
    0 < twoCarInstance.Cars ∧
    (chooseCar twoCarInstance twoCarSolution [true, false] 2 < twoCarInstance.Cars ∧
      ([true, false].getD (chooseCar twoCarInstance twoCarSolution [true, false] 2) false = true ↔
        ∀ i, i < twoCarInstance.Cars → [true, false].getD i false = true) ∧
      (∀ i, i < twoCarInstance.Cars → [true, false].getD i false = false →
        [true, false].getD (chooseCar twoCarInstance twoCarSolution [true, false] 2) false = false ∧
        calculateDistance twoCarInstance twoCarSolution 2
            (chooseCar twoCarInstance twoCarSolution [true, false] 2) ≤
          calculateDistance twoCarInstance twoCarSolution 2 i ∧
        (i < chooseCar twoCarInstance twoCarSolution [true, false] 2 →
          calculateDistance twoCarInstance twoCarSolution 2
              (chooseCar twoCarInstance twoCarSolution [true, false] 2) <
            calculateDistance twoCarInstance twoCarSolution 2 i)) ∧
      ∀ (fuel : Nat) (wProfit wTime : Dbl) (maxDeviationAdmitted : ℚ) (wNonCost : Dbl)
        (pool : List TOP_Output),
        match SolverGreedyLoopMarked twoCarInstance wProfit wTime maxDeviationAdmitted wNonCost
            fuel (List.replicate twoCarInstance.Cars false) pool twoCarSolution with
        | .ok r =>
          SolverGreedy fuel pool twoCarInstance twoCarSolution wProfit wTime maxDeviationAdmitted
              wNonCost = .ok (r.2.1, r.2.2) ∧
            ∀ i, i < twoCarInstance.Cars → r.1.getD i false = true
        | .error e =>
          SolverGreedy fuel pool twoCarInstance twoCarSolution wProfit wTime maxDeviationAdmitted
            wNonCost = .error e) :=
  ⟨by decide, chooseCar_selects_nearest_unmarked twoCarInstance twoCarSolution [true, false] 2
    (by decide)⟩

/-- Claim C19: `SolverGreedy` terminates. With one unit of fuel per iteration of its loop and
fuel for (number of cars + number of unvisited points + 1) iterations, the run does not run out
of fuel: it returns, with no point un-visited, or it ends with an exception of `InsertPoint`
(or, in an instance without a car or without a point, with the undefined operation of its
first iteration). The bound holds because an iteration of the loop, begun with one mark per
car, fails in one of these ways, or exits (only when every car is marked), or marks one car
that was unmarked and leaves the other marks and the solution as they were, or goes on with the
same marks and a solution in which no point has been un-visited and fewer points are
unvisited. -/
theorem SolverGreedy_terminates (fuel : Nat) (pool : List TOP_Output) (inp : TOP_Input)
    (out : TOP_Output) (wProfit wTime : Dbl) (maxDeviationAdmitted : ℚ) (wNonCost : Dbl)
    (hfuel : inp.Cars + unvisitedCount inp out + 1 ≤ fuel) :
    (match SolverGreedy fuel pool inp out wProfit wTime maxDeviationAdmitted wNonCost with
      | .ok r => ∀ q, out.Visited inp q = true → r.2.Visited inp q = true
      | .error e => e = .insertFailed ∨ e = .reinsertFailed ∨
          (e = .undefinedBehaviour ∧ (inp.Cars = 0 ∨ inp.Points = 0))) ∧
      ∀ (markedCars : List Bool) (pool0 : List TOP_Output) (out0 : TOP_Output),
        markedCars.length = inp.Cars →
        (∃ e, (e = .insertFailed ∨ e = .reinsertFailed ∨
              (e = .undefinedBehaviour ∧ (inp.Cars = 0 ∨ inp.Points = 0))) ∧
            ∀ f, SolverGreedyLoop inp wProfit wTime maxDeviationAdmitted wNonCost (f + 1)
              markedCars pool0 out0 = .error e) ∨
        ∃ pool2,
          ((∀ i, i < inp.Cars → markedCars.getD i false = true) ∧
            ∀ f, SolverGreedyLoop inp wProfit wTime maxDeviationAdmitted wNonCost (f + 1)
              markedCars pool0 out0 = .ok (pool2, out0)) ∨
          (∃ c, c < inp.Cars ∧ markedCars[c]? = some false ∧
            (markedCars.set c true).count false + 1 = markedCars.count false ∧
            ∀ f, SolverGreedyLoop inp wProfit wTime maxDeviationAdmitted wNonCost (f + 1)
                markedCars pool0 out0 =
              SolverGreedyLoop inp wProfit wTime maxDeviationAdmitted wNonCost f
                (markedCars.set c true) pool2 out0) ∨
          ∃ out3 p, p < inp.Points ∧ out0.Visited inp p = false ∧ out3.Visited inp p = true ∧
            (∀ q, out0.Visited inp q = true → out3.Visited inp q = true) ∧
            unvisitedCount inp out3 < unvisitedCount inp out0 ∧
            ∀ f, SolverGreedyLoop inp wProfit wTime maxDeviationAdmitted wNonCost (f + 1)
                markedCars pool0 out0 =
              SolverGreedyLoop inp wProfit wTime maxDeviationAdmitted wNonCost f markedCars
                pool2 out3 := by
  constructor
  · unfold SolverGreedy
    rw [SolverGreedyLoop_eq_marked]
    cases hm : SolverGreedyLoopMarked inp wProfit wTime maxDeviationAdmitted wNonCost fuel
        (List.replicate inp.Cars false) pool out with
    | error e =>
      exact SolverGreedyLoopMarked_terminates inp wProfit wTime maxDeviationAdmitted wNonCost
        (inp.Cars + unvisitedCount inp out) _ pool out fuel e (List.length_replicate _ _)
        (by rw [List.count_replicate_self]) hfuel hm
    | ok r =>
      obtain ⟨marked1, pool1, out1⟩ := r
      exact (SolverGreedyLoopMarked_result inp wProfit wTime maxDeviationAdmitted wNonCost fuel
        _ pool out marked1 pool1 out1 (List.length_replicate _ _) hm).2.2.2
  · intro markedCars pool0 out0 hlen
    rcases SolverGreedyLoopMarked_step inp wProfit wTime maxDeviationAdmitted wNonCost markedCars
        pool0 out0 hlen with ⟨e, he, hE⟩ | ⟨pool2, _, hcase⟩
    · refine Or.inl ⟨e, he, fun f => ?_⟩
      rw [SolverGreedyLoop_eq_marked, hE f]
    · refine Or.inr ⟨pool2, ?_⟩
      rcases hcase with ⟨hall, hexit⟩ | ⟨c, hc, hget, hmark⟩ |
        ⟨out3, p, hp, hunv, hvis, hmono, _, hmove⟩
      · refine Or.inl ⟨hall, fun f => ?_⟩
        rw [SolverGreedyLoop_eq_marked, hexit f]
      · refine Or.inr (Or.inl ⟨c, hc, hget, count_false_set markedCars c hget, fun f => ?_⟩)
        rw [SolverGreedyLoop_eq_marked, hmark f]
        exact (SolverGreedyLoop_eq_marked inp wProfit wTime maxDeviationAdmitted wNonCost f _ _
          _).symm
      · refine Or.inr (Or.inr ⟨out3, p, hp, hunv, hvis, hmono,
          unvisitedCount_lt inp out0 out3 p hp hmono hunv hvis, fun f => ?_⟩)
        rw [SolverGreedyLoop_eq_marked, hmove f]
        exact (SolverGreedyLoop_eq_marked inp wProfit wTime maxDeviationAdmitted wNonCost f _ _
          _).symm

theorem SolverGreedy_terminates_witness :
    twoCarInstance.Cars + unvisitedCount twoCarInstance twoCarAtTwo + 1 ≤ 5 ∧
    ((match SolverGreedy 5 [] twoCarInstance twoCarAtTwo (.fin 1) (.fin 1) 0 (.fin 1) with
      | .ok r => ∀ q, twoCarAtTwo.Visited twoCarInstance q = true →
          r.2.Visited twoCarInstance q = true
      | .error e => e = .insertFailed ∨ e = .reinsertFailed ∨
          (e = .undefinedBehaviour ∧ (twoCarInstance.Cars = 0 ∨ twoCarInstance.Points = 0))) ∧
      ∀ (markedCars : List Bool) (pool0 : List TOP_Output) (out0 : TOP_Output),
        markedCars.length = twoCarInstance.Cars →
        (∃ e, (e = .insertFailed ∨ e = .reinsertFailed ∨
              (e = .undefinedBehaviour ∧
                (twoCarInstance.Cars = 0 ∨ twoCarInstance.Points = 0))) ∧
            ∀ f, SolverGreedyLoop twoCarInstance (.fin 1) (.fin 1) 0 (.fin 1) (f + 1)
              markedCars pool0 out0 = .error e) ∨
        ∃ pool2,
          ((∀ i, i < twoCarInstance.Cars → markedCars.getD i false = true) ∧
            ∀ f, SolverGreedyLoop twoCarInstance (.fin 1) (.fin 1) 0 (.fin 1) (f + 1)
              markedCars pool0 out0 = .ok (pool2, out0)) ∨
          (∃ c, c < twoCarInstance.Cars ∧ markedCars[c]? = some false ∧
            (markedCars.set c true).count false + 1 = markedCars.count false ∧
            ∀ f, SolverGreedyLoop twoCarInstance (.fin 1) (.fin 1) 0 (.fin 1) (f + 1)
                markedCars pool0 out0 =
              SolverGreedyLoop twoCarInstance (.fin 1) (.fin 1) 0 (.fin 1) f
                (markedCars.set c true) pool2 out0) ∨
          ∃ out3 p, p < twoCarInstance.Points ∧ out0.Visited twoCarInstance p = false ∧
            out3.Visited twoCarInstance p = true ∧
            (∀ q, out0.Visited twoCarInstance q = true → out3.Visited twoCarInstance q = true) ∧
            unvisitedCount twoCarInstance out3 < unvisitedCount twoCarInstance out0 ∧
            ∀ f, SolverGreedyLoop twoCarInstance (.fin 1) (.fin 1) 0 (.fin 1) (f + 1)
                markedCars pool0 out0 =
              SolverGreedyLoop twoCarInstance (.fin 1) (.fin 1) 0 (.fin 1) f markedCars
                pool2 out3) :=
  ⟨by decide!, SolverGreedy_terminates 5 [] twoCarInstance twoCarAtTwo (.fin 1) (.fin 1) 0
    (.fin 1) (by decide!)⟩

/-- On `twoCarInstance`, from the solution in which car 0 stands on point 2, `SolverGreedy`
returns: car 1 has gone to the end depot, car 0 has not moved, and no snapshot is in the pool. -/
theorem SolverGreedy_twoCarAtTwo :
    (match SolverGreedy 5 [] twoCarInstance twoCarAtTwo (.fin 1) (.fin 1) 0 (.fin 1) with
      | .ok r => decide (r.1.length = 0 ∧ r.2.car_hops 0 = [2] ∧ r.2.car_hops 1 = [3])
      | .error _ => false) = true := by
  decide!

/-! ## The code at the inputs where it departs from the claims -/


/-- Claim C6, in general: called on a car that stands at the start depot, `InsertPoint` returns
normally, with the solution unchanged and 0 insertions; the `runtime_error` object built at
Kevin.cpp:259 is not thrown. -/
theorem InsertPoint_at_start_returns_zero (inp : TOP_Input) (car : idx_t) (maxDeviationAdmitted : ℚ)
    (fuel : Nat) (out : TOP_Output) (h : out.CarPoint inp car = inp.StartPoint) :
    InsertPoint inp car maxDeviationAdmitted (fuel + 1) out = .ok (out, 0) := by
  rw [InsertPoint, if_neg (not_not.2 h)]

theorem InsertPoint_at_start_returns_zero_witness :
    (emptySolution lineInstance).CarPoint lineInstance 0 = lineInstance.StartPoint ∧
      InsertPoint lineInstance 0 0 1 (emptySolution lineInstance) =
        .ok (emptySolution lineInstance, 0) :=
  ⟨rfl, InsertPoint_at_start_returns_zero lineInstance 0 0 0 (emptySolution lineInstance) rfl⟩

/-- Claim C7, at the failing input: in `lineOverBudget` the car stands at point 1 and point 2 is
a candidate. `InsertPoint` rolls the last hop back, finds the detour over the budget and tries to
move the car back to point 1; that move reports infeasible, and `InsertPoint` returns 0 normally
instead of raising, leaving the car at the depot, one hop short. -/
theorem InsertPoint_no_raise_on_failed_reinsertion :
    (lineOverBudget.car_hops 0 = [1] ∧
      inEllipse lineInstance lineOverBudget 0 0 = [2] ∧
      (match lineOverBudget.RollbackCar lineInstance 0 with
        | some out1 => !(out1.SimulateMoveCar lineInstance 0 1).feasible
        | none => false) = true) ∧
    (match InsertPoint lineInstance 0 0 2 lineOverBudget with
      | .ok (out1, k) => decide (k = 0 ∧ out1.car_hops 0 = [])
      | .error _ => false) = true := by
  decide!

/-- Claim C8, at the failing input: in `lineOverBudget` the car is past the start depot, over
its budget, with a route of 2 entries and point 1 visited. The re-insertion of point 1 at
Kevin.cpp:247 is infeasible and the error of :248 is built but not thrown, so `InsertPoint`
returns 0 without raising, and leaves a route of 1 entry and point 1 unvisited: the route is
not 0 entries longer and the visited set has not grown by 0 points. -/
theorem InsertPoint_count_not_exact_over_budget :
    (lineOverBudget.CarPoint lineInstance 0 ≠ lineInstance.StartPoint ∧
      lineOverBudget.Hops lineInstance 0 = 2 ∧
      lineOverBudget.Visited lineInstance 1 = true) ∧
    (match InsertPoint lineInstance 0 0 2 lineOverBudget with
      | .ok (out1, k) =>
        decide (k = 0 ∧ out1.Hops lineInstance 0 = 1 ∧ out1.Visited lineInstance 1 = false)
      | .error _ => false) = true := by
  decide!

/-- Claim C20, at the failing input: on `lineOverBudget` the car stands at point 1, past the
start depot; the call of `InsertPoint` returns without raising (the error of Kevin.cpp:248 is
built but not thrown), and after it the car stands at the start depot. -/
theorem InsertPoint_moves_car_when_over_budget :
    lineOverBudget.CarPoint lineInstance 0 = 1 ∧ lineInstance.StartPoint = 0 ∧
    (match InsertPoint lineInstance 0 0 3 lineOverBudget with
      | .ok (out1, _) => decide (out1.CarPoint lineInstance 0 = 0)
      | .error _ => false) = true := by
  decide!

/-- Claim C16, counterexample: on `wideAtOne` point 1 is visited (the car stands on it), and
`verifyFeasibility` answers true for it: the car can be moved to it at no extra time. -/
theorem verifyFeasibility_true_on_visited_point :
    wideAtOne.Visited lineInstanceWide 1 = true ∧
      verifyFeasibility lineInstanceWide wideAtOne 1 = true := by
  decide!

/-- Claim C11, counterexample: on `detourAtThree` the car stands at point 3 and the candidates
are the points 1 and 2. `InsertPoint` puts point 1 on the route, at distance 5 from point 3,
whereas the candidate 2 is at distance 1 from point 3 (point 1 is the candidate nearest to the
start depot, the previous position of the car). -/
theorem InsertPoint_splice_not_nearest_to_entry_position :
    detourAtThree.CarPoint detourInstance 0 = 3 ∧
    inEllipse detourInstance detourAtThree 0 2 = [1, 2] ∧
    (match InsertPoint detourInstance 0 2 6 detourAtThree with
      | .ok (out1, k) => decide (k = 1 ∧ out1.car_hops 0 = [1, 3])
      | .error _ => false) = true ∧
    detourInstance.Distance 2 3 < detourInstance.Distance 1 3 := by
  decide!

/-- Claim C17, counterexample: in `zeroProfitInstance` the car stands at the end depot and the
total unvisited profit is 0. The move to point 2 is feasible, and after it no unvisited point
can feasibly be reached by the car; `NonChoicheCost(0, 2, 0)` returns `+inf`, not 0. -/
theorem NonChoicheCost_unbounded_without_reachable_point :
    (zeroProfitAtEnd.SimulateMoveCar zeroProfitInstance 0 2).feasible = true ∧
    (∀ q, q < zeroProfitInstance.Points →
      (zeroProfitAtEnd.MoveCar zeroProfitInstance 0 2 true).1.Visited zeroProfitInstance q = true ∨
      ((zeroProfitAtEnd.MoveCar zeroProfitInstance 0 2 true).1.SimulateMoveCar
        zeroProfitInstance 0 q).feasible = false) ∧
    (match NonChoicheCost zeroProfitInstance zeroProfitAtEnd 0 2 0 with
      | .ok (_, v) => decide (v = .pinf ∧ v ≠ .fin 0)
      | .error _ => false) = true := by
  decide!

/-- Claim C18, counterexample: in the scenario with depot-to-depot distance 10 and weights 1
the solution returned by `SolverAll` does not visit the intermediate point (the car has no time
left at the start, every rating is `-inf`); with depot-to-depot distance 5, `wProfit = 1` and
`wTime = 100` it does not visit it either, and the travel time of the car is 5 (the end depot
is rated higher, and from there the intermediate point is out of reach). -/
theorem SolverAll_scenario_counterexample :
    (match SolverAll 3 (scenarioInstance 10 1) (emptySolution (scenarioInstance 10 1)) (.fin 1)
        (.fin 1) 0 (.fin 1) with
      | .ok out => decide (out.Visited (scenarioInstance 10 1) 1 = false)
      | .error _ => false) = true ∧
    (match SolverAll 3 (scenarioInstance 5 1) (emptySolution (scenarioInstance 5 1)) (.fin 1)
        (.fin 100) 0 (.fin 1) with
      | .ok out => decide (out.Visited (scenarioInstance 5 1) 1 = false ∧ out.TravelTime 0 = 5)
      | .error _ => false) = true := by
  decide!

end ASS_TOP
